import Mathlib

/-!
# LibreCAD arc kernel (RS_Arc): shallow embedding and verified properties

The arc entity of `librecad/src/lib/engine/document/entities/rs_arc.cpp` is embedded as pure
functions on an explicit arc state.  A C++ `double` is a value of an ordered field `K`; the
functions of the C math library and the engine's tolerance constants form an environment `Env K`
that every operation receives, so the embedding itself is executable.  Analytic statements are
proved for the environment `realEnv` of exact real arithmetic.
-/

namespace LibreCAD

/-! ## Numeric environment -/

/-- Numeric environment of the kernel: the C math library functions called by `rs_arc.cpp`
(`M_PI`, `sqrt`, `sin`, `cos`, `tan`, `atan`, `atan2(y, x)`, `fmod`, `remainder`) and the
tolerance constants `RS_TOLERANCE`, `RS_TOLERANCE2`, `RS_TOLERANCE_ANGLE`, whose header is not
part of the sources and which are therefore parameters. -/
structure Env (K : Type) where
  pi : K
  sqrt : K → K
  sin : K → K
  cos : K → K
  tan : K → K
  atan : K → K
  atan2 : K → K → K
  fmod : K → K → K
  remainder : K → K → K
  RS_TOLERANCE : K
  RS_TOLERANCE2 : K
  RS_TOLERANCE_ANGLE : K

/-- Quotient rounded towards zero, as used by C `fmod`. -/
noncomputable def truncQuot (q : ℝ) : ℤ :=
  if 0 ≤ q then ⌊q⌋ else ⌈q⌉

/-- Quotient rounded to the nearest integer, ties to even, as used by C `remainder`. -/
noncomputable def roundEven (q : ℝ) : ℤ :=
  if q - ⌊q⌋ < 1 / 2 then ⌊q⌋
  else if 1 / 2 < q - ⌊q⌋ then ⌊q⌋ + 1
  else if ⌊q⌋ % 2 = 0 then ⌊q⌋ else ⌊q⌋ + 1

/-- The environment of exact real arithmetic: every library function is the mathematical
function it approximates (`atan2 y x` is the argument of `x + y i`, `fmod` and `remainder` follow
the C standard), with the three tolerance constants given. -/
noncomputable def realEnv (tol tol2 tolA : ℝ) : Env ℝ where
  pi := Real.pi
  sqrt := Real.sqrt
  sin := Real.sin
  cos := Real.cos
  tan := Real.tan
  atan := Real.arctan
  atan2 := fun y x => Complex.arg ⟨x, y⟩
  fmod := fun x y => x - y * (truncQuot (x / y) : ℝ)
  remainder := fun x y => x - y * (roundEven (x / y) : ℝ)
  RS_TOLERANCE := tol
  RS_TOLERANCE2 := tol2
  RS_TOLERANCE_ANGLE := tolA

/-- The real environment with the tolerance values LibreCAD ships with
(`1.0e-10`, `1.0e-20`, `1.0e-8`). -/
noncomputable def stdEnv : Env ℝ :=
  realEnv (1 / 10 ^ 10) (1 / 10 ^ 20) (1 / 10 ^ 8)

/-! ## RS_Math -/

namespace RS_Math

variable {K : Type} [LinearOrderedField K]

/-- Modelled from the spec: `RS_Math::correctAngle` (rs_math.cpp is not among the sources),
the canonical representative of an angle modulo a full turn.  The arc code compares its results
with `1.5*M_PI` and with `M_PI ± 0.1` and needs sweeps in `(0, 2π]`, so the convention is the
range `[0, 2π)`: `fmod(M_PI + remainder(a - M_PI, 2*M_PI), 2*M_PI)`. -/
def correctAngle (E : Env K) (a : K) : K :=
  E.fmod (E.pi + E.remainder (a - E.pi) (2 * E.pi)) (2 * E.pi)

/-- Modelled from the spec: `RS_Math::getAngleDifferenceU` (rs_math.cpp is not among the
sources), the unsigned angular distance of two angles with wraparound, in `[0, π]`. -/
def getAngleDifferenceU (E : Env K) (a1 a2 : K) : K :=
  |E.remainder (a1 - a2) (2 * E.pi)|

/-- Modelled from the spec: `RS_Math::isAngleBetween` (rs_math.cpp is not among the sources),
the `reversed`-aware angular containment test: `a` lies on the counter-clockwise span from `a1`
to `a2` (from `a2` to `a1` when `reversed`), up to half the angle tolerance; a span shorter than
the angle tolerance counts as the full circle. -/
def isAngleBetween (E : Env K) (a a1 a2 : K) (reversed : Bool) : Bool :=
  let s := if reversed then a2 else a1
  let e := if reversed then a1 else a2
  if getAngleDifferenceU E e s < E.RS_TOLERANCE_ANGLE then true
  else
    let diff0 := correctAngle E (e - s) + (1 / 2) * E.RS_TOLERANCE_ANGLE
    decide (correctAngle E (a - s) ≤ diff0) || decide (correctAngle E (e - a) ≤ diff0)

/-- Modelled from the spec: `RS_Math::isSameDirection` (rs_math.cpp is not among the sources),
two directions that differ by less than `tol`, or by more than a full turn less `tol`. -/
def isSameDirection (E : Env K) (dir1 dir2 tol : K) : Bool :=
  decide (|dir1 - dir2| < tol) || decide (|dir1 - dir2| > 2 * E.pi - tol)

end RS_Math

/-! ## RS_Vector -/

/-- Modelled from the spec: `RS_Vector` (rs_vector.cpp is not among the sources), the 2D
vector type with an explicit undefined state.  Only the planar coordinates are kept. -/
structure RS_Vector (K : Type) where
  x : K
  y : K
  valid : Bool

namespace RS_Vector

variable {K : Type} [LinearOrderedField K]

/-- Modelled from the spec: `RS_Vector(x, y)` and `set(x, y)`, a defined vector. -/
def mk2 (x y : K) : RS_Vector K := ⟨x, y, true⟩

/-- Modelled from the spec: `RS_Vector(false)`, the undefined sentinel. -/
def invalid : RS_Vector K := ⟨0, 0, false⟩

/-- Modelled from the spec: `RS_Vector(angle)`, the unit vector at an angle. -/
def ofAngle (E : Env K) (a : K) : RS_Vector K := ⟨E.cos a, E.sin a, true⟩

/-- Modelled from the spec: `RS_Vector::polar` and `setPolar`, polar construction. -/
def polar (E : Env K) (rho theta : K) : RS_Vector K :=
  ⟨rho * E.cos theta, rho * E.sin theta, true⟩

/-- Modelled from the spec: `operator+`, a fresh defined vector. -/
def add (v w : RS_Vector K) : RS_Vector K := ⟨v.x + w.x, v.y + w.y, true⟩

/-- Modelled from the spec: `operator-`, a fresh defined vector. -/
def sub (v w : RS_Vector K) : RS_Vector K := ⟨v.x - w.x, v.y - w.y, true⟩

/-- Modelled from the spec: `operator+=`, which changes the coordinates in place. -/
def addAssign (v w : RS_Vector K) : RS_Vector K := ⟨v.x + w.x, v.y + w.y, v.valid⟩

/-- Modelled from the spec: `operator*(double)`, scalar scaling. -/
def smul (v : RS_Vector K) (s : K) : RS_Vector K := ⟨v.x * s, v.y * s, true⟩

/-- Modelled from the spec: `operator/(double)`. -/
def sdiv (v : RS_Vector K) (s : K) : RS_Vector K := ⟨v.x / s, v.y / s, true⟩

/-- Modelled from the spec: `RS_Vector::squared`, the squared length. -/
def squared (v : RS_Vector K) : K := v.x * v.x + v.y * v.y

/-- Modelled from the spec: `RS_Vector::magnitude`, the length. -/
def magnitude (E : Env K) (v : RS_Vector K) : K := E.sqrt (v.x * v.x + v.y * v.y)

/-- Modelled from the spec: `RS_Vector::distanceTo`. -/
def distanceTo (E : Env K) (v w : RS_Vector K) : K := magnitude E (sub v w)

/-- Modelled from the spec: `RS_Vector::angle`, the direction of the vector as a corrected
angle. -/
def angle (E : Env K) (v : RS_Vector K) : K := RS_Math.correctAngle E (E.atan2 v.y v.x)

/-- Modelled from the spec: `RS_Vector::angleTo`, the direction from `v` to `w`. -/
def angleTo (E : Env K) (v w : RS_Vector K) : K := angle E (sub w v)

/-- Modelled from the spec: `RS_Vector::relative`, the point at a distance and angle from `v`. -/
def relative (E : Env K) (v : RS_Vector K) (distance ang : K) : RS_Vector K :=
  add v (polar E distance ang)

/-- Modelled from the spec: `RS_Vector::rotate(angleVector)`, rotation about the origin by the
direction of a unit vector. -/
def rotateBy (v av : RS_Vector K) : RS_Vector K :=
  ⟨v.x * av.x - v.y * av.y, v.x * av.y + v.y * av.x, v.valid⟩

/-- Modelled from the spec: `RS_Vector::rotate(center, angleVector)`, rotation about a point. -/
def rotateAbout (v center av : RS_Vector K) : RS_Vector K :=
  add center (rotateBy (sub v center) av)


/-- Modelled from the spec: `operator*=(double)`, scaling in place. -/
def mulAssign (v : RS_Vector K) (s : K) : RS_Vector K := ⟨v.x * s, v.y * s, v.valid⟩

/-- Modelled from the spec: `RS_Vector::dotP`, the dot product. -/
def dotP (v w : RS_Vector K) : K := v.x * w.x + v.y * w.y

/-- Modelled from the spec: `RS_Vector::squaredTo`, the squared distance. -/
def squaredTo (v w : RS_Vector K) : K := squared (sub v w)

/-- Modelled from the spec: `RS_Vector::mirror(axisPoint1, axisPoint2)`, the reflection across
the line through the two axis points: twice the foot of the perpendicular minus the vector. -/
def mirror (v axisPoint1 axisPoint2 : RS_Vector K) : RS_Vector K :=
  let direction := sub axisPoint2 axisPoint1
  let a := squared direction
  let ret := add axisPoint1 (sdiv (smul direction (dotP (sub v axisPoint1) direction)) a)
  sub (add ret ret) v

/-- Modelled from the spec: `RS_Vector::scale(center, factor)`, scaling about a point by a
factor per axis. -/
def scaleAbout (v center factor : RS_Vector K) : RS_Vector K :=
  add center ⟨(v.x - center.x) * factor.x, (v.y - center.y) * factor.y, true⟩

end RS_Vector

/-! ## RS_Line and line intersection -/

/-- Modelled from the spec: `RS_Line` (rs_line.cpp is not among the sources), the line
primitive through a start point and an end point. -/
structure RS_Line (K : Type) where
  startpoint : RS_Vector K
  endpoint : RS_Vector K

namespace RS_Line

variable {K : Type} [LinearOrderedField K]

/-- Modelled from the spec: `RS_Line::rotate(center, angle)`, both end points rotated about
`center`. -/
def rotate (E : Env K) (l : RS_Line K) (center : RS_Vector K) (ang : K) : RS_Line K :=
  ⟨RS_Vector.rotateAbout l.startpoint center (RS_Vector.ofAngle E ang),
    RS_Vector.rotateAbout l.endpoint center (RS_Vector.ofAngle E ang)⟩

/-- Modelled from the spec: `RS_Line::getNearestPointOnEntity(coord, false, &dist)`, the
orthogonal projection of `coord` on the unbounded line, with its distance to `coord`. -/
def getNearestPointOnEntity (E : Env K) (l : RS_Line K) (coord : RS_Vector K) :
    RS_Vector K × K :=
  let direction := RS_Vector.sub l.endpoint l.startpoint
  let vpc := RS_Vector.sub coord l.startpoint
  let t := (vpc.x * direction.x + vpc.y * direction.y) / RS_Vector.squared direction
  let p := RS_Vector.add l.startpoint (RS_Vector.smul direction t)
  (p, RS_Vector.distanceTo E p coord)

/-- Modelled from the spec: `RS_Information::getIntersection(l0, l1, false)` for two lines
(rs_information.cpp is not among the sources): the common point of the two unbounded lines, or
no solution when they are parallel. -/
def getIntersection (l0 l1 : RS_Line K) : Option (RS_Vector K) :=
  let p1 := l0.startpoint
  let p2 := l0.endpoint
  let p3 := l1.startpoint
  let p4 := l1.endpoint
  let num := (p4.x - p3.x) * (p1.y - p3.y) - (p4.y - p3.y) * (p1.x - p3.x)
  let div := (p4.y - p3.y) * (p2.x - p1.x) - (p4.x - p3.x) * (p2.y - p1.y)
  if div = 0 then none
  else some (RS_Vector.mk2 (p1.x + num / div * (p2.x - p1.x)) (p1.y + num / div * (p2.y - p1.y)))

end RS_Line

/-- The classification `std::isnormal`: the idealised numbers have no subnormal, infinite or
NaN value, so a number is normal exactly when it is not zero. -/
def isnormal {K : Type} [LinearOrderedField K] (k : K) : Bool := decide (k ≠ 0)

/-- The value held by an `int` (32 bits, two's complement) after an operation whose
mathematical result is `z`: `z` itself between `-2^31` and `2^31 - 1`, and otherwise the
representative of `z` modulo `2^32` in that range (the wrap-around of two's complement
hardware; the C++ standard leaves the result of a signed overflow open). -/
def wrapInt32 (z : ℤ) : ℤ := (z + 2 ^ 31) % 2 ^ 32 - 2 ^ 31

/-- The conversion `static_cast<int>(x)` of a number to an `int`: the fractional part is
discarded (rounding towards zero) and the result is held in 32 bits. -/
def truncInt {K : Type} [LinearOrderedField K] [FloorRing K] (q : K) : ℤ :=
  wrapInt32 (if 0 ≤ q then ⌊q⌋ else ⌈q⌉)

/-! ## RS_ArcData and RS_Arc -/

/-- The five defining fields of `RS_ArcData`.  The presentation fields in degrees maintained by
`updatePaintingInfo` are not part of the embedding. -/
structure RS_ArcData (K : Type) where
  center : RS_Vector K
  radius : K
  angle1 : K
  angle2 : K
  reversed : Bool

namespace RS_ArcData

variable {K : Type} [LinearOrderedField K]

/-- `RS_ArcData::reset`: the record after the call. -/
def reset (_d : RS_ArcData K) : RS_ArcData K := ⟨RS_Vector.invalid, 0, 0, 0, false⟩

/-- `RS_ArcData::isValid`. -/
def isValid (E : Env K) (d : RS_ArcData K) : Bool :=
  d.center.valid && decide (d.radius > E.RS_TOLERANCE) &&
    decide (|E.remainder (d.angle1 - d.angle2) (2 * E.pi)| > E.RS_TOLERANCE_ANGLE)

end RS_ArcData

/-- State of an `RS_Arc`: its data and the cached start point, end point, middle point,
bounding box corners and length. -/
structure RS_Arc (K : Type) where
  data : RS_ArcData K
  m_startPoint : RS_Vector K
  m_endPoint : RS_Vector K
  middlePoint : RS_Vector K
  minV : RS_Vector K
  maxV : RS_Vector K
  cachedLength : K

namespace RS_Arc

variable {K : Type} [LinearOrderedField K]

/-- `RS_Arc::getAngleLength`. -/
def getAngleLength (E : Env K) (arc : RS_Arc K) : K :=
  let a := if arc.data.reversed then arc.data.angle2 else arc.data.angle1
  let b := if arc.data.reversed then arc.data.angle1 else arc.data.angle2
  let ret := RS_Math.correctAngle E (b - a)
  if |E.remainder ret (2 * E.pi)| < E.RS_TOLERANCE_ANGLE then 2 * E.pi else ret

/-- `RS_Arc::updateLength`. -/
def updateLength (E : Env K) (arc : RS_Arc K) : RS_Arc K :=
  { arc with cachedLength := getAngleLength E arc * arc.data.radius }

/-- `RS_Arc::updateMiddlePoint`. -/
def updateMiddlePoint (E : Env K) (arc : RS_Arc K) : RS_Arc K :=
  let a := arc.data.angle1
  let b := arc.data.angle2
  let m := if arc.data.reversed then b + RS_Math.correctAngle E (a - b) * (1 / 2)
    else a + RS_Math.correctAngle E (b - a) * (1 / 2)
  { arc with middlePoint :=
      RS_Vector.add arc.data.center (RS_Vector.smul (RS_Vector.ofAngle E m) arc.data.radius) }

/-- `RS_Arc::calculateBorders`, the recompute step: start point, end point, bounding box,
middle point and length are all derived again from the data.  `LC_Rect` is taken as the
coordinate-wise minimum and maximum of its two corner points. -/
def calculateBorders (E : Env K) (arc : RS_Arc K) : RS_Arc K :=
  let d := arc.data
  let sp := RS_Vector.relative E d.center d.radius d.angle1
  let ep := RS_Vector.relative E d.center d.radius d.angle2
  let minX := min sp.x ep.x
  let minY := min sp.y ep.y
  let maxX := max sp.x ep.x
  let maxY := max sp.y ep.y
  let a1 := if d.reversed then d.angle2 else d.angle1
  let a2 := if d.reversed then d.angle1 else d.angle2
  let maxY := if RS_Math.isAngleBetween E ((1 / 2) * E.pi) a1 a2 false then d.center.y + d.radius
    else maxY
  let minY := if RS_Math.isAngleBetween E ((3 / 2) * E.pi) a1 a2 false then d.center.y - d.radius
    else minY
  let minX := if RS_Math.isAngleBetween E E.pi a1 a2 false then d.center.x - d.radius else minX
  let maxX := if RS_Math.isAngleBetween E 0 a1 a2 false then d.center.x + d.radius else maxX
  updateLength E (updateMiddlePoint E
    { arc with
      m_startPoint := sp
      m_endPoint := ep
      minV := RS_Vector.mk2 minX minY
      maxV := RS_Vector.mk2 maxX maxY })

/-- The constructor `RS_Arc(parent, d)`: stores the data and calls `calculateBorders`. -/
def new (E : Env K) (d : RS_ArcData K) : RS_Arc K :=
  calculateBorders E
    { data := d
      m_startPoint := RS_Vector.invalid
      m_endPoint := RS_Vector.invalid
      middlePoint := RS_Vector.invalid
      minV := RS_Vector.invalid
      maxV := RS_Vector.invalid
      cachedLength := 0 }

/-- `RS_Arc::getStartpoint`. -/
def getStartpoint (arc : RS_Arc K) : RS_Vector K := arc.m_startPoint

/-- `RS_Arc::getEndpoint`. -/
def getEndpoint (arc : RS_Arc K) : RS_Vector K := arc.m_endPoint

/-- `RS_Arc::createFrom3P`: the success flag and the arc after the call. -/
def createFrom3P (E : Env K) (arc : RS_Arc K) (p1 p2 p3 : RS_Vector K) : Bool × RS_Arc K :=
  let vra := RS_Vector.sub p2 p1
  let vrb := RS_Vector.sub p3 p1
  let ra2 := RS_Vector.squared vra * (1 / 2)
  let rb2 := RS_Vector.squared vrb * (1 / 2)
  let crossp := vra.x * vrb.y - vra.y * vrb.x
  if |crossp| < E.RS_TOLERANCE2 then (false, arc)
  else
    let crossp := 1 / crossp
    let c0 := RS_Vector.mk2 ((ra2 * vrb.y - rb2 * vra.y) * crossp)
      ((rb2 * vra.x - ra2 * vrb.x) * crossp)
    let radius := RS_Vector.magnitude E c0
    let center := RS_Vector.addAssign c0 p1
    let angle1 := RS_Vector.angleTo E center p1
    let angle2 := RS_Vector.angleTo E center p3
    let reversed := RS_Math.isAngleBetween E (RS_Vector.angleTo E center p2) angle1 angle2 true
    (true, { arc with data := ⟨center, radius, angle1, angle2, reversed⟩ })


/-- `RS_Arc::getDirection1`. -/
def getDirection1 (E : Env K) (arc : RS_Arc K) : K :=
  if !arc.data.reversed then RS_Math.correctAngle E (arc.data.angle1 + E.pi / 2)
  else RS_Math.correctAngle E (arc.data.angle1 - E.pi / 2)

/-- `RS_Arc::createFrom2PDirectionRadius`: the success flag and the arc after the call. -/
def createFrom2PDirectionRadius (E : Env K) (arc : RS_Arc K) (startPoint endPoint : RS_Vector K)
    (direction1 radius : K) : Bool × RS_Arc K :=
  let ortho := RS_Vector.polar E radius (direction1 + E.pi / 2)
  let center1 := RS_Vector.add startPoint ortho
  let center2 := RS_Vector.sub startPoint ortho
  let center :=
    if RS_Vector.distanceTo E center1 endPoint < RS_Vector.distanceTo E center2 endPoint
    then center1 else center2
  let angle1 := RS_Vector.angleTo E center startPoint
  let angle2 := RS_Vector.angleTo E center endPoint
  let arc1 : RS_Arc K := { arc with data := ⟨center, radius, angle1, angle2, false⟩ }
  let diff := RS_Math.correctAngle E (getDirection1 E arc1 - direction1)
  let arc2 : RS_Arc K :=
    if |diff - E.pi| < 1 / 10 then { arc1 with data := { arc1.data with reversed := true } }
    else arc1
  (true, calculateBorders E arc2)

/-- `RS_Arc::createFrom2PDirectionAngle`: the success flag and the arc after the call. -/
def createFrom2PDirectionAngle (E : Env K) (arc : RS_Arc K) (startPoint endPoint : RS_Vector K)
    (direction1 angleLength : K) : Bool × RS_Arc K :=
  if angleLength ≤ E.RS_TOLERANCE_ANGLE ∨ angleLength > 2 * E.pi - E.RS_TOLERANCE_ANGLE then
    (false, arc)
  else
    let l0 : RS_Line K :=
      ⟨startPoint, RS_Vector.sub startPoint (RS_Vector.ofAngle E direction1)⟩
    let halfA := (1 / 2) * angleLength
    let l0 := RS_Line.rotate E l0 startPoint halfA
    let n0 := RS_Line.getNearestPointOnEntity E l0 endPoint
    let l1 := RS_Line.rotate E l0 startPoint (-angleLength)
    let n1 := RS_Line.getNearestPointOnEntity E l1 endPoint
    let vEnd0 := if n1.2 < n0.2 then n1.1 else n0.1
    let l0 := if n1.2 < n0.2 then l1 else l0
    let l0 := RS_Line.rotate E l0 (RS_Vector.smul (RS_Vector.add startPoint vEnd0) (1 / 2))
      (E.pi / 2)
    let l1 : RS_Line K :=
      ⟨startPoint, RS_Vector.add startPoint (RS_Vector.ofAngle E (direction1 + E.pi / 2))⟩
    match RS_Line.getIntersection l0 l1 with
    | none => (false, arc)
    | some center =>
      let radius := RS_Vector.distanceTo E center startPoint
      let angle1 := RS_Vector.angleTo E center startPoint
      let arc1 : RS_Arc K :=
        { arc with data := { arc.data with
            center := center, radius := radius, angle1 := angle1, reversed := false } }
      let diff := RS_Math.correctAngle E (getDirection1 E arc1 - direction1)
      let arc2 : RS_Arc K :=
        if |diff - E.pi| < 1 / 10 then
          { arc1 with data := { arc1.data with
              angle2 := RS_Math.correctAngle E (angle1 - angleLength), reversed := true } }
        else
          { arc1 with data := { arc1.data with
              angle2 := RS_Math.correctAngle E (angle1 + angleLength) } }
      (true, calculateBorders E arc2)

/-- `RS_Arc::createFrom2PBulge`: the success flag and the arc after the call.  The idealised
numbers have no negative zero, so `std::signbit(bulge)` is `bulge < 0`. -/
def createFrom2PBulge (E : Env K) (arc : RS_Arc K) (startPoint endPoint : RS_Vector K)
    (bulge : K) : Bool × RS_Arc K :=
  let reversed0 : Bool := decide (bulge < 0)
  let alpha := E.atan bulge * 4
  let middle := RS_Vector.sdiv (RS_Vector.add startPoint endPoint) 2
  let dist := RS_Vector.distanceTo E startPoint endPoint / 2
  let radius := |dist / E.sin (alpha / 2)|
  let wu := |radius * radius - dist * dist|
  let ang := RS_Vector.angleTo E startPoint endPoint
  let reversed : Bool := decide (bulge < 0)
  let ang := if reversed then ang - E.pi / 2 else ang + E.pi / 2
  let h := if |alpha| > E.pi then -E.sqrt wu else E.sqrt wu
  let center := RS_Vector.addAssign (RS_Vector.polar E h ang) middle
  let angle1 := RS_Vector.angleTo E center startPoint
  let angle2 := RS_Vector.angleTo E center endPoint
  (true, calculateBorders E { arc with data := ⟨center, radius, angle1, angle2, reversed0⟩ })

/-- `RS_Arc::getBulge`. -/
def getBulge (E : Env K) (arc : RS_Arc K) : K :=
  let bulge := E.tan (|getAngleLength E arc| / 4)
  if arc.data.reversed then -bulge else bulge


/-- `RS_Arc::offset`: the success flag and the arc after the call (`setRadius` stores the new
radius). -/
def offset (E : Env K) (arc : RS_Arc K) (coord : RS_Vector K) (distance : K) :
    Bool × RS_Arc K :=
  let dist := RS_Vector.distanceTo E coord arc.data.center
  if dist > arc.data.radius then
    (true, calculateBorders E
      { arc with data := { arc.data with radius := arc.data.radius + |distance| } })
  else
    let newRadius := arc.data.radius - |distance|
    if newRadius < E.RS_TOLERANCE then (false, arc)
    else (true, calculateBorders E { arc with data := { arc.data with radius := newRadius } })

/-- `RS_Arc::correctAngles`: the end of the counter-clockwise span (`angle2`, or `angle1` when
reversed) is brought within one turn after its start. -/
def correctAngles (E : Env K) (arc : RS_Arc K) : RS_Arc K :=
  let pa1 := if arc.data.reversed then arc.data.angle2 else arc.data.angle1
  let pa2 := if arc.data.reversed then arc.data.angle1 else arc.data.angle2
  let v := pa1 + E.fmod (pa2 - pa1) (2 * E.pi)
  let arc1 : RS_Arc K :=
    if arc.data.reversed then { arc with data := { arc.data with angle1 := v } }
    else { arc with data := { arc.data with angle2 := v } }
  if |getAngleLength E arc1| < E.RS_TOLERANCE_ANGLE then
    (if arc.data.reversed then { arc1 with data := { arc1.data with angle1 := v + 2 * E.pi } }
      else { arc1 with data := { arc1.data with angle2 := v + 2 * E.pi } })
  else arc1

/-- `RS_Arc::reverse`. -/
def reverse (E : Env K) (arc : RS_Arc K) : RS_Arc K :=
  calculateBorders E
    { arc with data := { arc.data with
        angle1 := arc.data.angle2, angle2 := arc.data.angle1, reversed := !arc.data.reversed } }

/-- `RS_Arc::move`. -/
def move (E : Env K) (arc : RS_Arc K) (offset : RS_Vector K) : RS_Arc K :=
  calculateBorders E
    { arc with data := { arc.data with center := RS_Vector.addAssign arc.data.center offset } }

/-- `RS_Arc::rotate(center, angle)`. -/
def rotate (E : Env K) (arc : RS_Arc K) (center : RS_Vector K) (ang : K) : RS_Arc K :=
  calculateBorders E
    { arc with data := { arc.data with
        center := RS_Vector.rotateAbout arc.data.center center (RS_Vector.ofAngle E ang),
        angle1 := RS_Math.correctAngle E (arc.data.angle1 + ang),
        angle2 := RS_Math.correctAngle E (arc.data.angle2 + ang) } }

/-- `RS_Arc::rotate(center, angleVector)`. -/
def rotateV (E : Env K) (arc : RS_Arc K) (center angleVector : RS_Vector K) : RS_Arc K :=
  let ang := RS_Vector.angle E angleVector
  calculateBorders E
    { arc with data := { arc.data with
        center := RS_Vector.rotateAbout arc.data.center center angleVector,
        angle1 := RS_Math.correctAngle E (arc.data.angle1 + ang),
        angle2 := RS_Math.correctAngle E (arc.data.angle2 + ang) } }

/-- `RS_Arc::mirror`. -/
def mirror (E : Env K) (arc : RS_Arc K) (axisPoint1 axisPoint2 : RS_Vector K) : RS_Arc K :=
  let center := RS_Vector.mirror arc.data.center axisPoint1 axisPoint2
  let reversed := !arc.data.reversed
  let a := RS_Vector.angle E (RS_Vector.sub axisPoint2 axisPoint1) * 2
  let angle1 := RS_Math.correctAngle E (a - arc.data.angle1)
  let angle2 := RS_Math.correctAngle E (a - arc.data.angle2)
  calculateBorders E (correctAngles E
    { arc with data := ⟨center, arc.data.radius, angle1, angle2, reversed⟩ })

/-- `RS_Arc::scale`. -/
def scale (E : Env K) (arc : RS_Arc K) (center factor : RS_Vector K) : RS_Arc K :=
  let arc1 := if factor.x < 0 then
      mirror E arc arc.data.center (RS_Vector.add arc.data.center (RS_Vector.mk2 0 1))
    else arc
  let arc2 := if factor.y < 0 then
      mirror E arc1 arc1.data.center (RS_Vector.add arc1.data.center (RS_Vector.mk2 1 0))
    else arc1
  calculateBorders E
    { arc2 with data := { arc2.data with
        center := RS_Vector.scaleAbout arc2.data.center center factor,
        radius := |arc2.data.radius * factor.x| } }

/-- `RS_Arc::shear`: `none` when the assertion aborts the call, otherwise the arc it returns. -/
def shear (arc : RS_Arc K) (k : K) : Option (RS_Arc K) :=
  if !isnormal k then none else some arc

/-- `RS_Arc::getTangentPoint`: the list of solutions. -/
def getTangentPoint (E : Env K) (arc : RS_Arc K) (point : RS_Vector K) : List (RS_Vector K) :=
  let radius := arc.data.radius
  let r2 := radius * radius
  if r2 < E.RS_TOLERANCE2 then []
  else
    let vp := RS_Vector.sub point arc.data.center
    let c2 := RS_Vector.squared vp
    if c2 < r2 - radius * 2 * E.RS_TOLERANCE then []
    else if c2 > r2 + radius * 2 * E.RS_TOLERANCE then
      let vp1 := RS_Vector.mulAssign (RS_Vector.mk2 (-vp.y) vp.x)
        (radius * E.sqrt (c2 - r2) / c2)
      let vp := RS_Vector.addAssign (RS_Vector.mulAssign vp (r2 / c2)) arc.data.center
      if RS_Vector.squared vp1 > E.RS_TOLERANCE2 then
        [RS_Vector.add vp vp1, RS_Vector.sub vp vp1]
      else [point]
    else [point]

/-- `RS_Arc::getNearestEndpoint`: the nearer cached end point and its distance. -/
def getNearestEndpoint (E : Env K) (arc : RS_Arc K) (coord : RS_Vector K) : RS_Vector K × K :=
  let dist1 := RS_Vector.squaredTo coord (getStartpoint arc)
  let dist2 := RS_Vector.squaredTo coord (getEndpoint arc)
  if dist2 < dist1 then (getEndpoint arc, E.sqrt dist2) else (getStartpoint arc, E.sqrt dist1)

/-- `RS_Arc::getNearestPointOnEntity`: the returned point and the distance written to `dist`. -/
def getNearestPointOnEntity (E : Env K) (arc : RS_Arc K) (coord : RS_Vector K)
    (onEntity : Bool) : RS_Vector K × K :=
  let ang := RS_Vector.angle E (RS_Vector.sub coord arc.data.center)
  if !onEntity || RS_Math.isAngleBetween E ang arc.data.angle1 arc.data.angle2 arc.data.reversed
  then
    let vec := RS_Vector.addAssign (RS_Vector.polar E arc.data.radius ang) arc.data.center
    (vec, RS_Vector.distanceTo E vec coord)
  else getNearestEndpoint E arc coord

/-- `RS_Arc::moveStartpoint`. -/
def moveStartpoint (E : Env K) (arc : RS_Arc K) (pos : RS_Vector K) : RS_Arc K :=
  let bulge := getBulge E arc
  if |bulge - E.pi / 2| < E.RS_TOLERANCE_ANGLE then arc
  else correctAngles E (createFrom2PBulge E arc pos (getEndpoint arc) bulge).2

/-- `RS_Arc::moveEndpoint`. -/
def moveEndpoint (E : Env K) (arc : RS_Arc K) (pos : RS_Vector K) : RS_Arc K :=
  let bulge := getBulge E arc
  correctAngles E (createFrom2PBulge E arc (getStartpoint arc) pos bulge).2

/-- `RS_Arc::getMiddlePoint`. -/
def getMiddlePoint (arc : RS_Arc K) : RS_Vector K := arc.middlePoint

/-- `RS_Arc::areaLineIntegral`. -/
def areaLineIntegral (E : Env K) (arc : RS_Arc K) : K :=
  let r := arc.data.radius
  let a0 := arc.data.angle1
  let a1 := arc.data.angle2
  let r2 := 1 / 4 * r * r
  let fStart := arc.data.center.x * r * E.sin a0 + r2 * E.sin (a0 + a0)
  let fEnd := arc.data.center.x * r * E.sin a1 + r2 * E.sin (a1 + a1)
  if arc.data.reversed then fEnd - fStart - 2 * r2 * getAngleLength E arc
  else fEnd - fStart + 2 * r2 * getAngleLength E arc

/-- `RS_Arc::getNearestMiddle`: the returned point and the distance written to `dist`.  The
constant `RS_MAXDOUBLE`, whose header is not among the sources, is a parameter.  The argument
`middlePoints`, the counter `counts` and the index `i` are `int`s: every sum and difference
is held in 32 bits. -/
def getNearestMiddle [FloorRing K] (E : Env K) (RS_MAXDOUBLE : K) (arc : RS_Arc K)
    (coord : RS_Vector K) (middlePoints : ℤ) : RS_Vector K × K :=
  if !(isnormal arc.data.angle1 || isnormal arc.data.angle2) then
    (RS_Vector.invalid, RS_MAXDOUBLE)
  else
    let amin := if arc.data.reversed then arc.data.angle2 else arc.data.angle1
    let amax := if arc.data.reversed then arc.data.angle1 else arc.data.angle2
    let da0 := E.fmod (amax - amin + 2 * E.pi) (2 * E.pi)
    let da := if da0 < E.RS_TOLERANCE then 2 * E.pi else da0
    let vp := (getNearestPointOnEntity E arc coord true).1
    let angle := RS_Vector.angleTo E arc.data.center vp
    let counts := wrapInt32 (wrapInt32 middlePoints + 1)
    let i0 := truncInt (E.fmod (angle - amin + 2 * E.pi) (2 * E.pi) / da * (counts : K) + 1 / 2)
    let i1 := if i0 = 0 then wrapInt32 (i0 + 1) else i0
    let i := if i1 = counts then wrapInt32 (i1 - 1) else i1
    let angle := amin + da * ((i : K) / (counts : K))
    let vp := RS_Vector.addAssign (RS_Vector.polar E arc.data.radius angle) arc.data.center
    (vp, RS_Vector.distanceTo E vp coord)

/-- Modelled from the spec: `RS_Arc::getArcAngle` (declared in rs_arc.h, which is not among the
sources), the angular position of a point as seen from the center. -/
def getArcAngle (E : Env K) (arc : RS_Arc K) (vp : RS_Vector K) : K :=
  RS_Vector.angle E (RS_Vector.sub vp arc.data.center)

/-- The part of `RS_Arc::prepareTrim` after its two early exits: the intersection nearest to
the trim coordinate by angle and its neighbour are selected, the angles of the arc are set
accordingly, and the selected intersection is returned.  `RS_VectorSolutions` is a list; an
index past its end reads the undefined vector. -/
def prepareTrimSelect (E : Env K) (arc : RS_Arc K) (trimCoord : RS_Vector K)
    (trimSol : List (RS_Vector K)) : RS_Vector K × RS_Arc K :=
  let n := trimSol.length
  let am := getArcAngle E arc trimCoord
  let ias := trimSol.map (getArcAngle E arc)
  let nearest := trimSol.foldl
    (fun (st : Bool × K × RS_Vector K) vp =>
      if st.1 || decide (|E.remainder (getArcAngle E arc vp - am) (2 * E.pi)|
          < |E.remainder (st.2.1 - am) (2 * E.pi)|)
      then (false, getArcAngle E arc vp, vp) else st)
    (true, 0, RS_Vector.invalid)
  let ia := nearest.2.1
  let is1 := nearest.2.2
  let sorted := ias.insertionSort (fun a b => a ≤ b)
  let ia2 :=
    match (List.range n).find? (fun ii =>
      RS_Math.isSameDirection E ia (sorted.getD ii 0) E.RS_TOLERANCE) with
    | none => 0
    | some ii =>
      if RS_Math.isAngleBetween E am (sorted.getD ((ii + n - 1) % n) 0) ia false
      then sorted.getD ((ii + n - 1) % n) 0
      else sorted.getD ((ii + 1) % n) 0
  let is2 :=
    match trimSol.find? (fun vp =>
      RS_Math.isSameDirection E ia2 (getArcAngle E arc vp) E.RS_TOLERANCE) with
    | none => RS_Vector.invalid
    | some vp => vp
  let dia := |E.remainder (ia - am) (2 * E.pi)|
  let dia2 := |E.remainder (ia2 - am) (2 * E.pi)|
  let ai_min := min dia dia2
  let da1 := |E.remainder (arc.data.angle1 - am) (2 * E.pi)|
  let da2 := |E.remainder (arc.data.angle2 - am) (2 * E.pi)|
  let da_min := min da1 da2
  let rev := arc.data.reversed
  if da_min < ai_min then
    let irev := RS_Math.isAngleBetween E am ia2 ia rev
    let both := RS_Math.isAngleBetween E ia arc.data.angle1 arc.data.angle2 rev &&
      RS_Math.isAngleBetween E ia2 arc.data.angle1 arc.data.angle2 rev
    let arc1 : RS_Arc K :=
      if both then
        (if irev then { arc with data := { arc.data with angle2 := ia, angle1 := ia2 } }
          else { arc with data := { arc.data with angle1 := ia, angle2 := ia2 } })
      else arc
    let da1 := if both then |E.remainder (arc1.data.angle1 - am) (2 * E.pi)| else da1
    let da2 := if both then |E.remainder (arc1.data.angle2 - am) (2 * E.pi)| else da2
    if (decide (da1 < da2 - E.RS_TOLERANCE_ANGLE) &&
          RS_Math.isAngleBetween E ia2 ia arc1.data.angle1 rev) ||
        (decide (da1 > da2 - E.RS_TOLERANCE_ANGLE) &&
          RS_Math.isAngleBetween E ia2 arc1.data.angle2 ia rev)
    then (is2, arc1) else (is1, arc1)
  else
    let swap := decide (dia > dia2)
    let isA := if swap then is2 else is1
    let iaA := if swap then ia2 else ia
    let arc1 : RS_Arc K :=
      if RS_Math.isAngleBetween E iaA arc.data.angle1 arc.data.angle2 rev then
        (if decide (|iaA - arc.data.angle1| > E.RS_TOLERANCE_ANGLE) &&
            RS_Math.isAngleBetween E am arc.data.angle1 iaA rev
          then { arc with data := { arc.data with angle2 := iaA } }
          else { arc with data := { arc.data with angle1 := iaA } })
      else arc
    (isA, arc1)

/-- `RS_Arc::prepareTrim`: the returned point and the arc after the call.  Without a defined
intersection the undefined vector is returned, a single intersection is returned as it is, and
otherwise the selection of `prepareTrimSelect` runs. -/
def prepareTrim (E : Env K) (arc : RS_Arc K) (trimCoord : RS_Vector K)
    (trimSol : List (RS_Vector K)) : RS_Vector K × RS_Arc K :=
  if !(trimSol.any (fun v => v.valid)) then (RS_Vector.invalid, arc)
  else if trimSol.length = 1 then (trimSol.getD 0 RS_Vector.invalid, arc)
  else prepareTrimSelect E arc trimCoord trimSol

end RS_Arc


/-! ## Vocabulary of the statements -/

/-- The directed sweep that `getAngleLength` normalises: `angle2 - angle1`, operands swapped
when the arc is reversed. -/
def rawSweep {K : Type} [LinearOrderedField K] (arc : RS_Arc K) : K :=
  (if arc.data.reversed then arc.data.angle1 else arc.data.angle2)
    - (if arc.data.reversed then arc.data.angle2 else arc.data.angle1)

/-- Cross product of `p2 - p1` and `p3 - p1`; it vanishes exactly when the three points are
collinear (two coinciding points included). -/
def cross3 {K : Type} [LinearOrderedField K] (p1 p2 p3 : RS_Vector K) : K :=
  (p2.x - p1.x) * (p3.y - p1.y) - (p2.y - p1.y) * (p3.x - p1.x)

/-- The cache-consistency invariant of an arc: the cached start and end points are the points
of the circle at `angle1` and `angle2`, and the cached length is `getAngleLength * radius`. -/
def CacheConsistent {K : Type} [LinearOrderedField K] (E : Env K) (arc : RS_Arc K) : Prop :=
  arc.m_startPoint = RS_Vector.relative E arc.data.center arc.data.radius arc.data.angle1 ∧
    arc.m_endPoint = RS_Vector.relative E arc.data.center arc.data.radius arc.data.angle2 ∧
    arc.cachedLength = RS_Arc.getAngleLength E arc * arc.data.radius

/-- A defined point with the given coordinates. -/
def pt {K : Type} [LinearOrderedField K] (x y : K) : RS_Vector K := RS_Vector.mk2 x y

/-- A sample arc: the quarter of the unit circle about the origin from angle 0 to angle 1,
built by the constructor. -/
noncomputable def sampleArc : RS_Arc ℝ :=
  RS_Arc.new stdEnv ⟨pt 0 0, 1, 0, 1, false⟩

/-- A tiny arc, of radius `1.2e-10` just above `RS_TOLERANCE`, about the origin. -/
noncomputable def tinyArc : RS_Arc ℝ :=
  RS_Arc.new stdEnv ⟨pt 0 0, 12 / 10 ^ 11, 0, 1, false⟩

/-- The quarter arc of the spec's mirror scenario: unit circle about the origin, `angle1 = 0`,
`angle2 = π/2`, counter-clockwise. -/
noncomputable def quarterArc : RS_Arc ℝ :=
  RS_Arc.new stdEnv ⟨pt 0 0, 1, 0, Real.pi / 2, false⟩

/-- An arc stored with `angle2` below `angle1`: unit circle about the origin, `angle1 = 1`,
`angle2 = 0`, counter-clockwise (a sweep of `2π - 1`). -/
noncomputable def wrapArc : RS_Arc ℝ :=
  RS_Arc.new stdEnv ⟨pt 0 0, 1, 1, 0, false⟩

/-- A sliver: unit circle about the origin, `angle1 = 0`, `angle2 = 1e-9`, counter-clockwise;
its sweep is below `RS_TOLERANCE_ANGLE`. -/
noncomputable def sliverArc : RS_Arc ℝ :=
  RS_Arc.new stdEnv ⟨pt 0 0, 1, 0, 1 / 10 ^ 9, false⟩

/-- A full circle: unit circle about the origin with `angle1 = angle2 = 0`. -/
noncomputable def circleArc : RS_Arc ℝ :=
  RS_Arc.new stdEnv ⟨pt 0 0, 1, 0, 0, false⟩

/-- The arc that a successful `createFrom3P` leaves behind: the sample arc after
`createFrom3P((0,0), (1,1), (2,0))`.  Its data describe the half circle of radius 1 about
`(1, 0)` from `(0, 0)` to `(2, 0)`; its cached start and end points are still those of the
sample arc, `(1, 0)` and `(cos 1, sin 1)`. -/
noncomputable def staleArc : RS_Arc ℝ :=
  (RS_Arc.createFrom3P stdEnv sampleArc (pt 0 0) (pt 1 1) (pt 2 0)).2

/-- An arc built with a negative radius: center at the origin, `radius = -1`, `angle1 = 0`,
`angle2 = 1`, counter-clockwise.  Neither the constructor nor `RS_ArcData` rejects it. -/
noncomputable def negArc : RS_Arc ℝ :=
  RS_Arc.new stdEnv ⟨pt 0 0, -1, 0, 1, false⟩

/-- An arc whose bulge is `π/2`: unit circle about the origin, `angle1 = 0`,
`angle2 = 4 atan(π/2)` (about 230 degrees), counter-clockwise. -/
noncomputable def guardArc : RS_Arc ℝ :=
  RS_Arc.new stdEnv ⟨pt 0 0, 1, 0, 4 * Real.arctan (Real.pi / 2), false⟩

/-- The primitive of the spec's area formula:
`F(t) = c_x r sin t + (r²/4) sin 2t + (r²/2) t`. -/
noncomputable def areaPrimitive (cx r t : ℝ) : ℝ :=
  cx * r * Real.sin t + r ^ 2 / 4 * Real.sin (2 * t) + r ^ 2 / 2 * t

/-- The point `(x, y)` lies in the bounding box stored in the arc. -/
def InBox {K : Type} [LinearOrderedField K] (arc : RS_Arc K) (x y : K) : Prop :=
  arc.minV.x ≤ x ∧ x ≤ arc.maxV.x ∧ arc.minV.y ≤ y ∧ y ≤ arc.maxV.y

/-! ## Exact real arithmetic: the library functions -/

section RealLemmas

open Real

@[simp] theorem realEnv_pi (t t2 ta : ℝ) : (realEnv t t2 ta).pi = π := rfl

@[simp] theorem realEnv_sqrt (t t2 ta : ℝ) : (realEnv t t2 ta).sqrt = Real.sqrt := rfl

@[simp] theorem realEnv_sin (t t2 ta : ℝ) : (realEnv t t2 ta).sin = Real.sin := rfl

@[simp] theorem realEnv_cos (t t2 ta : ℝ) : (realEnv t t2 ta).cos = Real.cos := rfl

@[simp] theorem realEnv_tan (t t2 ta : ℝ) : (realEnv t t2 ta).tan = Real.tan := rfl

@[simp] theorem realEnv_atan (t t2 ta : ℝ) : (realEnv t t2 ta).atan = Real.arctan := rfl

@[simp] theorem realEnv_atan2 (t t2 ta y x : ℝ) :
    (realEnv t t2 ta).atan2 y x = Complex.arg ⟨x, y⟩ := rfl

@[simp] theorem realEnv_tol (t t2 ta : ℝ) : (realEnv t t2 ta).RS_TOLERANCE = t := rfl

@[simp] theorem realEnv_tol2 (t t2 ta : ℝ) : (realEnv t t2 ta).RS_TOLERANCE2 = t2 := rfl

@[simp] theorem realEnv_tolA (t t2 ta : ℝ) : (realEnv t t2 ta).RS_TOLERANCE_ANGLE = ta := rfl

theorem stdEnv_eq : stdEnv = realEnv (1 / 10 ^ 10) (1 / 10 ^ 20) (1 / 10 ^ 8) := rfl

theorem roundEven_sub_le (q : ℝ) : |q - (roundEven q : ℝ)| ≤ 1 / 2 := by
  have h0 : 0 ≤ q - ⌊q⌋ := by linarith [Int.floor_le q]
  have h1 : q - ⌊q⌋ < 1 := by linarith [Int.lt_floor_add_one q]
  unfold roundEven
  split_ifs with ha hb hc
  · rw [abs_le]; constructor <;> linarith
  · push_cast; rw [abs_le]; constructor <;> linarith
  · rw [abs_le]; constructor <;> linarith
  · push_cast; rw [abs_le]; constructor <;> linarith

theorem roundEven_eq_of_lt (q : ℝ) (n : ℤ) (h : |q - (n : ℝ)| < 1 / 2) : roundEven q = n := by
  have h1 := roundEven_sub_le q
  rw [abs_lt] at h
  rw [abs_le] at h1
  have h2 : ((roundEven q - n : ℤ) : ℝ) < 1 := by push_cast; linarith
  have h3 : (-1 : ℝ) < ((roundEven q - n : ℤ) : ℝ) := by push_cast; linarith
  have h4 : roundEven q - n < 1 := by exact_mod_cast h2
  have h5 : -1 < roundEven q - n := by exact_mod_cast h3
  omega

theorem truncQuot_of_mem (q : ℝ) (h0 : 0 ≤ q) (h1 : q < 1) : truncQuot q = 0 := by
  unfold truncQuot
  rw [if_pos h0, Int.floor_eq_iff]
  constructor
  · simpa using h0
  · simpa using h1

theorem truncQuot_one : truncQuot 1 = 1 := by
  unfold truncQuot
  rw [if_pos zero_le_one]
  exact Int.floor_one


/-- In exact arithmetic `remainder(x, 2π)` differs from `x` by a whole number of turns and lies
in `[-π, π]`. -/
theorem remainder_real_spec (t t2 ta x : ℝ) :
    |(realEnv t t2 ta).remainder x (2 * π)| ≤ π ∧
      ∃ k : ℤ, (realEnv t t2 ta).remainder x (2 * π) = x + k * (2 * π) := by
  have hpi := Real.pi_pos
  have h := roundEven_sub_le (x / (2 * π))
  simp only [realEnv]
  constructor
  · have e : x - 2 * π * (roundEven (x / (2 * π)) : ℝ)
        = (2 * π) * (x / (2 * π) - (roundEven (x / (2 * π)) : ℝ)) := by
      field_simp
    rw [e, abs_mul, abs_of_pos (by positivity : (0 : ℝ) < 2 * π)]
    nlinarith
  · exact ⟨-roundEven (x / (2 * π)), by push_cast; ring⟩

theorem remainder_real_eq (t t2 ta x : ℝ) (n : ℤ) (h : |x - n * (2 * π)| < π) :
    (realEnv t t2 ta).remainder x (2 * π) = x - n * (2 * π) := by
  have hpi := Real.pi_pos
  have e : roundEven (x / (2 * π)) = n := by
    apply roundEven_eq_of_lt
    have e1 : x / (2 * π) - (n : ℝ) = (x - n * (2 * π)) / (2 * π) := by field_simp; ring
    rw [e1, abs_div, abs_of_pos (by positivity : (0 : ℝ) < 2 * π), div_lt_iff₀ (by positivity)]
    linarith
  simp only [realEnv, e]
  ring

/-- In exact arithmetic `correctAngle` is the representative of the angle in `[0, 2π)`. -/
theorem correctAngle_real_spec (t t2 ta a : ℝ) :
    0 ≤ RS_Math.correctAngle (realEnv t t2 ta) a ∧
      RS_Math.correctAngle (realEnv t t2 ta) a < 2 * π ∧
      ∃ k : ℤ, RS_Math.correctAngle (realEnv t t2 ta) a = a + k * (2 * π) := by
  have hpi := Real.pi_pos
  obtain ⟨hr, k, hk⟩ := remainder_real_spec t t2 ta (a - π)
  rw [abs_le] at hr
  have epi : (realEnv t t2 ta).pi = π := rfl
  unfold RS_Math.correctAngle
  rw [epi]
  set r := (realEnv t t2 ta).remainder (a - π) (2 * π) with hrdef
  have efm : ∀ u v : ℝ, (realEnv t t2 ta).fmod u v = u - v * (truncQuot (u / v) : ℝ) :=
    fun _ _ => rfl
  rw [efm]
  by_cases hlt : π + r < 2 * π
  · have hq : truncQuot ((π + r) / (2 * π)) = 0 := by
      apply truncQuot_of_mem
      · apply div_nonneg <;> linarith
      · rw [div_lt_one (by positivity)]; exact hlt
    rw [hq]
    refine ⟨by simp; linarith, by simp; linarith, k, ?_⟩
    rw [hk]; push_cast; ring
  · have hreq : r = π := by linarith
    have hq : truncQuot ((π + r) / (2 * π)) = 1 := by
      rw [hreq]
      have : (π + π) / (2 * π) = 1 := by field_simp; ring
      rw [this]; exact truncQuot_one
    rw [hq]
    refine ⟨by rw [hreq]; push_cast; linarith, by rw [hreq]; push_cast; linarith, k - 1, ?_⟩
    rw [hk]; push_cast; ring

/-- Uniqueness of the representative: an angle of `[0, 2π)` congruent to `a` is
`correctAngle a`. -/
theorem correctAngle_real_eq (t t2 ta a y : ℝ) (h0 : 0 ≤ y) (h1 : y < 2 * π)
    (h : ∃ k : ℤ, a = y + k * (2 * π)) :
    RS_Math.correctAngle (realEnv t t2 ta) a = y := by
  have hpi := Real.pi_pos
  obtain ⟨c0, c1, m, hm⟩ := correctAngle_real_spec t t2 ta a
  obtain ⟨k, hk⟩ := h
  set c := RS_Math.correctAngle (realEnv t t2 ta) a
  have hd : c - y = ((m + k : ℤ) : ℝ) * (2 * π) := by rw [hm, hk]; push_cast; ring
  have hz : m + k = 0 := by
    by_contra hne
    rcases lt_or_gt_of_ne hne with hneg | hpos
    · have : ((m + k : ℤ) : ℝ) ≤ -1 := by exact_mod_cast Int.le_sub_one_of_lt hneg
      nlinarith
    · have : (1 : ℝ) ≤ ((m + k : ℤ) : ℝ) := by exact_mod_cast hpos
      nlinarith
  rw [hz] at hd
  simp at hd
  linarith


/-- In exact arithmetic an angle that is not between `a1` and `a2` clockwise is between them
counter-clockwise. -/
theorem isAngleBetween_real_complement (t t2 ta : ℝ) (hta : 0 < ta) (a a1 a2 : ℝ)
    (h : RS_Math.isAngleBetween (realEnv t t2 ta) a a1 a2 true = false) :
    RS_Math.isAngleBetween (realEnv t t2 ta) a a1 a2 false = true := by
  have hp := Real.pi_pos
  have epi : (realEnv t t2 ta).pi = π := rfl
  have etol : (realEnv t t2 ta).RS_TOLERANCE_ANGLE = ta := rfl
  simp only [RS_Math.isAngleBetween, RS_Math.getAngleDifferenceU, epi, etol, if_true,
    Bool.false_eq_true, if_false] at h ⊢
  split_ifs at h with hU
  simp only [Bool.or_eq_false_iff, decide_eq_false_iff_not, not_le] at h
  obtain ⟨hX, -⟩ := h
  obtain ⟨d0, d1, md, hd⟩ := correctAngle_real_spec t t2 ta (a1 - a2)
  obtain ⟨x0, x1, mx, hx⟩ := correctAngle_real_spec t t2 ta (a - a2)
  set D := RS_Math.correctAngle (realEnv t t2 ta) (a1 - a2)
  set X := RS_Math.correctAngle (realEnv t t2 ta) (a - a2)
  have hDpos : 0 < D := by
    rcases eq_or_lt_of_le d0 with h0 | h0
    · exfalso
      apply hU
      rw [remainder_real_eq t t2 ta (a1 - a2) (-md)]
      · have : a1 - a2 - ((-md : ℤ) : ℝ) * (2 * π) = 0 := by
          push_cast; linarith
        rw [this, abs_zero]; exact hta
      · have : a1 - a2 - ((-md : ℤ) : ℝ) * (2 * π) = 0 := by
          push_cast; linarith
        rw [this, abs_zero]; exact hp
    · exact h0
  have e1 : RS_Math.correctAngle (realEnv t t2 ta) (a - a1) = X - D :=
    correctAngle_real_eq t t2 ta _ _ (by linarith) (by linarith)
      ⟨md - mx, by push_cast; linarith⟩
  have e2 : RS_Math.correctAngle (realEnv t t2 ta) (a2 - a1) = 2 * π - D :=
    correctAngle_real_eq t t2 ta _ _ (by linarith) (by linarith)
      ⟨md - 1, by push_cast; linarith⟩
  split_ifs with hV
  · rfl
  · rw [e1, e2]
    simp only [Bool.or_eq_true, decide_eq_true_eq]
    left
    linarith


/-- The recompute step establishes the cache-consistency invariant. -/
theorem calculateBorders_consistent {K : Type} [LinearOrderedField K] (E : Env K)
    (arc : RS_Arc K) : CacheConsistent E (RS_Arc.calculateBorders E arc) :=
  ⟨rfl, rfl, rfl⟩


/-- On the success path `createFrom3P` rewrites the data only: every cache keeps its old
value. -/
theorem createFrom3P_caches {K : Type} [LinearOrderedField K] (E : Env K) (arc : RS_Arc K)
    (p1 p2 p3 : RS_Vector K) :
    (RS_Arc.createFrom3P E arc p1 p2 p3).2.m_startPoint = arc.m_startPoint ∧
      (RS_Arc.createFrom3P E arc p1 p2 p3).2.m_endPoint = arc.m_endPoint ∧
      (RS_Arc.createFrom3P E arc p1 p2 p3).2.cachedLength = arc.cachedLength := by
  unfold RS_Arc.createFrom3P
  simp only
  split_ifs <;> exact ⟨rfl, rfl, rfl⟩

/-- The scenario `createFrom3P((0,0),(1,1),(2,0))`: success, center `(1,0)`, radius 1. -/
theorem createFrom3P_scenario (arc : RS_Arc ℝ) :
    (RS_Arc.createFrom3P stdEnv arc (pt 0 0) (pt 1 1) (pt 2 0)).1 = true ∧
      (RS_Arc.createFrom3P stdEnv arc (pt 0 0) (pt 1 1) (pt 2 0)).2.data.center = pt 1 0 ∧
      (RS_Arc.createFrom3P stdEnv arc (pt 0 0) (pt 1 1) (pt 2 0)).2.data.radius = 1 := by
  have hg : ¬ |((1 : ℝ) - 0) * (0 - 0) - (1 - 0) * (2 - 0)| < 1 / 10 ^ 20 := by norm_num
  rw [stdEnv_eq]
  simp only [RS_Arc.createFrom3P, pt, RS_Vector.mk2, RS_Vector.sub, realEnv_tol2, hg, if_false,
    RS_Vector.squared, RS_Vector.addAssign, RS_Vector.magnitude, realEnv_sqrt, true_and]
  refine ⟨?_, ?_⟩
  · norm_num
  · norm_num

theorem sampleArc_startPoint : sampleArc.m_startPoint = pt 1 0 := by
  simp [sampleArc, RS_Arc.new, RS_Arc.calculateBorders, RS_Arc.updateLength,
    RS_Arc.updateMiddlePoint, RS_Vector.relative, RS_Vector.add, RS_Vector.polar, pt,
    RS_Vector.mk2, stdEnv_eq]


/-- Cosine and sine of `correctAngle a` are those of `a`. -/
theorem correctAngle_real_cos_sin (t t2 ta a : ℝ) :
    Real.cos (RS_Math.correctAngle (realEnv t t2 ta) a) = Real.cos a ∧
      Real.sin (RS_Math.correctAngle (realEnv t t2 ta) a) = Real.sin a := by
  obtain ⟨-, -, k, hk⟩ := correctAngle_real_spec t t2 ta a
  rw [hk]
  exact ⟨Real.cos_add_int_mul_two_pi a k, Real.sin_add_int_mul_two_pi a k⟩

/-- Direction cosines of a non-zero vector: `angle` really is its direction. -/
theorem angle_real_cos_sin (t t2 ta : ℝ) (v : RS_Vector ℝ) (h : v.x ≠ 0 ∨ v.y ≠ 0) :
    Real.cos (RS_Vector.angle (realEnv t t2 ta) v) = v.x / Real.sqrt (v.x * v.x + v.y * v.y) ∧
      Real.sin (RS_Vector.angle (realEnv t t2 ta) v)
        = v.y / Real.sqrt (v.x * v.x + v.y * v.y) := by
  have hz : (⟨v.x, v.y⟩ : ℂ) ≠ 0 := by
    intro h0
    have h1 := congrArg Complex.re h0
    have h2 := congrArg Complex.im h0
    simp only [Complex.zero_re, Complex.zero_im] at h1 h2
    rcases h with h | h
    · exact h h1
    · exact h h2
  obtain ⟨hc, hs⟩ := correctAngle_real_cos_sin t t2 ta (Complex.arg ⟨v.x, v.y⟩)
  unfold RS_Vector.angle
  rw [realEnv_atan2, hc, hs, Complex.cos_arg hz, Complex.sin_arg, Complex.abs_apply,
    Complex.normSq_mk]
  exact ⟨rfl, rfl⟩

/-- The point of the circle about `c` at the angle towards `p` is `p` itself, when `p` is at
distance `r > 0` from `c`. -/
theorem relative_angleTo_real (t t2 ta : ℝ) (c p : RS_Vector ℝ) (r : ℝ) (hr0 : 0 < r)
    (hr : (p.x - c.x) * (p.x - c.x) + (p.y - c.y) * (p.y - c.y) = r * r) :
    RS_Vector.relative (realEnv t t2 ta) c r (RS_Vector.angleTo (realEnv t t2 ta) c p)
      = ⟨p.x, p.y, true⟩ := by
  have hne : (RS_Vector.sub p c).x ≠ 0 ∨ (RS_Vector.sub p c).y ≠ 0 := by
    by_contra hcon
    push_neg at hcon
    simp only [RS_Vector.sub] at hcon
    rw [hcon.1, hcon.2] at hr
    nlinarith
  obtain ⟨hc, hs⟩ := angle_real_cos_sin t t2 ta (RS_Vector.sub p c) hne
  have hsq : Real.sqrt ((p.x - c.x) * (p.x - c.x) + (p.y - c.y) * (p.y - c.y)) = r := by
    rw [hr]; exact Real.sqrt_mul_self hr0.le
  have hc' : Real.cos (RS_Vector.angle (realEnv t t2 ta) (RS_Vector.sub p c))
      = (p.x - c.x) / r := by rw [← hsq]; exact hc
  have hs' : Real.sin (RS_Vector.angle (realEnv t t2 ta) (RS_Vector.sub p c))
      = (p.y - c.y) / r := by rw [← hsq]; exact hs
  have hr' : r ≠ 0 := hr0.ne'
  simp only [RS_Vector.relative, RS_Vector.angleTo, RS_Vector.add, RS_Vector.polar,
    realEnv_cos, realEnv_sin, hc', hs']
  have e1 : c.x + r * ((p.x - c.x) / r) = p.x := by field_simp
  have e2 : c.y + r * ((p.y - c.y) / r) = p.y := by field_simp
  rw [e1, e2]

/-- The corrected difference of the angles towards two points `p`, `q` of a circle about `c` is
the angle `β` of `[0, 2π)` by which `p - c` has to be turned counter-clockwise to reach
`q - c`. -/
theorem sweep_real_eq (t t2 ta : ℝ) (c p q : RS_Vector ℝ) (r β : ℝ) (hr0 : 0 < r)
    (hp : (p.x - c.x) * (p.x - c.x) + (p.y - c.y) * (p.y - c.y) = r * r)
    (hq : (q.x - c.x) * (q.x - c.x) + (q.y - c.y) * (q.y - c.y) = r * r)
    (hβ0 : 0 ≤ β) (hβ1 : β < 2 * π)
    (hdot : (p.x - c.x) * (q.x - c.x) + (p.y - c.y) * (q.y - c.y) = r * r * Real.cos β)
    (hcross : (p.x - c.x) * (q.y - c.y) - (p.y - c.y) * (q.x - c.x) = r * r * Real.sin β) :
    RS_Math.correctAngle (realEnv t t2 ta)
      (RS_Vector.angleTo (realEnv t t2 ta) c q - RS_Vector.angleTo (realEnv t t2 ta) c p)
      = β := by
  have hnep : (RS_Vector.sub p c).x ≠ 0 ∨ (RS_Vector.sub p c).y ≠ 0 := by
    by_contra hcon
    push_neg at hcon
    simp only [RS_Vector.sub] at hcon
    rw [hcon.1, hcon.2] at hp
    nlinarith
  have hneq : (RS_Vector.sub q c).x ≠ 0 ∨ (RS_Vector.sub q c).y ≠ 0 := by
    by_contra hcon
    push_neg at hcon
    simp only [RS_Vector.sub] at hcon
    rw [hcon.1, hcon.2] at hq
    nlinarith
  obtain ⟨hcp, hsp⟩ := angle_real_cos_sin t t2 ta (RS_Vector.sub p c) hnep
  obtain ⟨hcq, hsq⟩ := angle_real_cos_sin t t2 ta (RS_Vector.sub q c) hneq
  have hsqp : Real.sqrt ((p.x - c.x) * (p.x - c.x) + (p.y - c.y) * (p.y - c.y)) = r := by
    rw [hp]; exact Real.sqrt_mul_self hr0.le
  have hsqq : Real.sqrt ((q.x - c.x) * (q.x - c.x) + (q.y - c.y) * (q.y - c.y)) = r := by
    rw [hq]; exact Real.sqrt_mul_self hr0.le
  have hcp' : Real.cos (RS_Vector.angle (realEnv t t2 ta) (RS_Vector.sub p c))
      = (p.x - c.x) / r := by rw [← hsqp]; exact hcp
  have hsp' : Real.sin (RS_Vector.angle (realEnv t t2 ta) (RS_Vector.sub p c))
      = (p.y - c.y) / r := by rw [← hsqp]; exact hsp
  have hcq' : Real.cos (RS_Vector.angle (realEnv t t2 ta) (RS_Vector.sub q c))
      = (q.x - c.x) / r := by rw [← hsqq]; exact hcq
  have hsq' : Real.sin (RS_Vector.angle (realEnv t t2 ta) (RS_Vector.sub q c))
      = (q.y - c.y) / r := by rw [← hsqq]; exact hsq
  have hr' : r ≠ 0 := hr0.ne'
  have hcos : Real.cos (RS_Vector.angleTo (realEnv t t2 ta) c q
      - RS_Vector.angleTo (realEnv t t2 ta) c p) = Real.cos β := by
    rw [Real.cos_sub]
    simp only [RS_Vector.angleTo]
    rw [hcp', hsp', hcq', hsq']
    field_simp
    linarith
  have hsin : Real.sin (RS_Vector.angleTo (realEnv t t2 ta) c q
      - RS_Vector.angleTo (realEnv t t2 ta) c p) = Real.sin β := by
    rw [Real.sin_sub]
    simp only [RS_Vector.angleTo]
    rw [hcp', hsp', hcq', hsq']
    field_simp
    linarith
  obtain ⟨k, hk⟩ := Real.Angle.angle_eq_iff_two_pi_dvd_sub.mp (Real.Angle.cos_sin_inj hcos hsin)
  exact correctAngle_real_eq t t2 ta _ β hβ0 hβ1 ⟨k, by linarith⟩


/-- Half the sweep `2 * arctan bulge` of a bulge lies strictly between `-π` and `π`, and has the
sign of the bulge, as has its sine. -/
theorem bulge_half_sweep (b : ℝ) :
    -π < Real.arctan b * 4 / 2 ∧ Real.arctan b * 4 / 2 < π ∧
      (0 < b → 0 < Real.arctan b ∧ 0 < Real.sin (Real.arctan b * 4 / 2)) ∧
      (b < 0 → Real.arctan b < 0 ∧ Real.sin (Real.arctan b * 4 / 2) < 0) := by
  have h1 := Real.arctan_lt_pi_div_two b
  have h2 := Real.neg_pi_div_two_lt_arctan b
  refine ⟨by linarith, by linarith, ?_, ?_⟩
  · intro hpos
    have h3 : 0 < Real.arctan b := by
      have := Real.arctan_strictMono hpos
      rwa [Real.arctan_zero] at this
    exact ⟨h3, Real.sin_pos_of_pos_of_lt_pi (by linarith) (by linarith)⟩
  · intro hneg
    have h3 : Real.arctan b < 0 := by
      have := Real.arctan_strictMono hneg
      rwa [Real.arctan_zero] at this
    refine ⟨h3, ?_⟩
    have h4 : 0 < Real.sin (-(Real.arctan b * 4 / 2)) :=
      Real.sin_pos_of_pos_of_lt_pi (by linarith) (by linarith)
    rw [Real.sin_neg] at h4
    linarith

/-- The data `createFrom2PBulge` installs, in closed form: with `γ = 2 * arctan bulge` and
`κ = cos γ / (2 sin γ)`, the center is the chord midpoint moved by `κ` times the chord turned by
a quarter turn, and the radius is the chord length over `2 |sin γ|`. -/
theorem createFrom2PBulge_real_data (t t2 ta : ℝ) (arc : RS_Arc ℝ) (p1 p2 : RS_Vector ℝ)
    (b : ℝ) (hne : p1.x ≠ p2.x ∨ p1.y ≠ p2.y) (hb : b ≠ 0) :
    (RS_Arc.createFrom2PBulge (realEnv t t2 ta) arc p1 p2 b).2.data.center
        = ⟨(p1.x + p2.x) / 2
            - Real.cos (Real.arctan b * 4 / 2) / (2 * Real.sin (Real.arctan b * 4 / 2))
              * (p2.y - p1.y),
          (p1.y + p2.y) / 2
            + Real.cos (Real.arctan b * 4 / 2) / (2 * Real.sin (Real.arctan b * 4 / 2))
              * (p2.x - p1.x), true⟩ ∧
      (RS_Arc.createFrom2PBulge (realEnv t t2 ta) arc p1 p2 b).2.data.radius
        = Real.sqrt ((p1.x - p2.x) * (p1.x - p2.x) + (p1.y - p2.y) * (p1.y - p2.y))
            / (2 * |Real.sin (Real.arctan b * 4 / 2)|) := by
  obtain ⟨hγ0, hγ1, hpos, hneg⟩ := bulge_half_sweep b
  set γ := Real.arctan b * 4 / 2 with hγ
  have hrad : 0 < (p1.x - p2.x) * (p1.x - p2.x) + (p1.y - p2.y) * (p1.y - p2.y) := by
    rcases hne with h | h
    · have : p1.x - p2.x ≠ 0 := sub_ne_zero.mpr h
      nlinarith [mul_self_pos.mpr this, mul_self_nonneg (p1.y - p2.y)]
    · have : p1.y - p2.y ≠ 0 := sub_ne_zero.mpr h
      nlinarith [mul_self_pos.mpr this, mul_self_nonneg (p1.x - p2.x)]
  set L := Real.sqrt ((p1.x - p2.x) * (p1.x - p2.x) + (p1.y - p2.y) * (p1.y - p2.y)) with hL
  have hLpos : 0 < L := Real.sqrt_pos.mpr hrad
  have hLL : L * L = (p1.x - p2.x) * (p1.x - p2.x) + (p1.y - p2.y) * (p1.y - p2.y) :=
    Real.mul_self_sqrt hrad.le
  have hs0 : Real.sin γ ≠ 0 := by
    rcases lt_or_gt_of_ne hb with h | h
    · exact (hneg h).2.ne
    · exact (hpos h).2.ne'
  have hcs : Real.sin γ ^ 2 + Real.cos γ ^ 2 = 1 := Real.sin_sq_add_cos_sq γ
  -- the chord direction
  have hne' : (RS_Vector.sub p2 p1).x ≠ 0 ∨ (RS_Vector.sub p2 p1).y ≠ 0 := by
    rcases hne with h | h
    · left; exact sub_ne_zero.mpr (Ne.symm h)
    · right; exact sub_ne_zero.mpr (Ne.symm h)
  obtain ⟨hcφ, hsφ⟩ := angle_real_cos_sin t t2 ta (RS_Vector.sub p2 p1) hne'
  have hL' : Real.sqrt ((RS_Vector.sub p2 p1).x * (RS_Vector.sub p2 p1).x
      + (RS_Vector.sub p2 p1).y * (RS_Vector.sub p2 p1).y) = L := by
    rw [hL]; congr 1; simp only [RS_Vector.sub]; ring
  rw [hL'] at hcφ hsφ
  have hcφ' : Real.cos (RS_Vector.angleTo (realEnv t t2 ta) p1 p2) = (p2.x - p1.x) / L := hcφ
  have hsφ' : Real.sin (RS_Vector.angleTo (realEnv t t2 ta) p1 p2) = (p2.y - p1.y) / L := hsφ
  -- the height of the center over the chord
  have hradius : |L / 2 / Real.sin γ| * |L / 2 / Real.sin γ|
      = (L / 2 / Real.sin γ) * (L / 2 / Real.sin γ) := abs_mul_abs_self _
  have hwu : |(|L / 2 / Real.sin γ| * |L / 2 / Real.sin γ|) - L / 2 * (L / 2)|
      = (L / 2 * Real.cos γ / Real.sin γ) ^ 2 := by
    rw [hradius]
    have : L / 2 / Real.sin γ * (L / 2 / Real.sin γ) - L / 2 * (L / 2)
        = (L / 2 * Real.cos γ / Real.sin γ) ^ 2 := by
      field_simp
      linear_combination (-16 * Real.sin γ ^ 2 * L ^ 2) * hcs
    rw [this, abs_of_nonneg (sq_nonneg _)]
  have hsqrt : Real.sqrt |(|L / 2 / Real.sin γ| * |L / 2 / Real.sin γ|) - L / 2 * (L / 2)|
      = L / 2 * |Real.cos γ| / |Real.sin γ| := by
    rw [hwu, Real.sqrt_sq_eq_abs, abs_div, abs_mul, abs_of_pos (by positivity : 0 < L / 2)]
  have hh : (if |Real.arctan b * 4| > π then
        -Real.sqrt |(|L / 2 / Real.sin γ| * |L / 2 / Real.sin γ|) - L / 2 * (L / 2)|
      else Real.sqrt |(|L / 2 / Real.sin γ| * |L / 2 / Real.sin γ|) - L / 2 * (L / 2)|)
      = L / 2 * Real.cos γ / |Real.sin γ| := by
    rw [hsqrt]
    have e4 : Real.arctan b * 4 = 2 * γ := by rw [hγ]; ring
    split_ifs with hbig
    · rw [e4, abs_mul, abs_of_pos (by norm_num : (0 : ℝ) < 2)] at hbig
      have hcneg : Real.cos γ < 0 := by
        rcases le_or_lt 0 γ with hg | hg
        · rw [abs_of_nonneg hg] at hbig
          exact Real.cos_neg_of_pi_div_two_lt_of_lt (by linarith) (by linarith)
        · rw [abs_of_neg hg] at hbig
          rw [← Real.cos_neg]
          exact Real.cos_neg_of_pi_div_two_lt_of_lt (by linarith) (by linarith)
      rw [abs_of_neg hcneg]
      ring
    · rw [e4, abs_mul, abs_of_pos (by norm_num : (0 : ℝ) < 2)] at hbig
      have hcnn : 0 ≤ Real.cos γ := by
        have hle : |γ| ≤ π / 2 := by linarith
        rw [abs_le] at hle
        exact Real.cos_nonneg_of_neg_pi_div_two_le_of_le hle.1 hle.2
      rw [abs_of_nonneg hcnn]
  simp only [RS_Arc.createFrom2PBulge, RS_Arc.calculateBorders, RS_Arc.updateLength,
    RS_Arc.updateMiddlePoint, RS_Vector.distanceTo, RS_Vector.magnitude, RS_Vector.sub,
    RS_Vector.addAssign, RS_Vector.polar, RS_Vector.sdiv, RS_Vector.add, realEnv_sqrt,
    realEnv_sin, realEnv_cos, realEnv_atan, realEnv_pi]
  rw [← hL, ← hγ, hh]
  refine ⟨?_, ?_⟩
  · rcases lt_or_gt_of_ne hb with h | h
    · have hsn := (hneg h).2
      have hdec : decide (b < 0) = true := decide_eq_true h
      rw [if_pos hdec, Real.cos_sub_pi_div_two, Real.sin_sub_pi_div_two, hcφ', hsφ',
        abs_of_neg hsn]
      have ex : L / 2 * Real.cos γ / -Real.sin γ * ((p2.y - p1.y) / L) + (p1.x + p2.x) / 2
          = (p1.x + p2.x) / 2 - Real.cos γ / (2 * Real.sin γ) * (p2.y - p1.y) := by
        field_simp
        ring
      have ey : L / 2 * Real.cos γ / -Real.sin γ * -((p2.x - p1.x) / L) + (p1.y + p2.y) / 2
          = (p1.y + p2.y) / 2 + Real.cos γ / (2 * Real.sin γ) * (p2.x - p1.x) := by
        field_simp
        ring
      rw [ex, ey]
    · have hsp := (hpos h).2
      have hdec : ¬ (decide (b < 0) = true) := by
        rw [decide_eq_true_iff]; exact not_lt.mpr h.le
      rw [if_neg hdec, Real.cos_add_pi_div_two, Real.sin_add_pi_div_two, hcφ', hsφ',
        abs_of_pos hsp]
      have ex : L / 2 * Real.cos γ / Real.sin γ * -((p2.y - p1.y) / L) + (p1.x + p2.x) / 2
          = (p1.x + p2.x) / 2 - Real.cos γ / (2 * Real.sin γ) * (p2.y - p1.y) := by
        field_simp
        ring
      have ey : L / 2 * Real.cos γ / Real.sin γ * ((p2.x - p1.x) / L) + (p1.y + p2.y) / 2
          = (p1.y + p2.y) / 2 + Real.cos γ / (2 * Real.sin γ) * (p2.x - p1.x) := by
        field_simp
        ring
      rw [ex, ey]
  · rw [abs_div, abs_div, abs_of_pos hLpos, abs_of_pos (by norm_num : (0 : ℝ) < 2)]
    field_simp


/-- The circle `createFrom2PBulge` installs passes through both end points, and the turn from
the start point to the end point seen from the center is `4 * arctan bulge`. -/
theorem createFrom2PBulge_real_circle (t t2 ta : ℝ) (arc : RS_Arc ℝ) (p1 p2 : RS_Vector ℝ)
    (b : ℝ) (hne : p1.x ≠ p2.x ∨ p1.y ≠ p2.y) (hb : b ≠ 0) (c : RS_Vector ℝ) (r : ℝ)
    (hc : c = (RS_Arc.createFrom2PBulge (realEnv t t2 ta) arc p1 p2 b).2.data.center)
    (hr : r = (RS_Arc.createFrom2PBulge (realEnv t t2 ta) arc p1 p2 b).2.data.radius) :
    0 < r ∧
      (p1.x - c.x) * (p1.x - c.x) + (p1.y - c.y) * (p1.y - c.y) = r * r ∧
      (p2.x - c.x) * (p2.x - c.x) + (p2.y - c.y) * (p2.y - c.y) = r * r ∧
      (p1.x - c.x) * (p2.x - c.x) + (p1.y - c.y) * (p2.y - c.y)
        = r * r * Real.cos (4 * Real.arctan b) ∧
      (p1.x - c.x) * (p2.y - c.y) - (p1.y - c.y) * (p2.x - c.x)
        = r * r * Real.sin (4 * Real.arctan b) := by
  obtain ⟨hcen, hrad⟩ := createFrom2PBulge_real_data t t2 ta arc p1 p2 b hne hb
  obtain ⟨-, -, hpos, hneg⟩ := bulge_half_sweep b
  rw [← hc] at hcen
  rw [← hr] at hrad
  have e4 : 4 * Real.arctan b = 2 * (Real.arctan b * 4 / 2) := by ring
  rw [e4, Real.cos_two_mul, Real.sin_two_mul]
  set γ := Real.arctan b * 4 / 2 with hγ
  set s := Real.sin γ with hs
  set co := Real.cos γ with hco
  have hs0 : s ≠ 0 := by
    rcases lt_or_gt_of_ne hb with h | h
    · exact (hneg h).2.ne
    · exact (hpos h).2.ne'
  have hcs : s ^ 2 + co ^ 2 = 1 := Real.sin_sq_add_cos_sq γ
  have hradp : 0 < (p1.x - p2.x) * (p1.x - p2.x) + (p1.y - p2.y) * (p1.y - p2.y) := by
    rcases hne with h | h
    · have : p1.x - p2.x ≠ 0 := sub_ne_zero.mpr h
      nlinarith [mul_self_pos.mpr this, mul_self_nonneg (p1.y - p2.y)]
    · have : p1.y - p2.y ≠ 0 := sub_ne_zero.mpr h
      nlinarith [mul_self_pos.mpr this, mul_self_nonneg (p1.x - p2.x)]
  set L := Real.sqrt ((p1.x - p2.x) * (p1.x - p2.x) + (p1.y - p2.y) * (p1.y - p2.y)) with hL
  have hLpos : 0 < L := Real.sqrt_pos.mpr hradp
  have hLL : L * L = (p1.x - p2.x) * (p1.x - p2.x) + (p1.y - p2.y) * (p1.y - p2.y) :=
    Real.mul_self_sqrt hradp.le
  have habs : 0 < |s| := abs_pos.mpr hs0
  have hrr : r * r = L * L / (4 * (s * s)) := by
    rw [hrad]
    field_simp
    have := abs_mul_abs_self s
    linarith
  have hcx : c.x = (p1.x + p2.x) / 2 - co / (2 * s) * (p2.y - p1.y) := by rw [hcen]
  have hcy : c.y = (p1.y + p2.y) / 2 + co / (2 * s) * (p2.x - p1.x) := by rw [hcen]
  have hk : 1 / 4 + (co / (2 * s)) ^ 2 = 1 / (4 * (s * s)) := by
    field_simp
    linear_combination (16 * s ^ 2) * hcs
  have hk2 : (co / (2 * s)) ^ 2 - 1 / 4 = (2 * co ^ 2 - 1) / (4 * (s * s)) := by
    field_simp
    linear_combination (-16 * s ^ 2) * hcs
  have hk3 : co / (2 * s) = 2 * s * co / (4 * (s * s)) := by
    field_simp
    ring
  refine ⟨?_, ?_, ?_, ?_, ?_⟩
  · rw [hrad]; positivity
  · rw [hrr, hLL, hcx, hcy]
    have : (p1.x - ((p1.x + p2.x) / 2 - co / (2 * s) * (p2.y - p1.y)))
          * (p1.x - ((p1.x + p2.x) / 2 - co / (2 * s) * (p2.y - p1.y)))
        + (p1.y - ((p1.y + p2.y) / 2 + co / (2 * s) * (p2.x - p1.x)))
          * (p1.y - ((p1.y + p2.y) / 2 + co / (2 * s) * (p2.x - p1.x)))
        = (1 / 4 + (co / (2 * s)) ^ 2)
          * ((p1.x - p2.x) * (p1.x - p2.x) + (p1.y - p2.y) * (p1.y - p2.y)) := by ring
    rw [this, hk]
    ring
  · rw [hrr, hLL, hcx, hcy]
    have : (p2.x - ((p1.x + p2.x) / 2 - co / (2 * s) * (p2.y - p1.y)))
          * (p2.x - ((p1.x + p2.x) / 2 - co / (2 * s) * (p2.y - p1.y)))
        + (p2.y - ((p1.y + p2.y) / 2 + co / (2 * s) * (p2.x - p1.x)))
          * (p2.y - ((p1.y + p2.y) / 2 + co / (2 * s) * (p2.x - p1.x)))
        = (1 / 4 + (co / (2 * s)) ^ 2)
          * ((p1.x - p2.x) * (p1.x - p2.x) + (p1.y - p2.y) * (p1.y - p2.y)) := by ring
    rw [this, hk]
    ring
  · rw [hrr, hLL, hcx, hcy]
    have : (p1.x - ((p1.x + p2.x) / 2 - co / (2 * s) * (p2.y - p1.y)))
          * (p2.x - ((p1.x + p2.x) / 2 - co / (2 * s) * (p2.y - p1.y)))
        + (p1.y - ((p1.y + p2.y) / 2 + co / (2 * s) * (p2.x - p1.x)))
          * (p2.y - ((p1.y + p2.y) / 2 + co / (2 * s) * (p2.x - p1.x)))
        = ((co / (2 * s)) ^ 2 - 1 / 4)
          * ((p1.x - p2.x) * (p1.x - p2.x) + (p1.y - p2.y) * (p1.y - p2.y)) := by ring
    rw [this, hk2]
    ring
  · rw [hrr, hLL, hcx, hcy]
    have : (p1.x - ((p1.x + p2.x) / 2 - co / (2 * s) * (p2.y - p1.y)))
          * (p2.y - ((p1.y + p2.y) / 2 + co / (2 * s) * (p2.x - p1.x)))
        - (p1.y - ((p1.y + p2.y) / 2 + co / (2 * s) * (p2.x - p1.x)))
          * (p2.x - ((p1.x + p2.x) / 2 - co / (2 * s) * (p2.y - p1.y)))
        = (co / (2 * s))
          * ((p1.x - p2.x) * (p1.x - p2.x) + (p1.y - p2.y) * (p1.y - p2.y)) := by ring
    rw [this, hk3]
    ring


/-- Unfolding of `getAngleLength` in terms of the directed sweep. -/
theorem getAngleLength_eq {K : Type} [LinearOrderedField K] (E : Env K) (arc : RS_Arc K) :
    RS_Arc.getAngleLength E arc
      = if |E.remainder (RS_Math.correctAngle E (rawSweep arc)) (2 * E.pi)|
            < E.RS_TOLERANCE_ANGLE then 2 * E.pi
        else RS_Math.correctAngle E (rawSweep arc) :=
  rfl

/-- An angle of `[tolA, 2π - tolA]` is not within the tolerance of a whole number of turns. -/
theorem remainder_real_abs_ge (t t2 ta β : ℝ) (hta : 0 < ta) (h0 : ta ≤ β)
    (h1 : β ≤ 2 * π - ta) : ta ≤ |(realEnv t t2 ta).remainder β (2 * π)| := by
  have hp := Real.pi_pos
  obtain ⟨hle, k, hk⟩ := remainder_real_spec t t2 ta β
  rw [hk] at hle ⊢
  rw [abs_le] at hle
  have hk1 : k < 1 := by
    by_contra hcon
    have : (1 : ℝ) ≤ k := by exact_mod_cast not_lt.mp hcon
    have := mul_le_mul_of_nonneg_right this (by positivity : (0 : ℝ) ≤ 2 * π)
    linarith [hle.2]
  have hk2 : -2 < k := by
    by_contra hcon
    have : (k : ℝ) ≤ -2 := by exact_mod_cast not_lt.mp hcon
    have := mul_le_mul_of_nonneg_right this (by positivity : (0 : ℝ) ≤ 2 * π)
    linarith [hle.1]
  have hcases : k = 0 ∨ k = -1 := by omega
  rcases hcases with h | h
  · rw [h]; simp only [Int.cast_zero, zero_mul, add_zero]
    exact le_trans h0 (le_abs_self β)
  · rw [h]; push_cast
    have : β + -1 * (2 * π) = -(2 * π - β) := by ring
    rw [this, abs_neg]
    exact le_trans (by linarith) (le_abs_self _)

/-- The sweep of the arc `createFrom2PBulge` installs is `4 * arctan |bulge|`, before the
full-circle promotion of `getAngleLength`. -/
theorem createFrom2PBulge_real_sweep (t t2 ta : ℝ) (arc : RS_Arc ℝ) (p1 p2 : RS_Vector ℝ)
    (b : ℝ) (hne : p1.x ≠ p2.x ∨ p1.y ≠ p2.y) (hb : b ≠ 0) :
    RS_Math.correctAngle (realEnv t t2 ta)
      (rawSweep (RS_Arc.createFrom2PBulge (realEnv t t2 ta) arc p1 p2 b).2)
      = 4 * Real.arctan |b| := by
  obtain ⟨hr0, hp, hq, hdot, hcross⟩ := createFrom2PBulge_real_circle t t2 ta arc p1 p2 b hne hb
    _ _ rfl rfl
  obtain ⟨-, -, hpos, hneg⟩ := bulge_half_sweep b
  have h1 := Real.arctan_lt_pi_div_two b
  have h2 := Real.neg_pi_div_two_lt_arctan b
  set A := (RS_Arc.createFrom2PBulge (realEnv t t2 ta) arc p1 p2 b).2 with hA
  have ha1 : A.data.angle1 = RS_Vector.angleTo (realEnv t t2 ta) A.data.center p1 := rfl
  have ha2 : A.data.angle2 = RS_Vector.angleTo (realEnv t t2 ta) A.data.center p2 := rfl
  have hrev : A.data.reversed = decide (b < 0) := rfl
  rcases lt_or_gt_of_ne hb with h | h
  · have hθ := (hneg h).1
    have hsw : rawSweep A = RS_Vector.angleTo (realEnv t t2 ta) A.data.center p1
        - RS_Vector.angleTo (realEnv t t2 ta) A.data.center p2 := by
      simp only [rawSweep, hrev, h, decide_True, if_true, ha1, ha2]
    rw [hsw, abs_of_neg h, Real.arctan_neg]
    apply sweep_real_eq t t2 ta A.data.center p2 p1 A.data.radius _ hr0 hq hp
      (by linarith) (by linarith)
    · have : 4 * -Real.arctan b = -(4 * Real.arctan b) := by ring
      rw [this, Real.cos_neg]
      linarith
    · have : 4 * -Real.arctan b = -(4 * Real.arctan b) := by ring
      rw [this, Real.sin_neg]
      linarith
  · have hθ := (hpos h).1
    have hnb : ¬ b < 0 := not_lt.mpr h.le
    have hsw : rawSweep A = RS_Vector.angleTo (realEnv t t2 ta) A.data.center p2
        - RS_Vector.angleTo (realEnv t t2 ta) A.data.center p1 := by
      simp only [rawSweep, hrev, hnb, decide_False, Bool.false_eq_true, if_false, ha1, ha2]
    rw [hsw, abs_of_pos h]
    exact sweep_real_eq t t2 ta A.data.center p1 p2 A.data.radius _ hr0 hp hq
      (by linarith) (by linarith) hdot hcross

/-- After `createFrom2PBulge`, `getAngleLength` is `4 * arctan |bulge|` unless that sweep is
within the angle tolerance of zero or of a full turn. -/
theorem createFrom2PBulge_real_angleLength (t t2 ta : ℝ) (arc : RS_Arc ℝ) (p1 p2 : RS_Vector ℝ)
    (b : ℝ) (hne : p1.x ≠ p2.x ∨ p1.y ≠ p2.y) (hb : b ≠ 0) (hta : 0 < ta)
    (h0 : ta ≤ 4 * Real.arctan |b|) (h1 : 4 * Real.arctan |b| ≤ 2 * π - ta) :
    RS_Arc.getAngleLength (realEnv t t2 ta)
      (RS_Arc.createFrom2PBulge (realEnv t t2 ta) arc p1 p2 b).2 = 4 * Real.arctan |b| := by
  rw [getAngleLength_eq, createFrom2PBulge_real_sweep t t2 ta arc p1 p2 b hne hb, realEnv_pi,
    realEnv_tolA, if_neg (not_lt.mpr (remainder_real_abs_ge t t2 ta _ hta h0 h1))]

/-- After `createFrom2PBulge` with a sweep `4 * arctan |bulge|` below the angle tolerance,
`getAngleLength` reports a full circle. -/
theorem createFrom2PBulge_real_promoted (t t2 ta : ℝ) (arc : RS_Arc ℝ) (p1 p2 : RS_Vector ℝ)
    (b : ℝ) (hne : p1.x ≠ p2.x ∨ p1.y ≠ p2.y) (hb : b ≠ 0) (hta : ta ≤ π)
    (h0 : 4 * Real.arctan |b| < ta) :
    RS_Arc.getAngleLength (realEnv t t2 ta)
      (RS_Arc.createFrom2PBulge (realEnv t t2 ta) arc p1 p2 b).2 = 2 * π := by
  have hpos : 0 < Real.arctan |b| := by
    have := Real.arctan_strictMono (abs_pos.mpr hb)
    rwa [Real.arctan_zero] at this
  have hrem : (realEnv t t2 ta).remainder (4 * Real.arctan |b|) (2 * π)
      = 4 * Real.arctan |b| - ((0 : ℤ) : ℝ) * (2 * π) := by
    apply remainder_real_eq
    simp only [Int.cast_zero, zero_mul, sub_zero]
    rw [abs_of_pos (by linarith)]
    linarith
  rw [getAngleLength_eq, createFrom2PBulge_real_sweep t t2 ta arc p1 p2 b hne hb, realEnv_pi,
    realEnv_tolA, hrem, if_pos]
  simp only [Int.cast_zero, zero_mul, sub_zero]
  rw [abs_of_pos (by linarith)]
  exact h0

/-- After `createFrom2PBulge` with a sweep `4 * arctan |bulge|` closer to a full turn than the
angle tolerance, `getAngleLength` reports a full circle. -/
theorem createFrom2PBulge_real_promoted_high (t t2 ta : ℝ) (arc : RS_Arc ℝ)
    (p1 p2 : RS_Vector ℝ) (b : ℝ) (hne : p1.x ≠ p2.x ∨ p1.y ≠ p2.y) (hb : b ≠ 0) (hta : ta ≤ π)
    (h0 : 2 * π - ta < 4 * Real.arctan |b|) :
    RS_Arc.getAngleLength (realEnv t t2 ta)
      (RS_Arc.createFrom2PBulge (realEnv t t2 ta) arc p1 p2 b).2 = 2 * π := by
  have hlt := Real.arctan_lt_pi_div_two |b|
  have hrem : (realEnv t t2 ta).remainder (4 * Real.arctan |b|) (2 * π)
      = 4 * Real.arctan |b| - ((1 : ℤ) : ℝ) * (2 * π) := by
    apply remainder_real_eq
    simp only [Int.cast_one, one_mul]
    rw [abs_of_neg (by linarith)]
    linarith
  rw [getAngleLength_eq, createFrom2PBulge_real_sweep t t2 ta arc p1 p2 b hne hb, realEnv_pi,
    realEnv_tolA, hrem, if_pos]
  simp only [Int.cast_one, one_mul]
  rw [abs_of_neg (by linarith)]
  linarith

/-- For a positive number `arctan x < x`. -/
theorem arctan_lt_self_of_pos (x : ℝ) (hx : 0 < x) : Real.arctan x < x := by
  have h0 : 0 < Real.arctan x := by
    have := Real.arctan_strictMono hx
    rwa [Real.arctan_zero] at this
  have h := Real.lt_tan h0 (Real.arctan_lt_pi_div_two x)
  rwa [Real.tan_arctan] at h

/-- Direction cosines of `angle`, the zero vector included: `r * (cos a, sin a)` is `v` scaled to
length `r`, and the unit vector at angle 0 for the zero vector. -/
theorem angle_real_unit (t t2 ta : ℝ) (v : RS_Vector ℝ) :
    Real.sqrt (v.x * v.x + v.y * v.y) * Real.cos (RS_Vector.angle (realEnv t t2 ta) v) = v.x ∧
      Real.sqrt (v.x * v.x + v.y * v.y) * Real.sin (RS_Vector.angle (realEnv t t2 ta) v)
        = v.y := by
  by_cases h : v.x ≠ 0 ∨ v.y ≠ 0
  · obtain ⟨hc, hs⟩ := angle_real_cos_sin t t2 ta v h
    have hpos : 0 < v.x * v.x + v.y * v.y := by
      rcases h with h | h
      · nlinarith [mul_self_pos.mpr h, mul_self_nonneg v.y]
      · nlinarith [mul_self_pos.mpr h, mul_self_nonneg v.x]
    have hd : Real.sqrt (v.x * v.x + v.y * v.y) ≠ 0 := (Real.sqrt_pos.mpr hpos).ne'
    rw [hc, hs]
    constructor <;> field_simp
  · push_neg at h
    rw [h.1, h.2]
    simp

/-- The two branches of `getTangentPoint` that return without a tangent construction: nothing
for an interior point, the point itself inside the tolerance band. -/
theorem getTangentPoint_near {K : Type} [LinearOrderedField K] (E : Env K) (arc : RS_Arc K)
    (P : RS_Vector K) (hr2 : E.RS_TOLERANCE2 ≤ arc.data.radius * arc.data.radius) :
    (RS_Vector.squared (RS_Vector.sub P arc.data.center)
        < arc.data.radius * arc.data.radius - arc.data.radius * 2 * E.RS_TOLERANCE →
      RS_Arc.getTangentPoint E arc P = []) ∧
    (arc.data.radius * arc.data.radius - arc.data.radius * 2 * E.RS_TOLERANCE
        ≤ RS_Vector.squared (RS_Vector.sub P arc.data.center) →
      RS_Vector.squared (RS_Vector.sub P arc.data.center)
        ≤ arc.data.radius * arc.data.radius + arc.data.radius * 2 * E.RS_TOLERANCE →
      RS_Arc.getTangentPoint E arc P = [P]) := by
  have h0 : ¬ arc.data.radius * arc.data.radius < E.RS_TOLERANCE2 := not_lt.mpr hr2
  constructor
  · intro h
    simp only [RS_Arc.getTangentPoint, h0, if_false, h, if_true]
  · intro h1 h2
    simp only [RS_Arc.getTangentPoint, h0, if_false, not_lt.mpr h1, gt_iff_lt, not_lt.mpr h2]

/-- The exterior branch of `getTangentPoint` in exact arithmetic: with `v = P - center`,
`c2 = |v|²`, the foot `center + (r²/c2) v` and the offset `(r √(c2 - r²) / c2) v⊥`, whose squared
length is `r² (c2 - r²) / c2`, the result is the pair foot ± offset when that squared length
exceeds `RS_TOLERANCE2`, and the point itself otherwise. -/
theorem getTangentPoint_real_exterior (t t2 ta : ℝ) (arc : RS_Arc ℝ) (P : RS_Vector ℝ)
    (r c2 : ℝ) (hrdef : r = arc.data.radius)
    (hc2def : c2 = RS_Vector.squared (RS_Vector.sub P arc.data.center))
    (hr : 0 ≤ r) (ht : 0 ≤ t) (hr2 : t2 ≤ r * r) (hext : r * r + r * 2 * t < c2) :
    (t2 < r * r * (c2 - r * r) / c2 →
      RS_Arc.getTangentPoint (realEnv t t2 ta) arc P
        = [⟨(P.x - arc.data.center.x) * (r * r / c2) + arc.data.center.x
              + -(P.y - arc.data.center.y) * (r * Real.sqrt (c2 - r * r) / c2),
            (P.y - arc.data.center.y) * (r * r / c2) + arc.data.center.y
              + (P.x - arc.data.center.x) * (r * Real.sqrt (c2 - r * r) / c2), true⟩,
           ⟨(P.x - arc.data.center.x) * (r * r / c2) + arc.data.center.x
              - -(P.y - arc.data.center.y) * (r * Real.sqrt (c2 - r * r) / c2),
            (P.y - arc.data.center.y) * (r * r / c2) + arc.data.center.y
              - (P.x - arc.data.center.x) * (r * Real.sqrt (c2 - r * r) / c2), true⟩]) ∧
    (r * r * (c2 - r * r) / c2 ≤ t2 →
      RS_Arc.getTangentPoint (realEnv t t2 ta) arc P = [P]) := by
  have hrt : 0 ≤ r * 2 * t := by positivity
  have hc2pos : 0 < c2 := by nlinarith [mul_self_nonneg r]
  have hge : 0 ≤ c2 - r * r := by linarith
  have hss : Real.sqrt (c2 - r * r) * Real.sqrt (c2 - r * r) = c2 - r * r :=
    Real.mul_self_sqrt hge
  have h0 : ¬ arc.data.radius * arc.data.radius < t2 := by rw [← hrdef]; exact not_lt.mpr hr2
  have h1 : ¬ RS_Vector.squared (RS_Vector.sub P arc.data.center)
      < arc.data.radius * arc.data.radius - arc.data.radius * 2 * t := by
    rw [← hrdef, ← hc2def]; linarith
  have h2 : RS_Vector.squared (RS_Vector.sub P arc.data.center)
      > arc.data.radius * arc.data.radius + arc.data.radius * 2 * t := by
    rw [← hrdef, ← hc2def]; exact hext
  have hc2' : c2 = (P.x - arc.data.center.x) * (P.x - arc.data.center.x)
      + (P.y - arc.data.center.y) * (P.y - arc.data.center.y) := hc2def
  have hoff : RS_Vector.squared (RS_Vector.mulAssign
      (RS_Vector.mk2 (-(RS_Vector.sub P arc.data.center).y) (RS_Vector.sub P arc.data.center).x)
      (r * Real.sqrt (c2 - r * r) / c2)) = r * r * (c2 - r * r) / c2 := by
    simp only [RS_Vector.squared, RS_Vector.mulAssign, RS_Vector.mk2, RS_Vector.sub]
    generalize Real.sqrt (c2 - r * r) = s at hss ⊢
    have : -(P.y - arc.data.center.y) * (r * s / c2)
          * (-(P.y - arc.data.center.y) * (r * s / c2))
        + (P.x - arc.data.center.x) * (r * s / c2)
          * ((P.x - arc.data.center.x) * (r * s / c2))
        = ((P.x - arc.data.center.x) * (P.x - arc.data.center.x)
            + (P.y - arc.data.center.y) * (P.y - arc.data.center.y))
          * (r * r * (s * s) / (c2 * c2)) := by
      field_simp
      ring
    rw [this, hss, ← hc2']
    field_simp
    ring
  constructor
  · intro hbig
    simp only [RS_Arc.getTangentPoint, realEnv_tol2, realEnv_tol, realEnv_sqrt, h0, h1, h2,
      if_false, if_true]
    rw [← hrdef, ← hc2def, hoff, if_pos hbig]
    rfl
  · intro hsmall
    simp only [RS_Arc.getTangentPoint, realEnv_tol2, realEnv_tol, realEnv_sqrt, h0, h1, h2,
      if_false, if_true]
    rw [← hrdef, ← hc2def, hoff, if_neg (not_lt.mpr hsmall)]

/-- Squared length of the tangent offset `(r √(c2 - r²) / c2) v⊥`. -/
theorem tangent_offset_sq (vx vy r c2 : ℝ) (hc2 : c2 = vx * vx + vy * vy) (hpos : 0 < c2)
    (hge : 0 ≤ c2 - r * r) :
    (-vy * (r * Real.sqrt (c2 - r * r) / c2)) * (-vy * (r * Real.sqrt (c2 - r * r) / c2))
      + (vx * (r * Real.sqrt (c2 - r * r) / c2)) * (vx * (r * Real.sqrt (c2 - r * r) / c2))
      = r * r * (c2 - r * r) / c2 := by
  have hss : Real.sqrt (c2 - r * r) * Real.sqrt (c2 - r * r) = c2 - r * r :=
    Real.mul_self_sqrt hge
  generalize Real.sqrt (c2 - r * r) = s at hss ⊢
  have : (-vy * (r * s / c2)) * (-vy * (r * s / c2)) + (vx * (r * s / c2)) * (vx * (r * s / c2))
      = (vx * vx + vy * vy) * (r * r * (s * s) / (c2 * c2)) := by
    field_simp
    ring
  rw [this, hss, ← hc2]
  field_simp
  ring

/-- Algebra of the tangent construction: with `v` the vector from the center to `P`,
`c2 = |v|²`, `λ c2 = r²` and `k² c2² = r² (c2 - r²)`, the point `λ v + k v⊥` (relative to the
center) is at distance `r` from the center, the radius to it is perpendicular to the segment
from `P`, and its squared distance to `P` is `c2 - r²`. -/
theorem tangent_point_algebra (vx vy r c2 l k : ℝ) (hc2 : c2 = vx * vx + vy * vy)
    (hpos : 0 < c2) (hl : l * c2 = r * r) (hk : k * k * (c2 * c2) = r * r * (c2 - r * r)) :
    (vx * l - vy * k) * (vx * l - vy * k) + (vy * l + vx * k) * (vy * l + vx * k) = r * r ∧
      (vx * l - vy * k) * (vx * l - vy * k - vx) + (vy * l + vx * k) * (vy * l + vx * k - vy)
        = 0 ∧
      (vx * l - vy * k - vx) * (vx * l - vy * k - vx)
        + (vy * l + vx * k - vy) * (vy * l + vx * k - vy) = c2 - r * r := by
  have h1 : (vx * l - vy * k) * (vx * l - vy * k) + (vy * l + vx * k) * (vy * l + vx * k)
      = r * r := by
    have hmul : ((vx * l - vy * k) * (vx * l - vy * k) + (vy * l + vx * k) * (vy * l + vx * k))
        * c2 = r * r * c2 := by
      linear_combination (l * c2 + r * r) * hl + hk - (l ^ 2 + k ^ 2) * c2 * hc2
    exact mul_right_cancel₀ hpos.ne' hmul
  have h2 : vx * (vx * l - vy * k) + vy * (vy * l + vx * k) = r * r := by
    linear_combination hl - l * hc2
  refine ⟨h1, ?_, ?_⟩
  · linear_combination h1 - h2
  · linear_combination h1 - 2 * h2 - hc2

/-- The named constants of the tangent construction satisfy the hypotheses of
`tangent_point_algebra`. -/
theorem tangent_constants (r c2 : ℝ) (hpos : 0 < c2) (hge : 0 ≤ c2 - r * r) :
    r * r / c2 * c2 = r * r ∧
      (r * Real.sqrt (c2 - r * r) / c2) * (r * Real.sqrt (c2 - r * r) / c2) * (c2 * c2)
        = r * r * (c2 - r * r) := by
  have hss : Real.sqrt (c2 - r * r) * Real.sqrt (c2 - r * r) = c2 - r * r :=
    Real.mul_self_sqrt hge
  generalize Real.sqrt (c2 - r * r) = s at hss ⊢
  constructor
  · field_simp
  · have : r * s / c2 * (r * s / c2) * (c2 * c2) = r * r * (s * s) := by
      field_simp
      ring
    rw [this, hss]

theorem sampleArc_data : sampleArc.data = ⟨pt 0 0, 1, 0, 1, false⟩ := rfl

theorem tinyArc_data : tinyArc.data = ⟨pt 0 0, 12 / 10 ^ 11, 0, 1, false⟩ := rfl

/-- In exact arithmetic `correctAngle` does not see whole turns. -/
theorem correctAngle_real_add_int (t t2 ta x : ℝ) (k : ℤ) :
    RS_Math.correctAngle (realEnv t t2 ta) (x + k * (2 * π))
      = RS_Math.correctAngle (realEnv t t2 ta) x := by
  obtain ⟨h0, h1, m, hm⟩ := correctAngle_real_spec t t2 ta x
  exact correctAngle_real_eq t t2 ta _ _ h0 h1 ⟨k - m, by rw [hm]; push_cast; ring⟩

/-- Two arcs whose directed sweeps differ by whole turns have the same `getAngleLength`. -/
theorem getAngleLength_real_congr (t t2 ta : ℝ) (A B : RS_Arc ℝ) (k : ℤ)
    (h : rawSweep B = rawSweep A + k * (2 * π)) :
    RS_Arc.getAngleLength (realEnv t t2 ta) B = RS_Arc.getAngleLength (realEnv t t2 ta) A := by
  rw [getAngleLength_eq, getAngleLength_eq, h, correctAngle_real_add_int]

/-- `getAngleLength` depends on the arc through its directed sweep only. -/
theorem getAngleLength_of_rawSweep {K : Type} [LinearOrderedField K] (E : Env K)
    (A B : RS_Arc K) (h : rawSweep B = rawSweep A) :
    RS_Arc.getAngleLength E B = RS_Arc.getAngleLength E A := by
  rw [getAngleLength_eq, getAngleLength_eq, h]

/-- In exact arithmetic `correctAngles` moves the end of the counter-clockwise span (`angle2`,
or `angle1` when reversed) by a whole number of turns and changes nothing else. -/
theorem correctAngles_real_spec (t t2 ta : ℝ) (arc : RS_Arc ℝ) :
    ∃ k : ℤ, RS_Arc.correctAngles (realEnv t t2 ta) arc
      = { arc with data := { arc.data with
            angle1 := if arc.data.reversed then arc.data.angle1 + k * (2 * π)
              else arc.data.angle1,
            angle2 := if arc.data.reversed then arc.data.angle2
              else arc.data.angle2 + k * (2 * π) } } := by
  have hf : ∀ x : ℝ, (realEnv t t2 ta).fmod x (2 * π) = x - 2 * π * (truncQuot (x / (2 * π)) : ℝ) :=
    fun _ => rfl
  rcases arc with ⟨⟨c, r, a1, a2, rev⟩, sp, ep, mp, mn, mx, len⟩
  cases rev
  · simp only [RS_Arc.correctAngles, realEnv_pi, realEnv_tolA, hf, Bool.false_eq_true, if_false]
    split_ifs
    · refine ⟨-truncQuot ((a2 - a1) / (2 * π)) + 1, ?_⟩
      congr 2
      push_cast; ring
    · refine ⟨-truncQuot ((a2 - a1) / (2 * π)), ?_⟩
      congr 2
      push_cast; ring
  · simp only [RS_Arc.correctAngles, realEnv_pi, realEnv_tolA, hf, if_true]
    split_ifs
    · refine ⟨-truncQuot ((a1 - a2) / (2 * π)) + 1, ?_⟩
      congr 2
      push_cast; ring
    · refine ⟨-truncQuot ((a1 - a2) / (2 * π)), ?_⟩
      congr 2
      push_cast; ring

/-- In exact arithmetic `correctAngles` keeps center, radius, direction flag, the caches and
`getAngleLength`. -/
theorem correctAngles_real_keeps (t t2 ta : ℝ) (arc : RS_Arc ℝ) :
    (RS_Arc.correctAngles (realEnv t t2 ta) arc).data.center = arc.data.center ∧
      (RS_Arc.correctAngles (realEnv t t2 ta) arc).data.radius = arc.data.radius ∧
      (RS_Arc.correctAngles (realEnv t t2 ta) arc).data.reversed = arc.data.reversed ∧
      (RS_Arc.correctAngles (realEnv t t2 ta) arc).m_startPoint = arc.m_startPoint ∧
      (RS_Arc.correctAngles (realEnv t t2 ta) arc).m_endPoint = arc.m_endPoint ∧
      RS_Arc.getAngleLength (realEnv t t2 ta) (RS_Arc.correctAngles (realEnv t t2 ta) arc)
        = RS_Arc.getAngleLength (realEnv t t2 ta) arc := by
  obtain ⟨k, hk⟩ := correctAngles_real_spec t t2 ta arc
  rw [hk]
  refine ⟨rfl, rfl, rfl, rfl, rfl, ?_⟩
  apply getAngleLength_real_congr t t2 ta _ _ k
  simp only [rawSweep]
  cases arc.data.reversed
  · simp only [Bool.false_eq_true, if_false]; ring
  · simp only [if_true]; ring

theorem truncQuot_of_abs_lt_one (q : ℝ) (h : |q| < 1) : truncQuot q = 0 := by
  rw [abs_lt] at h
  unfold truncQuot
  split_ifs with h0
  · rw [Int.floor_eq_iff]
    constructor
    · simpa using h0
    · simpa using h.2
  · rw [Int.ceil_eq_iff]
    constructor
    · simpa using h.1
    · simp only [Int.cast_zero]; linarith

/-- In exact arithmetic, for a positive angle tolerance not above `π`, `getAngleLength` is at
least the tolerance, and an arc that is not reported as a full circle has a sweep between the
tolerance and `2π` minus the tolerance. -/
theorem getAngleLength_real_bounds (t t2 ta : ℝ) (hta : 0 < ta) (hpi : ta ≤ π) (arc : RS_Arc ℝ) :
    ta ≤ RS_Arc.getAngleLength (realEnv t t2 ta) arc ∧
      (RS_Arc.getAngleLength (realEnv t t2 ta) arc ≠ 2 * π →
        RS_Arc.getAngleLength (realEnv t t2 ta) arc ≤ 2 * π - ta) := by
  have hp := Real.pi_pos
  obtain ⟨c0, c1, -⟩ := correctAngle_real_spec t t2 ta (rawSweep arc)
  rw [getAngleLength_eq, realEnv_pi, realEnv_tolA]
  set c := RS_Math.correctAngle (realEnv t t2 ta) (rawSweep arc)
  obtain ⟨hle, k, hk⟩ := remainder_real_spec t t2 ta c
  split_ifs with h
  · exact ⟨by linarith, fun hne => absurd rfl hne⟩
  · rw [not_lt, hk] at h
    rw [hk, abs_le] at hle
    have hk1 : k < 1 := by
      by_contra hcon
      have : (1 : ℝ) ≤ k := by exact_mod_cast not_lt.mp hcon
      have := mul_le_mul_of_nonneg_right this (by positivity : (0 : ℝ) ≤ 2 * π)
      by_cases hc : c = 0
      · rw [hc] at h hle; linarith [hle.2]
      · have : 0 < c := lt_of_le_of_ne c0 (Ne.symm hc)
        linarith [hle.2]
    have hk2 : -2 < k := by
      by_contra hcon
      have : (k : ℝ) ≤ -2 := by exact_mod_cast not_lt.mp hcon
      have := mul_le_mul_of_nonneg_right this (by positivity : (0 : ℝ) ≤ 2 * π)
      linarith [hle.1]
    have hcases : k = 0 ∨ k = -1 := by omega
    rcases hcases with h0 | h0
    · rw [h0] at h hle
      simp only [Int.cast_zero, zero_mul, add_zero] at h hle
      rw [abs_of_nonneg c0] at h
      exact ⟨h, fun _ => by linarith [hle.2]⟩
    · rw [h0] at h hle
      push_cast at h hle
      have e : c + -1 * (2 * π) = -(2 * π - c) := by ring
      rw [e, abs_neg, abs_of_pos (by linarith)] at h
      exact ⟨by linarith [hle.1], fun _ => by linarith⟩

/-- In exact arithmetic `correctAngles` changes nothing when both stored angles are already in
`[0, 2π)`. -/
theorem correctAngles_real_id (t t2 ta : ℝ) (hta : 0 < ta) (hpi : ta ≤ π) (arc : RS_Arc ℝ)
    (h1 : 0 ≤ arc.data.angle1 ∧ arc.data.angle1 < 2 * π)
    (h2 : 0 ≤ arc.data.angle2 ∧ arc.data.angle2 < 2 * π) :
    RS_Arc.correctAngles (realEnv t t2 ta) arc = arc := by
  have hp := Real.pi_pos
  have hf : ∀ x : ℝ, |x| < 2 * π → (realEnv t t2 ta).fmod x (2 * π) = x := by
    intro x hx
    have : truncQuot (x / (2 * π)) = 0 := by
      apply truncQuot_of_abs_lt_one
      rw [abs_div, abs_of_pos (by positivity : (0 : ℝ) < 2 * π), div_lt_one (by positivity)]
      exact hx
    show x - 2 * π * (truncQuot (x / (2 * π)) : ℝ) = x
    rw [this]; simp
  rcases arc with ⟨⟨c, r, a1, a2, rev⟩, sp, ep, mp, mn, mx, len⟩
  simp only at h1 h2
  cases rev
  · have hx : |a2 - a1| < 2 * π := by rw [abs_lt]; constructor <;> linarith [h1.1, h1.2, h2.1, h2.2]
    have hv : a1 + (a2 - a1) = a2 := by ring
    simp only [RS_Arc.correctAngles, realEnv_pi, realEnv_tolA, Bool.false_eq_true, if_false,
      hf _ hx, hv]
    rw [if_neg]
    have hb := (getAngleLength_real_bounds t t2 ta hta hpi
      ⟨⟨c, r, a1, a2, false⟩, sp, ep, mp, mn, mx, len⟩).1
    rw [not_lt]
    exact le_trans hb (le_abs_self _)
  · have hx : |a1 - a2| < 2 * π := by rw [abs_lt]; constructor <;> linarith [h1.1, h1.2, h2.1, h2.2]
    have hv : a2 + (a1 - a2) = a1 := by ring
    simp only [RS_Arc.correctAngles, realEnv_pi, realEnv_tolA, if_true, hf _ hx, hv]
    rw [if_neg]
    have hb := (getAngleLength_real_bounds t t2 ta hta hpi
      ⟨⟨c, r, a1, a2, true⟩, sp, ep, mp, mn, mx, len⟩).1
    rw [not_lt]
    exact le_trans hb (le_abs_self _)

/-- The arc that `mirror` produces, in exact arithmetic: the corrected angles need no further
correction, so the result is the recompute step applied to the mirrored data. -/
theorem mirror_real_eq (t t2 ta : ℝ) (hta : 0 < ta) (hpi : ta ≤ π) (arc : RS_Arc ℝ)
    (a1 a2 : RS_Vector ℝ) :
    RS_Arc.mirror (realEnv t t2 ta) arc a1 a2
      = RS_Arc.calculateBorders (realEnv t t2 ta)
          { arc with data := ⟨RS_Vector.mirror arc.data.center a1 a2, arc.data.radius,
              RS_Math.correctAngle (realEnv t t2 ta)
                (RS_Vector.angle (realEnv t t2 ta) (RS_Vector.sub a2 a1) * 2 - arc.data.angle1),
              RS_Math.correctAngle (realEnv t t2 ta)
                (RS_Vector.angle (realEnv t t2 ta) (RS_Vector.sub a2 a1) * 2 - arc.data.angle2),
              !arc.data.reversed⟩ } := by
  obtain ⟨x0, x1, -⟩ := correctAngle_real_spec t t2 ta
    (RS_Vector.angle (realEnv t t2 ta) (RS_Vector.sub a2 a1) * 2 - arc.data.angle1)
  obtain ⟨y0, y1, -⟩ := correctAngle_real_spec t t2 ta
    (RS_Vector.angle (realEnv t t2 ta) (RS_Vector.sub a2 a1) * 2 - arc.data.angle2)
  unfold RS_Arc.mirror
  simp only
  rw [correctAngles_real_id t t2 ta hta hpi _ ⟨x0, x1⟩ ⟨y0, y1⟩]

/-- Coordinates of the mirror image of a vector. -/
theorem mirror_coords {K : Type} [LinearOrderedField K] (v a1 a2 : RS_Vector K) :
    RS_Vector.mirror v a1 a2
      = ⟨(a1.x + (a2.x - a1.x) * ((v.x - a1.x) * (a2.x - a1.x) + (v.y - a1.y) * (a2.y - a1.y))
              / ((a2.x - a1.x) * (a2.x - a1.x) + (a2.y - a1.y) * (a2.y - a1.y)))
          + (a1.x + (a2.x - a1.x) * ((v.x - a1.x) * (a2.x - a1.x) + (v.y - a1.y) * (a2.y - a1.y))
              / ((a2.x - a1.x) * (a2.x - a1.x) + (a2.y - a1.y) * (a2.y - a1.y))) - v.x,
        (a1.y + (a2.y - a1.y) * ((v.x - a1.x) * (a2.x - a1.x) + (v.y - a1.y) * (a2.y - a1.y))
              / ((a2.x - a1.x) * (a2.x - a1.x) + (a2.y - a1.y) * (a2.y - a1.y)))
          + (a1.y + (a2.y - a1.y) * ((v.x - a1.x) * (a2.x - a1.x) + (v.y - a1.y) * (a2.y - a1.y))
              / ((a2.x - a1.x) * (a2.x - a1.x) + (a2.y - a1.y) * (a2.y - a1.y))) - v.y,
        true⟩ :=
  rfl

/-- Algebra of reflecting a point `c + r (cθ, sθ)` across the line through `a1` with direction
`(dx, dy)`. -/
theorem mirror_algebra (cx cy ax ay dx dy r cθ sθ : ℝ) (hn : dx * dx + dy * dy ≠ 0) :
    (ax + dx * ((cx - ax) * dx + (cy - ay) * dy) / (dx * dx + dy * dy))
        + (ax + dx * ((cx - ax) * dx + (cy - ay) * dy) / (dx * dx + dy * dy)) - cx
        + r * ((2 * (dx * dx / (dx * dx + dy * dy)) - 1) * cθ
          + 2 * (dx * dy / (dx * dx + dy * dy)) * sθ)
      = (ax + dx * ((cx + r * cθ - ax) * dx + (cy + r * sθ - ay) * dy) / (dx * dx + dy * dy))
        + (ax + dx * ((cx + r * cθ - ax) * dx + (cy + r * sθ - ay) * dy) / (dx * dx + dy * dy))
        - (cx + r * cθ) ∧
    (ay + dy * ((cx - ax) * dx + (cy - ay) * dy) / (dx * dx + dy * dy))
        + (ay + dy * ((cx - ax) * dx + (cy - ay) * dy) / (dx * dx + dy * dy)) - cy
        + r * (2 * (dx * dy / (dx * dx + dy * dy)) * cθ
          - (1 - 2 * (dy * dy / (dx * dx + dy * dy))) * sθ)
      = (ay + dy * ((cx + r * cθ - ax) * dx + (cy + r * sθ - ay) * dy) / (dx * dx + dy * dy))
        + (ay + dy * ((cx + r * cθ - ax) * dx + (cy + r * sθ - ay) * dy) / (dx * dx + dy * dy))
        - (cy + r * sθ) := by
  constructor
  · field_simp
    ring
  · field_simp
    ring

/-- Reflection of a point of a circle: the mirror image of the point at angle `θ` of the circle
about `c` is the point at angle `2φ - θ` of the circle about the mirrored center, `φ` being the
direction of the axis. -/
theorem mirror_relative_real (t t2 ta : ℝ) (c a1 a2 : RS_Vector ℝ) (r θ : ℝ)
    (hne : a1.x ≠ a2.x ∨ a1.y ≠ a2.y) :
    RS_Vector.relative (realEnv t t2 ta) (RS_Vector.mirror c a1 a2) r
        (RS_Math.correctAngle (realEnv t t2 ta)
          (RS_Vector.angle (realEnv t t2 ta) (RS_Vector.sub a2 a1) * 2 - θ))
      = RS_Vector.mirror (RS_Vector.relative (realEnv t t2 ta) c r θ) a1 a2 := by
  have hne' : a2.x - a1.x ≠ 0 ∨ a2.y - a1.y ≠ 0 := by
    rcases hne with h | h
    · left; exact sub_ne_zero.mpr (Ne.symm h)
    · right; exact sub_ne_zero.mpr (Ne.symm h)
  obtain ⟨hc, hs⟩ := angle_real_cos_sin t t2 ta (RS_Vector.sub a2 a1) hne'
  have hc1 : Real.cos (RS_Vector.angle (realEnv t t2 ta) (RS_Vector.sub a2 a1))
      = (a2.x - a1.x) / Real.sqrt ((a2.x - a1.x) * (a2.x - a1.x)
        + (a2.y - a1.y) * (a2.y - a1.y)) := hc
  have hs1 : Real.sin (RS_Vector.angle (realEnv t t2 ta) (RS_Vector.sub a2 a1))
      = (a2.y - a1.y) / Real.sqrt ((a2.x - a1.x) * (a2.x - a1.x)
        + (a2.y - a1.y) * (a2.y - a1.y)) := hs
  generalize RS_Vector.angle (realEnv t t2 ta) (RS_Vector.sub a2 a1) = φ at hc1 hs1 ⊢
  have hn : 0 < (a2.x - a1.x) * (a2.x - a1.x) + (a2.y - a1.y) * (a2.y - a1.y) := by
    rcases hne' with h | h
    · nlinarith [mul_self_pos.mpr h, mul_self_nonneg (a2.y - a1.y)]
    · nlinarith [mul_self_pos.mpr h, mul_self_nonneg (a2.x - a1.x)]
  have hLL := Real.mul_self_sqrt hn.le
  have hLpos := Real.sqrt_pos.mpr hn
  generalize Real.sqrt ((a2.x - a1.x) * (a2.x - a1.x) + (a2.y - a1.y) * (a2.y - a1.y)) = L
    at hc1 hs1 hLL hLpos
  have hL : L ≠ 0 := hLpos.ne'
  have hcc : Real.cos φ * Real.cos φ = (a2.x - a1.x) * (a2.x - a1.x)
      / ((a2.x - a1.x) * (a2.x - a1.x) + (a2.y - a1.y) * (a2.y - a1.y)) := by
    rw [hc1, ← hLL]; field_simp
  have hsc : Real.sin φ * Real.cos φ = (a2.x - a1.x) * (a2.y - a1.y)
      / ((a2.x - a1.x) * (a2.x - a1.x) + (a2.y - a1.y) * (a2.y - a1.y)) := by
    rw [hc1, hs1, ← hLL]; field_simp; ring
  have hss : Real.sin φ * Real.sin φ = (a2.y - a1.y) * (a2.y - a1.y)
      / ((a2.x - a1.x) * (a2.x - a1.x) + (a2.y - a1.y) * (a2.y - a1.y)) := by
    rw [hs1, ← hLL]; field_simp
  obtain ⟨hcc', hss'⟩ := correctAngle_real_cos_sin t t2 ta (φ * 2 - θ)
  have e2 : φ * 2 = 2 * φ := by ring
  have hcos : Real.cos (φ * 2 - θ)
      = (2 * ((a2.x - a1.x) * (a2.x - a1.x)
            / ((a2.x - a1.x) * (a2.x - a1.x) + (a2.y - a1.y) * (a2.y - a1.y))) - 1)
          * Real.cos θ
        + 2 * ((a2.x - a1.x) * (a2.y - a1.y)
            / ((a2.x - a1.x) * (a2.x - a1.x) + (a2.y - a1.y) * (a2.y - a1.y))) * Real.sin θ := by
    rw [Real.cos_sub, e2, Real.cos_two_mul, Real.sin_two_mul, ← hcc, ← hsc]; ring
  have hsin : Real.sin (φ * 2 - θ)
      = 2 * ((a2.x - a1.x) * (a2.y - a1.y)
            / ((a2.x - a1.x) * (a2.x - a1.x) + (a2.y - a1.y) * (a2.y - a1.y))) * Real.cos θ
        - (1 - 2 * ((a2.y - a1.y) * (a2.y - a1.y)
            / ((a2.x - a1.x) * (a2.x - a1.x) + (a2.y - a1.y) * (a2.y - a1.y))))
          * Real.sin θ := by
    have hc2 : Real.cos (2 * φ) = 1 - 2 * (Real.sin φ * Real.sin φ) := by
      rw [Real.cos_two_mul]
      have := Real.sin_sq_add_cos_sq φ
      nlinarith
    rw [Real.sin_sub, e2, hc2, Real.sin_two_mul, ← hss, ← hsc]; ring
  obtain ⟨ex, ey⟩ := mirror_algebra c.x c.y a1.x a1.y (a2.x - a1.x) (a2.y - a1.y) r
    (Real.cos θ) (Real.sin θ) hn.ne'
  rw [mirror_coords, mirror_coords]
  show (⟨_ + r * Real.cos (RS_Math.correctAngle (realEnv t t2 ta) (φ * 2 - θ)),
      _ + r * Real.sin (RS_Math.correctAngle (realEnv t t2 ta) (φ * 2 - θ)), true⟩
        : RS_Vector ℝ) = ⟨_, _, true⟩
  rw [hcc', hss', hcos, hsin]
  congr 1

theorem quarterArc_data : quarterArc.data = ⟨pt 0 0, 1, 0, π / 2, false⟩ := rfl

/-- The direction of the positive x-axis is the angle 0. -/
theorem angle_real_x_axis (t t2 ta : ℝ) :
    RS_Vector.angle (realEnv t t2 ta) (RS_Vector.sub (pt 1 0) (pt 0 0)) = 0 := by
  have hz : (⟨1 - 0, 0 - 0⟩ : ℂ) = ((1 : ℝ) : ℂ) := by
    apply Complex.ext <;> simp
  have harg : Complex.arg ⟨1 - 0, 0 - 0⟩ = 0 := by
    rw [hz]; exact Complex.arg_ofReal_of_nonneg zero_le_one
  simp only [RS_Vector.angle, RS_Vector.sub, pt, RS_Vector.mk2, realEnv_atan2, harg]
  exact correctAngle_real_eq t t2 ta 0 0 le_rfl (by positivity) ⟨0, by simp⟩

/-- In every numeric environment `correctAngles` keeps center, radius and direction flag. -/
theorem correctAngles_keeps {K : Type} [LinearOrderedField K] (E : Env K) (arc : RS_Arc K) :
    (RS_Arc.correctAngles E arc).data.center = arc.data.center ∧
      (RS_Arc.correctAngles E arc).data.radius = arc.data.radius ∧
      (RS_Arc.correctAngles E arc).data.reversed = arc.data.reversed := by
  unfold RS_Arc.correctAngles
  simp only
  split_ifs <;> exact ⟨rfl, rfl, rfl⟩

/-- In every numeric environment `mirror` reflects the center, keeps the radius and negates the
direction flag. -/
theorem mirror_keeps {K : Type} [LinearOrderedField K] (E : Env K) (arc : RS_Arc K)
    (a1 a2 : RS_Vector K) :
    (RS_Arc.mirror E arc a1 a2).data.center = RS_Vector.mirror arc.data.center a1 a2 ∧
      (RS_Arc.mirror E arc a1 a2).data.radius = arc.data.radius ∧
      (RS_Arc.mirror E arc a1 a2).data.reversed = !arc.data.reversed := by
  obtain ⟨h1, h2, h3⟩ := correctAngles_keeps E
    { arc with data := ⟨RS_Vector.mirror arc.data.center a1 a2, arc.data.radius,
        RS_Math.correctAngle E (RS_Vector.angle E (RS_Vector.sub a2 a1) * 2 - arc.data.angle1),
        RS_Math.correctAngle E (RS_Vector.angle E (RS_Vector.sub a2 a1) * 2 - arc.data.angle2),
        !arc.data.reversed⟩ }
  exact ⟨h1, h2, h3⟩

/-- A vector is its own mirror image across any line through it: the coordinates stay. -/
theorem mirror_self_coords {K : Type} [LinearOrderedField K] (v d : RS_Vector K) :
    (RS_Vector.mirror v v (RS_Vector.add v d)).x = v.x ∧
      (RS_Vector.mirror v v (RS_Vector.add v d)).y = v.y := by
  simp only [RS_Vector.mirror, RS_Vector.sub, RS_Vector.add, RS_Vector.smul, RS_Vector.sdiv,
    RS_Vector.dotP, RS_Vector.squared, sub_self, zero_mul, add_zero, mul_zero, zero_div]
  constructor <;> ring

/-- A mirror about an axis through the arc's own center keeps radius and center coordinates
and negates the direction flag. -/
theorem mirror_own_center {K : Type} [LinearOrderedField K] (E : Env K) (B : RS_Arc K)
    (d : RS_Vector K) :
    (RS_Arc.mirror E B B.data.center (RS_Vector.add B.data.center d)).data.radius
        = B.data.radius ∧
      (RS_Arc.mirror E B B.data.center (RS_Vector.add B.data.center d)).data.center.x
        = B.data.center.x ∧
      (RS_Arc.mirror E B B.data.center (RS_Vector.add B.data.center d)).data.center.y
        = B.data.center.y ∧
      (RS_Arc.mirror E B B.data.center (RS_Vector.add B.data.center d)).data.reversed
        = !B.data.reversed := by
  obtain ⟨hc, hr, hv⟩ := mirror_keeps E B B.data.center (RS_Vector.add B.data.center d)
  obtain ⟨sx, sy⟩ := mirror_self_coords B.data.center d
  rw [hc]
  exact ⟨hr, sx, sy, hv⟩

/-- One conditional mirror step of `scale`. -/
theorem scale_mirror_step {K : Type} [LinearOrderedField K] (E : Env K) (B : RS_Arc K)
    (d : RS_Vector K) (neg : Prop) [Decidable neg] :
    (if neg then RS_Arc.mirror E B B.data.center (RS_Vector.add B.data.center d)
        else B).data.radius = B.data.radius ∧
      (if neg then RS_Arc.mirror E B B.data.center (RS_Vector.add B.data.center d)
        else B).data.center.x = B.data.center.x ∧
      (if neg then RS_Arc.mirror E B B.data.center (RS_Vector.add B.data.center d)
        else B).data.center.y = B.data.center.y ∧
      (if neg then RS_Arc.mirror E B B.data.center (RS_Vector.add B.data.center d)
        else B).data.reversed = xor B.data.reversed (decide neg) := by
  by_cases h : neg
  · rw [if_pos h, decide_eq_true h, Bool.xor_true]
    exact mirror_own_center E B d
  · rw [if_neg h, decide_eq_false h, Bool.xor_false]
    exact ⟨rfl, rfl, rfl, rfl⟩

/-- The cached end points after `createFrom2PBulge` are the two given points, for defined,
distinct points and a non-zero bulge. -/
theorem createFrom2PBulge_real_ends (t t2 ta : ℝ) (arc : RS_Arc ℝ) (p1 p2 : RS_Vector ℝ)
    (b : ℝ) (hv1 : p1.valid = true) (hv2 : p2.valid = true)
    (hne : p1.x ≠ p2.x ∨ p1.y ≠ p2.y) (hb : b ≠ 0) :
    (RS_Arc.createFrom2PBulge (realEnv t t2 ta) arc p1 p2 b).2.m_startPoint = p1 ∧
      (RS_Arc.createFrom2PBulge (realEnv t t2 ta) arc p1 p2 b).2.m_endPoint = p2 := by
  obtain ⟨hr0, hp, hq, -, -⟩ := createFrom2PBulge_real_circle t t2 ta arc p1 p2 b hne hb
    _ _ rfl rfl
  set A := (RS_Arc.createFrom2PBulge (realEnv t t2 ta) arc p1 p2 b).2 with hA
  constructor
  · have h := relative_angleTo_real t t2 ta A.data.center p1 A.data.radius hr0 hp
    have hsp : A.m_startPoint
        = RS_Vector.relative (realEnv t t2 ta) A.data.center A.data.radius
            (RS_Vector.angleTo (realEnv t t2 ta) A.data.center p1) := rfl
    rw [hsp, h]
    cases p1
    simp only at hv1
    rw [hv1]
  · have h := relative_angleTo_real t t2 ta A.data.center p2 A.data.radius hr0 hq
    have hep : A.m_endPoint
        = RS_Vector.relative (realEnv t t2 ta) A.data.center A.data.radius
            (RS_Vector.angleTo (realEnv t t2 ta) A.data.center p2) := rfl
    rw [hep, h]
    cases p2
    simp only at hv2
    rw [hv2]

/-- `getBulge` depends on the arc through `getAngleLength` and the direction flag only. -/
theorem getBulge_congr {K : Type} [LinearOrderedField K] (E : Env K) (A B : RS_Arc K)
    (hl : RS_Arc.getAngleLength E A = RS_Arc.getAngleLength E B)
    (hv : A.data.reversed = B.data.reversed) : RS_Arc.getBulge E A = RS_Arc.getBulge E B := by
  unfold RS_Arc.getBulge
  rw [hl, hv]

/-- The bulge of an arc that is not a full circle: it is not zero, negative exactly for a
reversed arc, and `4 * arctan |bulge|` is the arc's `getAngleLength`. -/
theorem getBulge_real_spec (t t2 ta : ℝ) (hta : 0 < ta) (hpi : ta ≤ π) (arc : RS_Arc ℝ)
    (hfull : RS_Arc.getAngleLength (realEnv t t2 ta) arc ≠ 2 * π) :
    RS_Arc.getBulge (realEnv t t2 ta) arc ≠ 0 ∧
      decide (RS_Arc.getBulge (realEnv t t2 ta) arc < 0) = arc.data.reversed ∧
      4 * Real.arctan |RS_Arc.getBulge (realEnv t t2 ta) arc|
        = RS_Arc.getAngleLength (realEnv t t2 ta) arc := by
  obtain ⟨h0, h1⟩ := getAngleLength_real_bounds t t2 ta hta hpi arc
  have h1' := h1 hfull
  set L := RS_Arc.getAngleLength (realEnv t t2 ta) arc with hL
  have hLpos : 0 < L := by linarith
  have hq0 : 0 < L / 4 := by linarith
  have hq1 : L / 4 < π / 2 := by linarith
  have hT : 0 < Real.tan (L / 4) := Real.tan_pos_of_pos_of_lt_pi_div_two hq0 hq1
  have hat : Real.arctan (Real.tan (L / 4)) = L / 4 := Real.arctan_tan (by linarith) hq1
  have hb : RS_Arc.getBulge (realEnv t t2 ta) arc
      = if arc.data.reversed then -Real.tan (L / 4) else Real.tan (L / 4) := by
    unfold RS_Arc.getBulge
    simp only [realEnv_tan]
    rw [← hL, abs_of_pos hLpos]
  rw [hb]
  cases arc.data.reversed
  · simp only [Bool.false_eq_true, if_false]
    refine ⟨hT.ne', ?_, ?_⟩
    · exact decide_eq_false (not_lt.mpr hT.le)
    · rw [abs_of_pos hT, hat]; ring
  · simp only [if_true]
    refine ⟨by linarith, ?_, ?_⟩
    · exact decide_eq_true (by linarith)
    · rw [abs_neg, abs_of_pos hT, hat]; ring

/-- Rebuilding an arc that is not a full circle from two distinct defined points and its own
bulge, then correcting the angles: the cached end points are the two points and the bulge is
the old one. -/
theorem rebuild_with_own_bulge (t t2 ta : ℝ) (hta : 0 < ta) (hpi : ta ≤ π) (arc : RS_Arc ℝ)
    (hfull : RS_Arc.getAngleLength (realEnv t t2 ta) arc ≠ 2 * π) (p1 p2 : RS_Vector ℝ)
    (hv1 : p1.valid = true) (hv2 : p2.valid = true) (hne : p1.x ≠ p2.x ∨ p1.y ≠ p2.y) :
    (RS_Arc.correctAngles (realEnv t t2 ta) (RS_Arc.createFrom2PBulge (realEnv t t2 ta) arc
        p1 p2 (RS_Arc.getBulge (realEnv t t2 ta) arc)).2).m_startPoint = p1 ∧
      (RS_Arc.correctAngles (realEnv t t2 ta) (RS_Arc.createFrom2PBulge (realEnv t t2 ta) arc
        p1 p2 (RS_Arc.getBulge (realEnv t t2 ta) arc)).2).m_endPoint = p2 ∧
      RS_Arc.getBulge (realEnv t t2 ta)
        (RS_Arc.correctAngles (realEnv t t2 ta) (RS_Arc.createFrom2PBulge (realEnv t t2 ta) arc
          p1 p2 (RS_Arc.getBulge (realEnv t t2 ta) arc)).2)
        = RS_Arc.getBulge (realEnv t t2 ta) arc := by
  obtain ⟨hb0, hbrev, hb4⟩ := getBulge_real_spec t t2 ta hta hpi arc hfull
  obtain ⟨h0, h1⟩ := getAngleLength_real_bounds t t2 ta hta hpi arc
  have h1' := h1 hfull
  set b := RS_Arc.getBulge (realEnv t t2 ta) arc with hb
  obtain ⟨hs, he⟩ := createFrom2PBulge_real_ends t t2 ta arc p1 p2 b hv1 hv2 hne hb0
  have hlen := createFrom2PBulge_real_angleLength t t2 ta arc p1 p2 b hne hb0 hta
    (by rw [hb4]; exact h0) (by rw [hb4]; exact h1')
  obtain ⟨-, -, kr, ks, ke, kl⟩ := correctAngles_real_keeps t t2 ta
    (RS_Arc.createFrom2PBulge (realEnv t t2 ta) arc p1 p2 b).2
  refine ⟨by rw [ks, hs], by rw [ke, he], ?_⟩
  rw [hb]
  apply getBulge_congr
  · rw [kl, hlen, hb4]
  · rw [kr, ← hbrev]
    rfl

/-- The sample arc has `getAngleLength` 1. -/
theorem sampleArc_angleLength : RS_Arc.getAngleLength stdEnv sampleArc = 1 := by
  have hp := Real.pi_gt_three
  have hc : RS_Math.correctAngle (realEnv (1 / 10 ^ 10) (1 / 10 ^ 20) (1 / 10 ^ 8))
      (rawSweep sampleArc) = 1 :=
    correctAngle_real_eq _ _ _ _ 1 (by norm_num) (by linarith)
      ⟨0, by simp [rawSweep, sampleArc_data]⟩
  have hr := remainder_real_abs_ge (1 / 10 ^ 10) (1 / 10 ^ 20) (1 / 10 ^ 8) 1 (by norm_num)
    (by norm_num) (by norm_num; linarith)
  rw [stdEnv_eq, getAngleLength_eq, hc, realEnv_pi, realEnv_tolA, if_neg (not_lt.mpr hr)]

/-- The bulge of the sample arc is `tan (1/4)`, which is less than 1. -/
theorem sampleArc_bulge :
    RS_Arc.getBulge stdEnv sampleArc = Real.tan (1 / 4) ∧ Real.tan (1 / 4) < 1 := by
  have hp := Real.pi_gt_three
  constructor
  · unfold RS_Arc.getBulge
    rw [sampleArc_angleLength, sampleArc_data, stdEnv_eq, realEnv_tan]
    norm_num
  · have h := Real.tan_lt_tan_of_lt_of_lt_pi_div_two (show -(π / 2) < 1 / 4 by linarith)
      (show π / 4 < π / 2 by linarith) (show (1 : ℝ) / 4 < π / 4 by linarith)
    rwa [Real.tan_pi_div_four] at h

/-- The end point of the sample arc is `(cos 1, sin 1)`. -/
theorem sampleArc_endPoint : sampleArc.m_endPoint = pt (Real.cos 1) (Real.sin 1) := by
  simp [sampleArc, RS_Arc.new, RS_Arc.calculateBorders, RS_Arc.updateLength,
    RS_Arc.updateMiddlePoint, RS_Vector.relative, RS_Vector.polar,
    RS_Vector.add, pt, RS_Vector.mk2, stdEnv, realEnv]

/-- The C `remainder` of zero is zero. -/
theorem remainder_real_zero (t t2 ta : ℝ) : (realEnv t t2 ta).remainder 0 (2 * π) = 0 := by
  have h := remainder_real_eq t t2 ta 0 0 (by simpa using Real.pi_pos)
  simpa using h

/-- An arc whose directed sweep is, up to whole turns, an angle `β` away from 0 and from a full
turn by the tolerance has `getAngleLength = β`. -/
theorem getAngleLength_real_eq_sweep (t t2 ta : ℝ) (hta : 0 < ta) (arc : RS_Arc ℝ) (β : ℝ)
    (k : ℤ) (h : rawSweep arc = β + k * (2 * π)) (h0 : ta ≤ β) (h1 : β ≤ 2 * π - ta) :
    RS_Arc.getAngleLength (realEnv t t2 ta) arc = β := by
  have hc : RS_Math.correctAngle (realEnv t t2 ta) (rawSweep arc) = β :=
    correctAngle_real_eq t t2 ta _ β (by linarith) (by linarith) ⟨k, h⟩
  have hr := remainder_real_abs_ge t t2 ta β hta h0 h1
  rw [getAngleLength_eq, hc, realEnv_pi, realEnv_tolA, if_neg (not_lt.mpr hr)]

/-- The tangent of an eighth of a turn is below 1. -/
theorem tan_pi_div_eight_lt_one : Real.tan (π / 8) < 1 := by
  have hp := Real.pi_pos
  have h := Real.tan_lt_tan_of_lt_of_lt_pi_div_two (show -(π / 2) < π / 8 by linarith)
    (show π / 4 < π / 2 by linarith) (show π / 8 < π / 4 by linarith)
  rwa [Real.tan_pi_div_four] at h

/-- For a quarter turn the guard of `moveStartpoint` does not apply. -/
theorem quarter_turn_outside_guard (t t2 ta : ℝ) (hta2 : ta ≤ 1 / 2) (arc : RS_Arc ℝ)
    (hq : RS_Arc.getAngleLength (realEnv t t2 ta) arc = π / 2) :
    ¬ |RS_Arc.getBulge (realEnv t t2 ta) arc - π / 2| < ta := by
  have hp := Real.pi_gt_three
  have h8 := tan_pi_div_eight_lt_one
  have h8pos : 0 < Real.tan (π / 8) :=
    Real.tan_pos_of_pos_of_lt_pi_div_two (by linarith) (by linarith)
  have hb : RS_Arc.getBulge (realEnv t t2 ta) arc
      = if arc.data.reversed then -Real.tan (π / 8) else Real.tan (π / 8) := by
    unfold RS_Arc.getBulge
    simp only [realEnv_tan]
    rw [hq, abs_of_pos (by linarith), show π / 2 / 4 = π / 8 by ring]
  rw [hb, not_lt, abs_sub_comm]
  cases arc.data.reversed
  · simp only [Bool.false_eq_true, if_false]
    rw [abs_of_nonneg (by linarith)]
    linarith
  · simp only [if_true]
    rw [abs_of_nonneg (by linarith)]
    linarith

/-- The quarter arc has `getAngleLength = π/2`. -/
theorem quarterArc_angleLength : RS_Arc.getAngleLength stdEnv quarterArc = π / 2 := by
  have hp := Real.pi_gt_three
  exact getAngleLength_real_eq_sweep _ _ _ (by norm_num) quarterArc (π / 2) 0
    (by simp [rawSweep, quarterArc_data]) (by norm_num; linarith) (by norm_num; linarith)

/-- The cached end points of the quarter arc. -/
theorem quarterArc_ends : quarterArc.m_startPoint = pt 1 0 ∧ quarterArc.m_endPoint = pt 0 1 := by
  constructor <;>
  simp [quarterArc, RS_Arc.new, RS_Arc.calculateBorders, RS_Arc.updateLength,
    RS_Arc.updateMiddlePoint, RS_Vector.relative, RS_Vector.add, RS_Vector.polar, pt,
    RS_Vector.mk2, stdEnv_eq]

/-- `atan(π/2)` lies between an eighth of a turn and a quarter turn less `1/3`. -/
theorem arctan_half_pi_bounds :
    π / 4 ≤ Real.arctan (π / 2) ∧ Real.arctan (π / 2) ≤ π / 2 - 1 / 3 := by
  have hp := Real.pi_gt_three
  have hp2 := Real.pi_lt_d2
  constructor
  · rw [← Real.arctan_one]
    exact Real.arctan_strictMono.monotone (by linarith)
  · have h2 : Real.arctan (π / 2) ≤ Real.arctan 2 :=
      Real.arctan_strictMono.monotone (by linarith)
    have hinv : Real.arctan (2 : ℝ)⁻¹ = π / 2 - Real.arctan 2 :=
      Real.arctan_inv_of_pos (by norm_num)
    have hadd : Real.arctan (1 / 2) + Real.arctan (1 / 3) = π / 4 := by
      rw [Real.arctan_add (by norm_num), ← Real.arctan_one]
      congr 1
      norm_num
    have h3 : Real.arctan (1 / 3) < Real.arctan (1 / 2) :=
      Real.arctan_strictMono (by norm_num)
    have e : (2 : ℝ)⁻¹ = 1 / 2 := by norm_num
    rw [e] at hinv
    linarith

/-- The arc `guardArc` has bulge exactly `π/2`. -/
theorem guardArc_bulge : RS_Arc.getBulge stdEnv guardArc = π / 2 := by
  have hp := Real.pi_gt_three
  obtain ⟨b0, b1⟩ := arctan_half_pi_bounds
  have hl : RS_Arc.getAngleLength stdEnv guardArc = 4 * Real.arctan (π / 2) :=
    getAngleLength_real_eq_sweep _ _ _ (by norm_num) guardArc _ 0
      (by simp [rawSweep, guardArc, RS_Arc.new, RS_Arc.calculateBorders, RS_Arc.updateLength,
        RS_Arc.updateMiddlePoint])
      (by norm_num; linarith) (by norm_num; linarith)
  unfold RS_Arc.getBulge
  rw [hl, stdEnv_eq, realEnv_tan, abs_of_pos (by linarith),
    show 4 * Real.arctan (π / 2) / 4 = Real.arctan (π / 2) by ring, Real.tan_arctan]
  rfl

/-- The C `fmod` by a full turn, in exact arithmetic: the result is less than a full turn in
absolute value and has the sign of the dividend. -/
theorem fmod_real_spec (t t2 ta x : ℝ) :
    |(realEnv t t2 ta).fmod x (2 * π)| < 2 * π ∧
      (0 ≤ x → 0 ≤ (realEnv t t2 ta).fmod x (2 * π)) ∧
      (x ≤ 0 → (realEnv t t2 ta).fmod x (2 * π) ≤ 0) := by
  have hp : (0 : ℝ) < 2 * π := by positivity
  have hf : (realEnv t t2 ta).fmod x (2 * π) = x - 2 * π * (truncQuot (x / (2 * π)) : ℝ) := rfl
  have hx : x = 2 * π * (x / (2 * π)) := by field_simp
  rw [hf]
  generalize x / (2 * π) = q at hx
  subst hx
  have e : 2 * π * q - 2 * π * (truncQuot q : ℝ) = 2 * π * (q - (truncQuot q : ℝ)) := by ring
  rw [e]
  unfold truncQuot
  split_ifs with h0
  · have f0 : 0 ≤ q - (⌊q⌋ : ℝ) := by linarith [Int.floor_le q]
    have f1 : q - (⌊q⌋ : ℝ) < 1 := by linarith [Int.lt_floor_add_one q]
    have g0 : 0 ≤ 2 * π * (q - (⌊q⌋ : ℝ)) := mul_nonneg hp.le f0
    have g1 : 2 * π * (q - (⌊q⌋ : ℝ)) < 2 * π := by nlinarith
    refine ⟨by rw [abs_of_nonneg g0]; exact g1, fun _ => g0, fun hx0 => ?_⟩
    have hq0 : q = 0 := by
      have : q ≤ 0 := by
        by_contra hc
        have := mul_pos hp (not_le.mp hc)
        linarith
      linarith
    rw [hq0]; simp
  · have hq : q < 0 := not_le.mp h0
    have f0 : q - (⌈q⌉ : ℝ) ≤ 0 := by linarith [Int.le_ceil q]
    have f1 : -1 < q - (⌈q⌉ : ℝ) := by linarith [Int.ceil_lt_add_one q]
    have g0 : 2 * π * (q - (⌈q⌉ : ℝ)) ≤ 0 := mul_nonpos_of_nonneg_of_nonpos hp.le f0
    have g1 : -(2 * π) < 2 * π * (q - (⌈q⌉ : ℝ)) := by nlinarith
    refine ⟨by rw [abs_of_nonpos g0]; linarith, fun hx0 => ?_, fun _ => g0⟩
    have := mul_neg_of_pos_of_neg hp hq
    linarith

/-- In exact arithmetic, with a positive angle tolerance not above `π`, the directed sweep
after `correctAngles` is the C `fmod` of the directed sweep before, by a full turn. -/
theorem correctAngles_real_sweep (t t2 ta : ℝ) (hta : 0 < ta) (hpi : ta ≤ π) (arc : RS_Arc ℝ) :
    rawSweep (RS_Arc.correctAngles (realEnv t t2 ta) arc)
      = (realEnv t t2 ta).fmod (rawSweep arc) (2 * π) := by
  rcases arc with ⟨⟨c, r, a1, a2, rev⟩, sp, ep, mp, mn, mx, len⟩
  cases rev
  · simp only [RS_Arc.correctAngles, realEnv_pi, realEnv_tolA, Bool.false_eq_true, if_false]
    rw [if_neg]
    · simp only [rawSweep, Bool.false_eq_true, if_false]
      ring
    · have hb := (getAngleLength_real_bounds t t2 ta hta hpi
        ⟨⟨c, r, a1, a1 + (realEnv t t2 ta).fmod (a2 - a1) (2 * π), false⟩,
          sp, ep, mp, mn, mx, len⟩).1
      rw [not_lt]
      exact le_trans hb (le_abs_self _)
  · simp only [RS_Arc.correctAngles, realEnv_pi, realEnv_tolA, if_true]
    rw [if_neg]
    · simp only [rawSweep, if_true]
      ring
    · have hb := (getAngleLength_real_bounds t t2 ta hta hpi
        ⟨⟨c, r, a2 + (realEnv t t2 ta).fmod (a1 - a2) (2 * π), a2, true⟩,
          sp, ep, mp, mn, mx, len⟩).1
      rw [not_lt]
      exact le_trans hb (le_abs_self _)

/-- The point of a circle at an angle does not change when whole turns are added to the
angle. -/
theorem relative_real_add_int (t t2 ta : ℝ) (c : RS_Vector ℝ) (r θ : ℝ) (k : ℤ) :
    RS_Vector.relative (realEnv t t2 ta) c r (θ + k * (2 * π))
      = RS_Vector.relative (realEnv t t2 ta) c r θ := by
  simp only [RS_Vector.relative, RS_Vector.polar, RS_Vector.add, realEnv_cos, realEnv_sin,
    Real.cos_add_int_mul_two_pi, Real.sin_add_int_mul_two_pi]

/-- The data of the arc `wrapArc`. -/
theorem wrapArc_data : wrapArc.data = ⟨pt 0 0, 1, 1, 0, false⟩ := rfl

/-- An arc that `getAngleLength` does not report as a full circle has the corrected directed
sweep as its angle length. -/
theorem getAngleLength_real_not_full (t t2 ta : ℝ) (arc : RS_Arc ℝ)
    (hfull : RS_Arc.getAngleLength (realEnv t t2 ta) arc ≠ 2 * π) :
    RS_Arc.getAngleLength (realEnv t t2 ta) arc
      = RS_Math.correctAngle (realEnv t t2 ta) (rawSweep arc) := by
  rw [getAngleLength_eq] at hfull ⊢
  split_ifs at hfull ⊢ with h
  · exact absurd rfl hfull
  · rfl

/-- The cached middle point after the recompute step, by coordinates. -/
theorem calculateBorders_middlePoint {K : Type} [LinearOrderedField K] (E : Env K)
    (arc : RS_Arc K) :
    (RS_Arc.calculateBorders E arc).middlePoint
      = ⟨arc.data.center.x + E.cos (if arc.data.reversed
            then arc.data.angle2
              + RS_Math.correctAngle E (arc.data.angle1 - arc.data.angle2) * (1 / 2)
            else arc.data.angle1
              + RS_Math.correctAngle E (arc.data.angle2 - arc.data.angle1) * (1 / 2))
            * arc.data.radius,
          arc.data.center.y + E.sin (if arc.data.reversed
            then arc.data.angle2
              + RS_Math.correctAngle E (arc.data.angle1 - arc.data.angle2) * (1 / 2)
            else arc.data.angle1
              + RS_Math.correctAngle E (arc.data.angle2 - arc.data.angle1) * (1 / 2))
            * arc.data.radius, true⟩ :=
  rfl

/-- The recompute step does not change the data, hence not `getAngleLength`. -/
theorem calculateBorders_angleLength {K : Type} [LinearOrderedField K] (E : Env K)
    (arc : RS_Arc K) :
    RS_Arc.getAngleLength E (RS_Arc.calculateBorders E arc) = RS_Arc.getAngleLength E arc :=
  rfl

/-- The data of the full circle `circleArc`. -/
theorem circleArc_data : circleArc.data = ⟨pt 0 0, 1, 0, 0, false⟩ := rfl

/-- An arc whose directed sweep is within the tolerance of zero is reported as a full
circle. -/
theorem getAngleLength_real_promoted (t t2 ta : ℝ) (hpi : ta ≤ π) (arc : RS_Arc ℝ)
    (h0 : 0 ≤ rawSweep arc) (h1 : rawSweep arc < ta) :
    RS_Arc.getAngleLength (realEnv t t2 ta) arc = 2 * π := by
  have hp := Real.pi_pos
  have hc : RS_Math.correctAngle (realEnv t t2 ta) (rawSweep arc) = rawSweep arc :=
    correctAngle_real_eq t t2 ta _ _ h0 (by linarith) ⟨0, by simp⟩
  have hr : (realEnv t t2 ta).remainder (rawSweep arc) (2 * π) = rawSweep arc := by
    have := remainder_real_eq t t2 ta (rawSweep arc) 0
      (by simp only [Int.cast_zero, zero_mul, sub_zero]; rw [abs_of_nonneg h0]; linarith)
    simpa using this
  rw [getAngleLength_eq, hc, realEnv_pi, realEnv_tolA, hr, abs_of_nonneg h0, if_pos h1]

/-- The data of the sliver `sliverArc`. -/
theorem sliverArc_data : sliverArc.data = ⟨pt 0 0, 1, 0, 1 / 10 ^ 9, false⟩ := rfl

/-- `areaLineIntegral` by cases of the direction flag, in exact arithmetic. -/
theorem areaLineIntegral_real (t t2 ta : ℝ) (arc : RS_Arc ℝ) :
    RS_Arc.areaLineIntegral (realEnv t t2 ta) arc
      = arc.data.center.x * arc.data.radius * (Real.sin arc.data.angle2 - Real.sin arc.data.angle1)
        + arc.data.radius ^ 2 / 4
          * (Real.sin (2 * arc.data.angle2) - Real.sin (2 * arc.data.angle1))
        + (if arc.data.reversed then -1 else 1) * (arc.data.radius ^ 2 / 2)
          * RS_Arc.getAngleLength (realEnv t t2 ta) arc := by
  unfold RS_Arc.areaLineIntegral
  simp only [realEnv_sin]
  rw [← two_mul, ← two_mul]
  cases arc.data.reversed
  · simp only [Bool.false_eq_true, if_false]; ring
  · simp only [if_true]; ring

/-- The sine of an angle and of its double do not see whole turns. -/
theorem sin_shift_turns (x : ℝ) (k : ℤ) :
    Real.sin (x + k * (2 * π)) = Real.sin x ∧
      Real.sin (2 * (x + k * (2 * π))) = Real.sin (2 * x) := by
  refine ⟨Real.sin_add_int_mul_two_pi x k, ?_⟩
  have e : 2 * (x + k * (2 * π)) = 2 * x + ((2 * k : ℤ) : ℝ) * (2 * π) := by push_cast; ring
  rw [e, Real.sin_add_int_mul_two_pi]

/-- Reversing an arc keeps its directed sweep. -/
theorem reverse_rawSweep {K : Type} [LinearOrderedField K] (E : Env K) (arc : RS_Arc K) :
    rawSweep (RS_Arc.reverse E arc) = rawSweep arc := by
  show (if (!arc.data.reversed) = true then arc.data.angle2 else arc.data.angle1)
      - (if (!arc.data.reversed) = true then arc.data.angle1 else arc.data.angle2)
    = (if arc.data.reversed = true then arc.data.angle1 else arc.data.angle2)
      - (if arc.data.reversed = true then arc.data.angle2 else arc.data.angle1)
  cases arc.data.reversed <;> simp

/-- After a successful `createFrom3P` the angles are those of the first and the last point and
the middle point lies between them in the direction installed. -/
theorem createFrom3P_real_angles (t t2 ta : ℝ) (hta : 0 < ta) (arc : RS_Arc ℝ)
    (p1 p2 p3 : RS_Vector ℝ)
    (hs : (RS_Arc.createFrom3P (realEnv t t2 ta) arc p1 p2 p3).1 = true) :
    (RS_Arc.createFrom3P (realEnv t t2 ta) arc p1 p2 p3).2.data.angle1
        = RS_Vector.angleTo (realEnv t t2 ta)
            (RS_Arc.createFrom3P (realEnv t t2 ta) arc p1 p2 p3).2.data.center p1 ∧
      (RS_Arc.createFrom3P (realEnv t t2 ta) arc p1 p2 p3).2.data.angle2
        = RS_Vector.angleTo (realEnv t t2 ta)
            (RS_Arc.createFrom3P (realEnv t t2 ta) arc p1 p2 p3).2.data.center p3 ∧
      RS_Math.isAngleBetween (realEnv t t2 ta)
        (RS_Vector.angleTo (realEnv t t2 ta)
          (RS_Arc.createFrom3P (realEnv t t2 ta) arc p1 p2 p3).2.data.center p2)
        (RS_Arc.createFrom3P (realEnv t t2 ta) arc p1 p2 p3).2.data.angle1
        (RS_Arc.createFrom3P (realEnv t t2 ta) arc p1 p2 p3).2.data.angle2
        (RS_Arc.createFrom3P (realEnv t t2 ta) arc p1 p2 p3).2.data.reversed = true := by
  unfold RS_Arc.createFrom3P at hs ⊢
  simp only at hs ⊢
  split_ifs at hs ⊢ with hg
  refine ⟨rfl, rfl, ?_⟩
  simp only
  generalize hb : RS_Math.isAngleBetween (realEnv t t2 ta) _ _ _ true = b
  cases b
  · exact isAngleBetween_real_complement t t2 ta hta _ _ _ hb
  · exact hb

/-- The direction of a vector with polar coordinates `(ρ, θ)`, `ρ > 0`, is `θ` up to whole
turns. -/
theorem angle_real_of_polar (t t2 ta : ℝ) (v : RS_Vector ℝ) (ρ θ : ℝ) (hρ : 0 < ρ)
    (hx : v.x = ρ * Real.cos θ) (hy : v.y = ρ * Real.sin θ) :
    ∃ k : ℤ, RS_Vector.angle (realEnv t t2 ta) v = θ + k * (2 * π) := by
  have hsq : v.x * v.x + v.y * v.y = ρ * ρ := by
    rw [hx, hy]
    have := Real.sin_sq_add_cos_sq θ
    nlinarith
  have hne : v.x ≠ 0 ∨ v.y ≠ 0 := by
    by_contra hcon
    push_neg at hcon
    rw [hcon.1, hcon.2] at hsq
    nlinarith
  obtain ⟨hc, hs⟩ := angle_real_cos_sin t t2 ta v hne
  rw [hsq, Real.sqrt_mul_self hρ.le] at hc hs
  have hc' : Real.cos (RS_Vector.angle (realEnv t t2 ta) v) = Real.cos θ := by
    rw [hc, hx]; field_simp
  have hs' : Real.sin (RS_Vector.angle (realEnv t t2 ta) v) = Real.sin θ := by
    rw [hs, hy]; field_simp
  obtain ⟨k, hk⟩ := Real.Angle.angle_eq_iff_two_pi_dvd_sub.mp (Real.Angle.cos_sin_inj hc' hs')
  exact ⟨k, by linarith⟩

/-- A corrected angle that is a whole number of turns away from `y` in `[0, 2π)` is `y`. -/
theorem correctAngle_real_of_congr (t t2 ta a y : ℝ) (k : ℤ) (h0 : 0 ≤ y) (h1 : y < 2 * π)
    (h : a = y + k * (2 * π)) : RS_Math.correctAngle (realEnv t t2 ta) a = y :=
  correctAngle_real_eq t t2 ta a y h0 h1 ⟨k, h⟩

/-- The start-direction test of the two-point constructors, for a center on the left of the
start direction (`center = start + r n`): the start angle is `d + 3π/2`, the direction implied
is `d`, the difference is 0. -/
theorem direction_test_left (t t2 ta : ℝ) (c S : RS_Vector ℝ) (r d : ℝ) (hr : 0 < r)
    (hx : S.x - c.x = -(r * Real.cos (d + π / 2)))
    (hy : S.y - c.y = -(r * Real.sin (d + π / 2))) :
    RS_Math.correctAngle (realEnv t t2 ta)
        (RS_Math.correctAngle (realEnv t t2 ta)
          (RS_Vector.angleTo (realEnv t t2 ta) c S + π / 2) - d) = 0 ∧
      ∃ k : ℤ, RS_Math.correctAngle (realEnv t t2 ta)
        (RS_Vector.angleTo (realEnv t t2 ta) c S + π / 2) = d + k * (2 * π) := by
  have hp := Real.pi_pos
  obtain ⟨k, hk⟩ := angle_real_of_polar t t2 ta (RS_Vector.sub S c) r (d + π / 2 + π) hr
    (by rw [Real.cos_add_pi]; simpa [RS_Vector.sub] using hx)
    (by rw [Real.sin_add_pi]; simpa [RS_Vector.sub] using hy)
  obtain ⟨-, -, m, hm⟩ := correctAngle_real_spec t t2 ta
    (RS_Vector.angleTo (realEnv t t2 ta) c S + π / 2)
  have hk' : RS_Vector.angleTo (realEnv t t2 ta) c S = d + π / 2 + π + k * (2 * π) := hk
  have hD : RS_Math.correctAngle (realEnv t t2 ta)
      (RS_Vector.angleTo (realEnv t t2 ta) c S + π / 2) = d + ((k + m + 1 : ℤ) : ℝ) * (2 * π) := by
    rw [hm, hk']; push_cast; ring
  refine ⟨?_, ⟨k + m + 1, hD⟩⟩
  rw [hD]
  exact correctAngle_real_of_congr t t2 ta _ 0 (k + m + 1) le_rfl (by linarith)
    (by push_cast; ring)

/-- The start-direction test of the two-point constructors, for a center on the right of the
start direction (`center = start - r n`): the start angle is `d + π/2`, the counter-clockwise
direction implied is `d + π`, the difference is `π`, and the clockwise direction is `d`. -/
theorem direction_test_right (t t2 ta : ℝ) (c S : RS_Vector ℝ) (r d : ℝ) (hr : 0 < r)
    (hx : S.x - c.x = r * Real.cos (d + π / 2))
    (hy : S.y - c.y = r * Real.sin (d + π / 2)) :
    RS_Math.correctAngle (realEnv t t2 ta)
        (RS_Math.correctAngle (realEnv t t2 ta)
          (RS_Vector.angleTo (realEnv t t2 ta) c S + π / 2) - d) = π ∧
      ∃ k : ℤ, RS_Math.correctAngle (realEnv t t2 ta)
        (RS_Vector.angleTo (realEnv t t2 ta) c S - π / 2) = d + k * (2 * π) := by
  have hp := Real.pi_pos
  obtain ⟨k, hk⟩ := angle_real_of_polar t t2 ta (RS_Vector.sub S c) r (d + π / 2) hr
    (by simpa [RS_Vector.sub] using hx) (by simpa [RS_Vector.sub] using hy)
  obtain ⟨-, -, m, hm⟩ := correctAngle_real_spec t t2 ta
    (RS_Vector.angleTo (realEnv t t2 ta) c S + π / 2)
  obtain ⟨-, -, m2, hm2⟩ := correctAngle_real_spec t t2 ta
    (RS_Vector.angleTo (realEnv t t2 ta) c S - π / 2)
  have hk' : RS_Vector.angleTo (realEnv t t2 ta) c S = d + π / 2 + k * (2 * π) := hk
  refine ⟨?_, ⟨k + m2, by rw [hm2, hk']; push_cast; ring⟩⟩
  rw [hm, hk']
  exact correctAngle_real_of_congr t t2 ta _ π (k + m) hp.le (by linarith)
    (by push_cast; ring)

/-- The arc after `createFrom2PDirectionRadius`, for a chosen center `c` and the outcome `rev`
of the direction test. -/
theorem createFrom2PDirectionRadius_eq {K : Type} [LinearOrderedField K] (E : Env K)
    (arc : RS_Arc K) (S P : RS_Vector K) (d r : K) :
    (RS_Arc.createFrom2PDirectionRadius E arc S P d r).2
      = RS_Arc.calculateBorders E { arc with data :=
          ⟨if RS_Vector.distanceTo E (RS_Vector.add S (RS_Vector.polar E r (d + E.pi / 2))) P
              < RS_Vector.distanceTo E (RS_Vector.sub S (RS_Vector.polar E r (d + E.pi / 2))) P
            then RS_Vector.add S (RS_Vector.polar E r (d + E.pi / 2))
            else RS_Vector.sub S (RS_Vector.polar E r (d + E.pi / 2)),
           r,
           RS_Vector.angleTo E
            (if RS_Vector.distanceTo E (RS_Vector.add S (RS_Vector.polar E r (d + E.pi / 2))) P
              < RS_Vector.distanceTo E (RS_Vector.sub S (RS_Vector.polar E r (d + E.pi / 2))) P
            then RS_Vector.add S (RS_Vector.polar E r (d + E.pi / 2))
            else RS_Vector.sub S (RS_Vector.polar E r (d + E.pi / 2))) S,
           RS_Vector.angleTo E
            (if RS_Vector.distanceTo E (RS_Vector.add S (RS_Vector.polar E r (d + E.pi / 2))) P
              < RS_Vector.distanceTo E (RS_Vector.sub S (RS_Vector.polar E r (d + E.pi / 2))) P
            then RS_Vector.add S (RS_Vector.polar E r (d + E.pi / 2))
            else RS_Vector.sub S (RS_Vector.polar E r (d + E.pi / 2))) P,
           decide (|RS_Math.correctAngle E (RS_Math.correctAngle E (RS_Vector.angleTo E
            (if RS_Vector.distanceTo E (RS_Vector.add S (RS_Vector.polar E r (d + E.pi / 2))) P
              < RS_Vector.distanceTo E (RS_Vector.sub S (RS_Vector.polar E r (d + E.pi / 2))) P
            then RS_Vector.add S (RS_Vector.polar E r (d + E.pi / 2))
            else RS_Vector.sub S (RS_Vector.polar E r (d + E.pi / 2))) S + E.pi / 2) - d)
              - E.pi| < 1 / 10)⟩ } := by
  unfold RS_Arc.createFrom2PDirectionRadius
  simp only [RS_Arc.getDirection1, Bool.not_false, if_true]
  generalize (if RS_Vector.distanceTo E (RS_Vector.add S (RS_Vector.polar E r (d + E.pi / 2))) P
      < RS_Vector.distanceTo E (RS_Vector.sub S (RS_Vector.polar E r (d + E.pi / 2))) P
    then RS_Vector.add S (RS_Vector.polar E r (d + E.pi / 2))
    else RS_Vector.sub S (RS_Vector.polar E r (d + E.pi / 2))) = c
  by_cases h : |RS_Math.correctAngle E (RS_Math.correctAngle E (RS_Vector.angleTo E c S
      + E.pi / 2) - d) - E.pi| < 1 / 10
  · rw [if_pos h, decide_eq_true h]
  · rw [if_neg h, decide_eq_false h]

/-- A value within the range of an `int` is held unchanged. -/
theorem wrapInt32_of_range (z : ℤ) (h0 : -2 ^ 31 ≤ z) (h1 : z < 2 ^ 31) : wrapInt32 z = z := by
  unfold wrapInt32
  omega

/-- The index clamp of `getNearestMiddle`: a raw index between 0 and `counts`, for at least two
segments within the range of an `int`, ends strictly between 0 and `counts`. -/
theorem middle_index_clamp (i0 counts : ℤ) (hc : 2 ≤ counts) (hb : counts < 2 ^ 31)
    (h0 : 0 ≤ i0) (h1 : i0 ≤ counts) :
    1 ≤ (if (if i0 = 0 then wrapInt32 (i0 + 1) else i0) = counts
          then wrapInt32 ((if i0 = 0 then wrapInt32 (i0 + 1) else i0) - 1)
          else (if i0 = 0 then wrapInt32 (i0 + 1) else i0)) ∧
      (if (if i0 = 0 then wrapInt32 (i0 + 1) else i0) = counts
          then wrapInt32 ((if i0 = 0 then wrapInt32 (i0 + 1) else i0) - 1)
          else (if i0 = 0 then wrapInt32 (i0 + 1) else i0)) ≤ counts - 1 := by
  have e1 : (if i0 = 0 then wrapInt32 (i0 + 1) else i0) = (if i0 = 0 then i0 + 1 else i0) := by
    by_cases h : i0 = 0
    · rw [if_pos h, if_pos h]
      exact wrapInt32_of_range _ (by omega) (by omega)
    · rw [if_neg h, if_neg h]
  rw [e1]
  by_cases h : (if i0 = 0 then i0 + 1 else i0) = counts
  · rw [if_pos h, h, wrapInt32_of_range _ (by omega) (by omega)]
    omega
  · rw [if_neg h]
    split_ifs at h ⊢ <;> omega

/-- Rounding `ρ * counts + 1/2` towards zero, for a ratio `ρ` in `[0, 1]` and a count within the
range of an `int`, gives an index between 0 and `counts`. -/
theorem truncInt_ratio (ρ : ℝ) (counts : ℤ) (hc : 0 ≤ counts) (hb : counts < 2 ^ 31)
    (h0 : 0 ≤ ρ) (h1 : ρ ≤ 1) :
    0 ≤ truncInt (ρ * (counts : ℝ) + 1 / 2) ∧ truncInt (ρ * (counts : ℝ) + 1 / 2) ≤ counts := by
  have hcr : (0 : ℝ) ≤ counts := by exact_mod_cast hc
  have hx0 : 0 ≤ ρ * (counts : ℝ) + 1 / 2 := by positivity
  have hx1 : ρ * (counts : ℝ) + 1 / 2 < (counts : ℝ) + 1 := by nlinarith
  have hf0 : 0 ≤ ⌊ρ * (counts : ℝ) + 1 / 2⌋ := Int.floor_nonneg.mpr hx0
  have hf1 : ⌊ρ * (counts : ℝ) + 1 / 2⌋ < counts + 1 := by
    rw [Int.floor_lt]
    push_cast
    exact hx1
  unfold truncInt
  rw [if_pos hx0, wrapInt32_of_range _ (by omega) (by omega)]
  constructor
  · exact hf0
  · omega

/-- The C `fmod` by a full turn of a non-negative number lying in the `k`-th turn. -/
theorem fmod_real_eq (t t2 ta x : ℝ) (k : ℤ) (hk : 0 ≤ k) (h0 : k * (2 * π) ≤ x)
    (h1 : x < (k + 1) * (2 * π)) : (realEnv t t2 ta).fmod x (2 * π) = x - k * (2 * π) := by
  have hp : (0 : ℝ) < 2 * π := by positivity
  have hkr : (0 : ℝ) ≤ k := by exact_mod_cast hk
  have hq0 : (k : ℝ) ≤ x / (2 * π) := by rw [le_div_iff₀ hp]; exact h0
  have hq1 : x / (2 * π) < k + 1 := by rw [div_lt_iff₀ hp]; exact h1
  have htq : truncQuot (x / (2 * π)) = k := by
    unfold truncQuot
    rw [if_pos (le_trans hkr hq0), Int.floor_eq_iff]
    exact ⟨hq0, hq1⟩
  show x - 2 * π * (truncQuot (x / (2 * π)) : ℝ) = x - k * (2 * π)
  rw [htq]; ring

/-- The counter-clockwise containment test accepts an angle whose distance to the end of the
span is at most the span plus half the tolerance, and one whose distance from the start is. -/
theorem isAngleBetween_real_of_le (t t2 ta a a1 a2 : ℝ)
    (h : RS_Math.correctAngle (realEnv t t2 ta) (a - a1)
          ≤ RS_Math.correctAngle (realEnv t t2 ta) (a2 - a1) + 1 / 2 * ta ∨
        RS_Math.correctAngle (realEnv t t2 ta) (a2 - a)
          ≤ RS_Math.correctAngle (realEnv t t2 ta) (a2 - a1) + 1 / 2 * ta) :
    RS_Math.isAngleBetween (realEnv t t2 ta) a a1 a2 false = true := by
  unfold RS_Math.isAngleBetween
  simp only [Bool.false_eq_true, if_false, realEnv_tolA]
  split_ifs
  · rfl
  · rw [Bool.or_eq_true, decide_eq_true_iff, decide_eq_true_iff]
    exact h

/-- On an interval that lies within one turn `[2π(m-1), 2πm]` the cosine is at most its larger
end value. -/
theorem cos_le_max_within_turn (m : ℤ) (a s b : ℝ) (ha : (m - 1) * (2 * π) ≤ a) (has : a ≤ s)
    (hsb : s ≤ b) (hb : b ≤ m * (2 * π)) :
    Real.cos s ≤ max (Real.cos a) (Real.cos b) := by
  have hp := Real.pi_pos
  have hshift : ∀ x : ℝ, Real.cos (x - (m - 1) * (2 * π)) = Real.cos x := by
    intro x
    have e : x - (m - 1) * (2 * π) = x - ((m - 1 : ℤ) : ℝ) * (2 * π) := by push_cast; ring
    rw [e, Real.cos_sub_int_mul_two_pi]
  rw [← hshift s, ← hshift a, ← hshift b]
  by_cases hmid : s - (m - 1) * (2 * π) ≤ π
  · exact le_max_of_le_left
      (Real.cos_le_cos_of_nonneg_of_le_pi (by linarith) hmid (by linarith))
  · have h1 : Real.cos (2 * π - (s - (m - 1) * (2 * π)))
        ≤ Real.cos (2 * π - (b - (m - 1) * (2 * π))) :=
      Real.cos_le_cos_of_nonneg_of_le_pi (by linarith) (by linarith) (by linarith)
    rw [Real.cos_two_pi_sub, Real.cos_two_pi_sub] at h1
    exact le_max_of_le_right h1

/-- When the counter-clockwise containment test rejects the direction `φ`, the cosine of the
angular distance to `φ` on the span from `amin` of length `correctAngle(amax - amin)` is at
most its value at the two ends of the span. -/
theorem span_cos_le (t t2 ta : ℝ) (hta : 0 ≤ ta) (φ amin amax s u : ℝ) (hu0 : 0 ≤ u)
    (hu1 : u ≤ RS_Math.correctAngle (realEnv t t2 ta) (amax - amin)) (hs : s = amin + u)
    (hf : RS_Math.isAngleBetween (realEnv t t2 ta) φ amin amax false = false) :
    Real.cos (s - φ) ≤ max (Real.cos (amin - φ)) (Real.cos (amax - φ)) := by
  have hp := Real.pi_pos
  unfold RS_Math.isAngleBetween at hf
  simp only [Bool.false_eq_true, if_false, realEnv_tolA] at hf
  split_ifs at hf with hfull
  rw [Bool.or_eq_false_iff, decide_eq_false_iff_not, decide_eq_false_iff_not, not_le, not_le]
    at hf
  obtain ⟨hb, -⟩ := hf
  obtain ⟨c0, c1, k, hk⟩ := correctAngle_real_spec t t2 ta (φ - amin)
  obtain ⟨d0, d1, j, hj⟩ := correctAngle_real_spec t t2 ta (amax - amin)
  set c := RS_Math.correctAngle (realEnv t t2 ta) (φ - amin) with hc
  set d := RS_Math.correctAngle (realEnv t t2 ta) (amax - amin) with hd
  have hcd : d < c := by linarith
  have hend : Real.cos (amax - φ) = Real.cos (amin + d - φ) := by
    have e : amin + d - φ = amax - φ + j * (2 * π) := by rw [hj]; ring
    rw [e, Real.cos_add_int_mul_two_pi]
  rw [hend]
  have h := cos_le_max_within_turn k (amin - φ) (s - φ) (amin + d - φ)
    (by
      have : amin - φ = k * (2 * π) - c := by rw [hk]; ring
      rw [this]; linarith)
    (by rw [hs]; linarith) (by rw [hs]; linarith)
    (by
      have : amin + d - φ = k * (2 * π) - c + d := by rw [hk]; ring
      rw [this]; linarith)
  exact h

/-- The bounding box that the recompute step stores, by coordinates. -/
theorem calculateBorders_box {K : Type} [LinearOrderedField K] (E : Env K) (arc : RS_Arc K) :
    (RS_Arc.calculateBorders E arc).minV.x
        = (if RS_Math.isAngleBetween E E.pi
              (if arc.data.reversed then arc.data.angle2 else arc.data.angle1)
              (if arc.data.reversed then arc.data.angle1 else arc.data.angle2) false
            then arc.data.center.x - arc.data.radius
            else min (arc.data.center.x + arc.data.radius * E.cos arc.data.angle1)
              (arc.data.center.x + arc.data.radius * E.cos arc.data.angle2)) ∧
      (RS_Arc.calculateBorders E arc).minV.y
        = (if RS_Math.isAngleBetween E (3 / 2 * E.pi)
              (if arc.data.reversed then arc.data.angle2 else arc.data.angle1)
              (if arc.data.reversed then arc.data.angle1 else arc.data.angle2) false
            then arc.data.center.y - arc.data.radius
            else min (arc.data.center.y + arc.data.radius * E.sin arc.data.angle1)
              (arc.data.center.y + arc.data.radius * E.sin arc.data.angle2)) ∧
      (RS_Arc.calculateBorders E arc).maxV.x
        = (if RS_Math.isAngleBetween E 0
              (if arc.data.reversed then arc.data.angle2 else arc.data.angle1)
              (if arc.data.reversed then arc.data.angle1 else arc.data.angle2) false
            then arc.data.center.x + arc.data.radius
            else max (arc.data.center.x + arc.data.radius * E.cos arc.data.angle1)
              (arc.data.center.x + arc.data.radius * E.cos arc.data.angle2)) ∧
      (RS_Arc.calculateBorders E arc).maxV.y
        = (if RS_Math.isAngleBetween E (1 / 2 * E.pi)
              (if arc.data.reversed then arc.data.angle2 else arc.data.angle1)
              (if arc.data.reversed then arc.data.angle1 else arc.data.angle2) false
            then arc.data.center.y + arc.data.radius
            else max (arc.data.center.y + arc.data.radius * E.sin arc.data.angle1)
              (arc.data.center.y + arc.data.radius * E.sin arc.data.angle2)) :=
  ⟨rfl, rfl, rfl, rfl⟩

/-- Upper bound of one coordinate by the stored maximum: `C` is the cosine or sine at the
angle considered, `A` and `B` those at the two stored angles. -/
theorem coord_le_boxMax (r : ℝ) (hr : 0 ≤ r) (cx C A B : ℝ) (b : Bool) (hC : C ≤ 1)
    (h : b = false → C ≤ max A B) :
    cx + r * C ≤ (if b then cx + r else max (cx + r * A) (cx + r * B)) := by
  cases b
  · simp only [Bool.false_eq_true, if_false]
    rcases le_max_iff.mp (h rfl) with h1 | h1
    · exact le_max_of_le_left (by nlinarith)
    · exact le_max_of_le_right (by nlinarith)
  · simp only [if_true]
    nlinarith

/-- Lower bound of one coordinate by the stored minimum. -/
theorem boxMin_le_coord (r : ℝ) (hr : 0 ≤ r) (cx C A B : ℝ) (b : Bool) (hC : -1 ≤ C)
    (h : b = false → -C ≤ max (-A) (-B)) :
    (if b then cx - r else min (cx + r * A) (cx + r * B)) ≤ cx + r * C := by
  cases b
  · simp only [Bool.false_eq_true, if_false]
    rcases le_max_iff.mp (h rfl) with h1 | h1
    · exact min_le_of_left_le (by nlinarith)
    · exact min_le_of_right_le (by nlinarith)
  · simp only [if_true]
    nlinarith

/-- The cosine of the angular distance to the four axis directions. -/
theorem cos_sub_axis (s : ℝ) :
    Real.cos (s - 0) = Real.cos s ∧ Real.cos (s - 1 / 2 * π) = Real.sin s ∧
      Real.cos (s - π) = -Real.cos s ∧ Real.cos (s - 3 / 2 * π) = -Real.sin s := by
  refine ⟨by rw [sub_zero], ?_, Real.cos_sub_pi s, ?_⟩
  · rw [show s - 1 / 2 * π = s - π / 2 by ring, Real.cos_sub_pi_div_two]
  · rw [show s - 3 / 2 * π = s + π / 2 - 2 * π by ring, Real.cos_sub_two_pi,
      Real.cos_add_pi_div_two]

/-- A point of the circle lies in the recomputed bounding box as soon as, for every axis
direction `φ` that the containment test rejects, the cosine of its angular distance to `φ` is
at most that of one of the two stored angles. -/
theorem inBox_of_axis_bounds (t t2 ta : ℝ) (arc : RS_Arc ℝ) (hr : 0 ≤ arc.data.radius) (s : ℝ)
    (h : ∀ φ : ℝ, RS_Math.isAngleBetween (realEnv t t2 ta) φ
        (if arc.data.reversed then arc.data.angle2 else arc.data.angle1)
        (if arc.data.reversed then arc.data.angle1 else arc.data.angle2) false = false →
      Real.cos (s - φ) ≤ max (Real.cos (arc.data.angle1 - φ)) (Real.cos (arc.data.angle2 - φ))) :
    InBox (RS_Arc.calculateBorders (realEnv t t2 ta) arc)
      (arc.data.center.x + arc.data.radius * Real.cos s)
      (arc.data.center.y + arc.data.radius * Real.sin s) := by
  obtain ⟨bx0, by0, bx1, by1⟩ := calculateBorders_box (realEnv t t2 ta) arc
  simp only [realEnv_pi, realEnv_cos, realEnv_sin] at bx0 by0 bx1 by1
  have h0 := h 0
  have h1 := h (1 / 2 * π)
  have h2 := h π
  have h3 := h (3 / 2 * π)
  rw [(cos_sub_axis s).1, (cos_sub_axis arc.data.angle1).1, (cos_sub_axis arc.data.angle2).1]
    at h0
  rw [(cos_sub_axis s).2.1, (cos_sub_axis arc.data.angle1).2.1,
    (cos_sub_axis arc.data.angle2).2.1] at h1
  rw [(cos_sub_axis s).2.2.1, (cos_sub_axis arc.data.angle1).2.2.1,
    (cos_sub_axis arc.data.angle2).2.2.1] at h2
  rw [(cos_sub_axis s).2.2.2, (cos_sub_axis arc.data.angle1).2.2.2,
    (cos_sub_axis arc.data.angle2).2.2.2] at h3
  unfold InBox
  rw [bx0, by0, bx1, by1]
  exact ⟨boxMin_le_coord _ hr _ _ _ _ _ (Real.neg_one_le_cos s) h2,
    coord_le_boxMax _ hr _ _ _ _ _ (Real.cos_le_one s) h0,
    boxMin_le_coord _ hr _ _ _ _ _ (Real.neg_one_le_sin s) h3,
    coord_le_boxMax _ hr _ _ _ _ _ (Real.sin_le_one s) h1⟩

/-- The stored minimum and maximum of one coordinate stay within `radius` of the center. -/
theorem box_coord_within (r : ℝ) (hr : 0 ≤ r) (cx A B : ℝ) (b b2 : Bool) (hA0 : -1 ≤ A)
    (hA1 : A ≤ 1) (hB0 : -1 ≤ B) (hB1 : B ≤ 1) :
    cx - r ≤ (if b then cx - r else min (cx + r * A) (cx + r * B)) ∧
      (if b2 then cx + r else max (cx + r * A) (cx + r * B)) ≤ cx + r := by
  constructor
  · cases b
    · simp only [Bool.false_eq_true, if_false]
      exact le_min (by nlinarith) (by nlinarith)
    · simp only [if_true]; exact le_rfl
  · cases b2
    · simp only [Bool.false_eq_true, if_false]
      exact max_le (by nlinarith) (by nlinarith)
    · simp only [if_true]; exact le_rfl

/-- The recomputed bounding box lies in the square around the circle. -/
theorem box_within_square (t t2 ta : ℝ) (arc : RS_Arc ℝ) (hr : 0 ≤ arc.data.radius) :
    arc.data.center.x - arc.data.radius
        ≤ (RS_Arc.calculateBorders (realEnv t t2 ta) arc).minV.x ∧
      (RS_Arc.calculateBorders (realEnv t t2 ta) arc).maxV.x
        ≤ arc.data.center.x + arc.data.radius ∧
      arc.data.center.y - arc.data.radius
        ≤ (RS_Arc.calculateBorders (realEnv t t2 ta) arc).minV.y ∧
      (RS_Arc.calculateBorders (realEnv t t2 ta) arc).maxV.y
        ≤ arc.data.center.y + arc.data.radius := by
  obtain ⟨bx0, by0, bx1, by1⟩ := calculateBorders_box (realEnv t t2 ta) arc
  simp only [realEnv_pi, realEnv_cos, realEnv_sin] at bx0 by0 bx1 by1
  have c1 := Real.neg_one_le_cos arc.data.angle1
  have c2 := Real.neg_one_le_cos arc.data.angle2
  have c3 := Real.cos_le_one arc.data.angle1
  have c4 := Real.cos_le_one arc.data.angle2
  have s1 := Real.neg_one_le_sin arc.data.angle1
  have s2 := Real.neg_one_le_sin arc.data.angle2
  have s3 := Real.sin_le_one arc.data.angle1
  have s4 := Real.sin_le_one arc.data.angle2
  rw [bx0, by0, bx1, by1]
  exact ⟨(box_coord_within _ hr _ _ _ _ true c1 c3 c2 c4).1,
    (box_coord_within _ hr _ _ _ true _ c1 c3 c2 c4).2,
    (box_coord_within _ hr _ _ _ _ true s1 s3 s2 s4).1,
    (box_coord_within _ hr _ _ _ true _ s1 s3 s2 s4).2⟩

/-- The arc `staleArc`: its data are the circle of radius 1 about `(1, 0)` with the angles of
`(0, 0)` and `(2, 0)`, its cached start and end points are those of the sample arc. -/
theorem staleArc_facts :
    staleArc.data.center = pt 1 0 ∧ staleArc.data.radius = 1 ∧
      staleArc.data.angle1 = RS_Vector.angleTo stdEnv (pt 1 0) (pt 0 0) ∧
      staleArc.data.angle2 = RS_Vector.angleTo stdEnv (pt 1 0) (pt 2 0) ∧
      staleArc.m_startPoint = pt 1 0 ∧
      staleArc.m_endPoint = pt (Real.cos 1) (Real.sin 1) := by
  obtain ⟨hs, hc, hr⟩ := createFrom3P_scenario sampleArc
  have hang := createFrom3P_real_angles (1 / 10 ^ 10) (1 / 10 ^ 20) (1 / 10 ^ 8)
    (by norm_num) sampleArc _ _ _ hs
  change _ = RS_Vector.angleTo stdEnv
      (RS_Arc.createFrom3P stdEnv sampleArc (pt 0 0) (pt 1 1) (pt 2 0)).2.data.center _ ∧
    _ = RS_Vector.angleTo stdEnv
      (RS_Arc.createFrom3P stdEnv sampleArc (pt 0 0) (pt 1 1) (pt 2 0)).2.data.center _ ∧ _
    at hang
  obtain ⟨h1, h2, -⟩ := hang
  obtain ⟨c1, c2, -⟩ := createFrom3P_caches stdEnv sampleArc (pt 0 0) (pt 1 1) (pt 2 0)
  rw [hc] at h1 h2
  exact ⟨hc, hr, h1, h2, c1.trans sampleArc_startPoint, c2.trans sampleArc_endPoint⟩

/-- The circle points of `staleArc` at its two angles are `(0, 0)` and `(2, 0)`. -/
theorem staleArc_circle_points :
    RS_Vector.relative stdEnv staleArc.data.center staleArc.data.radius staleArc.data.angle1
        = pt 0 0 ∧
      RS_Vector.relative stdEnv staleArc.data.center staleArc.data.radius staleArc.data.angle2
        = pt 2 0 := by
  obtain ⟨hc, hr, h1, h2, -, -⟩ := staleArc_facts
  rw [hc, hr, h1, h2]
  exact ⟨relative_angleTo_real _ _ _ (pt 1 0) (pt 0 0) 1 one_pos (by norm_num [pt, RS_Vector.mk2]),
    relative_angleTo_real _ _ _ (pt 1 0) (pt 2 0) 1 one_pos (by norm_num [pt, RS_Vector.mk2])⟩

/-- The direction from a point to the point one unit above it is the angle `π/2`. -/
theorem angle_real_up (t t2 ta : ℝ) (c : RS_Vector ℝ) :
    RS_Vector.angle (realEnv t t2 ta) (RS_Vector.sub (RS_Vector.add c (RS_Vector.mk2 0 1)) c)
      = π / 2 := by
  have hp := Real.pi_pos
  obtain ⟨k, hk⟩ := angle_real_of_polar t t2 ta
    (RS_Vector.sub (RS_Vector.add c (RS_Vector.mk2 0 1)) c) 1 (π / 2) one_pos
    (by simp [RS_Vector.sub, RS_Vector.add, RS_Vector.mk2])
    (by simp [RS_Vector.sub, RS_Vector.add, RS_Vector.mk2])
  obtain ⟨h0, h1, -⟩ := correctAngle_real_spec t t2 ta
    ((realEnv t t2 ta).atan2 (RS_Vector.sub (RS_Vector.add c (RS_Vector.mk2 0 1)) c).y
      (RS_Vector.sub (RS_Vector.add c (RS_Vector.mk2 0 1)) c).x)
  have e : RS_Vector.angle (realEnv t t2 ta)
      (RS_Vector.sub (RS_Vector.add c (RS_Vector.mk2 0 1)) c)
      = RS_Math.correctAngle (realEnv t t2 ta)
          ((realEnv t t2 ta).atan2 (RS_Vector.sub (RS_Vector.add c (RS_Vector.mk2 0 1)) c).y
            (RS_Vector.sub (RS_Vector.add c (RS_Vector.mk2 0 1)) c).x) := rfl
  rw [← e] at h0 h1
  rw [hk] at h0 h1 ⊢
  have hk0 : k = 0 := by
    have hlt : (k : ℝ) < 1 := by nlinarith
    have hgt : (-1 : ℝ) < k := by nlinarith
    have h1' : k < 1 := by exact_mod_cast hlt
    have h2' : -1 < k := by exact_mod_cast hgt
    omega
  rw [hk0]
  simp

/-- The direction from a point to the point one unit to its right is the angle 0. -/
theorem angle_real_right (t t2 ta : ℝ) (c : RS_Vector ℝ) :
    RS_Vector.angle (realEnv t t2 ta) (RS_Vector.sub (RS_Vector.add c (RS_Vector.mk2 1 0)) c)
      = 0 := by
  have hp := Real.pi_pos
  obtain ⟨k, hk⟩ := angle_real_of_polar t t2 ta
    (RS_Vector.sub (RS_Vector.add c (RS_Vector.mk2 1 0)) c) 1 0 one_pos
    (by simp [RS_Vector.sub, RS_Vector.add, RS_Vector.mk2])
    (by simp [RS_Vector.sub, RS_Vector.add, RS_Vector.mk2])
  obtain ⟨h0, h1, -⟩ := correctAngle_real_spec t t2 ta
    ((realEnv t t2 ta).atan2 (RS_Vector.sub (RS_Vector.add c (RS_Vector.mk2 1 0)) c).y
      (RS_Vector.sub (RS_Vector.add c (RS_Vector.mk2 1 0)) c).x)
  have e : RS_Vector.angle (realEnv t t2 ta)
      (RS_Vector.sub (RS_Vector.add c (RS_Vector.mk2 1 0)) c)
      = RS_Math.correctAngle (realEnv t t2 ta)
          ((realEnv t t2 ta).atan2 (RS_Vector.sub (RS_Vector.add c (RS_Vector.mk2 1 0)) c).y
            (RS_Vector.sub (RS_Vector.add c (RS_Vector.mk2 1 0)) c).x) := rfl
  rw [← e] at h0 h1
  rw [hk] at h0 h1 ⊢
  have hk0 : k = 0 := by
    have hlt : (k : ℝ) < 1 := by nlinarith
    have hgt : (-1 : ℝ) < k := by nlinarith
    have h1' : k < 1 := by exact_mod_cast hlt
    have h2' : -1 < k := by exact_mod_cast hgt
    omega
  rw [hk0]
  simp

/-- The angles after the two mirror steps of `scale`: about the vertical axis through the own
center an angle `a` becomes `correctAngle(π - a)`, about the horizontal axis `correctAngle(-a)`. -/
theorem mirror_axis_angles (t t2 ta : ℝ) (hta : 0 < ta) (hpi : ta ≤ π) (B : RS_Arc ℝ) :
    (RS_Arc.mirror (realEnv t t2 ta) B B.data.center
        (RS_Vector.add B.data.center (RS_Vector.mk2 0 1))).data.angle1
        = RS_Math.correctAngle (realEnv t t2 ta) (π - B.data.angle1) ∧
      (RS_Arc.mirror (realEnv t t2 ta) B B.data.center
        (RS_Vector.add B.data.center (RS_Vector.mk2 0 1))).data.angle2
        = RS_Math.correctAngle (realEnv t t2 ta) (π - B.data.angle2) ∧
      (RS_Arc.mirror (realEnv t t2 ta) B B.data.center
        (RS_Vector.add B.data.center (RS_Vector.mk2 1 0))).data.angle1
        = RS_Math.correctAngle (realEnv t t2 ta) (-B.data.angle1) ∧
      (RS_Arc.mirror (realEnv t t2 ta) B B.data.center
        (RS_Vector.add B.data.center (RS_Vector.mk2 1 0))).data.angle2
        = RS_Math.correctAngle (realEnv t t2 ta) (-B.data.angle2) := by
  have eu : ∀ a : ℝ, RS_Vector.angle (realEnv t t2 ta)
      (RS_Vector.sub (RS_Vector.add B.data.center (RS_Vector.mk2 0 1)) B.data.center) * 2 - a
      = π - a := by
    intro a; rw [angle_real_up]; ring
  have er : ∀ a : ℝ, RS_Vector.angle (realEnv t t2 ta)
      (RS_Vector.sub (RS_Vector.add B.data.center (RS_Vector.mk2 1 0)) B.data.center) * 2 - a
      = -a := by
    intro a; rw [angle_real_right]; ring
  rw [mirror_real_eq t t2 ta hta hpi, mirror_real_eq t t2 ta hta hpi]
  refine ⟨?_, ?_, ?_, ?_⟩
  · rw [← eu]; rfl
  · rw [← eu]; rfl
  · rw [← er]; rfl
  · rw [← er]; rfl

/-- In every numeric environment `scale` stores the radius `|radius * f.x|`, the center scaled
about the pivot, and flips `reversed` once for each negative factor. -/
theorem scale_keeps {K : Type} [LinearOrderedField K] (E : Env K) (arc : RS_Arc K)
    (c f : RS_Vector K) :
    (RS_Arc.scale E arc c f).data.radius = |arc.data.radius * f.x| ∧
      (RS_Arc.scale E arc c f).data.center.x = c.x + (arc.data.center.x - c.x) * f.x ∧
      (RS_Arc.scale E arc c f).data.center.y = c.y + (arc.data.center.y - c.y) * f.y ∧
      (RS_Arc.scale E arc c f).data.reversed
        = xor arc.data.reversed (xor (decide (f.x < 0)) (decide (f.y < 0))) := by
  obtain ⟨r1, x1, y1, v1⟩ := scale_mirror_step E arc (RS_Vector.mk2 0 1) (f.x < 0)
  unfold RS_Arc.scale
  simp only []
  generalize (if f.x < 0 then RS_Arc.mirror E arc arc.data.center
    (RS_Vector.add arc.data.center (RS_Vector.mk2 0 1)) else arc) = A1 at r1 x1 y1 v1 ⊢
  obtain ⟨r2, x2, y2, v2⟩ := scale_mirror_step E A1 (RS_Vector.mk2 1 0) (f.y < 0)
  generalize (if f.y < 0 then RS_Arc.mirror E A1 A1.data.center
    (RS_Vector.add A1.data.center (RS_Vector.mk2 1 0)) else A1) = A2 at r2 x2 y2 v2 ⊢
  show |A2.data.radius * f.x| = _ ∧ c.x + (A2.data.center.x - c.x) * f.x = _ ∧
    c.y + (A2.data.center.y - c.y) * f.y = _ ∧ A2.data.reversed = _
  rw [r2, r1, x2, x1, y2, y1, v2, v1, Bool.xor_assoc]
  exact ⟨rfl, rfl, rfl, rfl⟩

/-- The angles stored by `scale`: each angle is mirrored about the vertical axis when
`f.x < 0` and then about the horizontal axis when `f.y < 0`. -/
theorem scale_real_angles (t t2 ta : ℝ) (hta : 0 < ta) (hpi : ta ≤ π) (arc : RS_Arc ℝ)
    (c f : RS_Vector ℝ) :
    (RS_Arc.scale (realEnv t t2 ta) arc c f).data.angle1
        = (if f.y < 0 then RS_Math.correctAngle (realEnv t t2 ta)
              (-(if f.x < 0 then RS_Math.correctAngle (realEnv t t2 ta) (π - arc.data.angle1)
                  else arc.data.angle1))
            else (if f.x < 0 then RS_Math.correctAngle (realEnv t t2 ta) (π - arc.data.angle1)
              else arc.data.angle1)) ∧
      (RS_Arc.scale (realEnv t t2 ta) arc c f).data.angle2
        = (if f.y < 0 then RS_Math.correctAngle (realEnv t t2 ta)
              (-(if f.x < 0 then RS_Math.correctAngle (realEnv t t2 ta) (π - arc.data.angle2)
                  else arc.data.angle2))
            else (if f.x < 0 then RS_Math.correctAngle (realEnv t t2 ta) (π - arc.data.angle2)
              else arc.data.angle2)) := by
  have h1 : (if f.x < 0 then RS_Arc.mirror (realEnv t t2 ta) arc arc.data.center
        (RS_Vector.add arc.data.center (RS_Vector.mk2 0 1)) else arc).data.angle1
        = (if f.x < 0 then RS_Math.correctAngle (realEnv t t2 ta) (π - arc.data.angle1)
            else arc.data.angle1) ∧
      (if f.x < 0 then RS_Arc.mirror (realEnv t t2 ta) arc arc.data.center
        (RS_Vector.add arc.data.center (RS_Vector.mk2 0 1)) else arc).data.angle2
        = (if f.x < 0 then RS_Math.correctAngle (realEnv t t2 ta) (π - arc.data.angle2)
            else arc.data.angle2) := by
    by_cases h : f.x < 0
    · rw [if_pos h, if_pos h, if_pos h]
      exact ⟨(mirror_axis_angles t t2 ta hta hpi arc).1,
        (mirror_axis_angles t t2 ta hta hpi arc).2.1⟩
    · rw [if_neg h, if_neg h, if_neg h]
      exact ⟨rfl, rfl⟩
  unfold RS_Arc.scale
  simp only []
  generalize (if f.x < 0 then RS_Arc.mirror (realEnv t t2 ta) arc arc.data.center
    (RS_Vector.add arc.data.center (RS_Vector.mk2 0 1)) else arc) = A1 at h1 ⊢
  rw [← h1.1, ← h1.2]
  by_cases h : f.y < 0
  · rw [if_pos h, if_pos h, if_pos h]
    exact ⟨(mirror_axis_angles t t2 ta hta hpi A1).2.2.1,
      (mirror_axis_angles t t2 ta hta hpi A1).2.2.2⟩
  · rw [if_neg h, if_neg h, if_neg h]
    exact ⟨rfl, rfl⟩

/-- The data of the arc `negArc`. -/
theorem negArc_data : negArc.data = ⟨pt 0 0, -1, 0, 1, false⟩ := rfl

/-- The result of `getNearestMiddle` past its full-circle guard, in terms of the counter
`counts`, the raw index `i0` and the clamped index `i` that the code computes. -/
theorem getNearestMiddle_eq {K : Type} [LinearOrderedField K] [FloorRing K] (E : Env K)
    (maxD : K) (arc : RS_Arc K) (coord : RS_Vector K) (mp : ℤ)
    (hnz : arc.data.angle1 ≠ 0 ∨ arc.data.angle2 ≠ 0) (amin da : K) (counts i0 i : ℤ)
    (hamin : amin = if arc.data.reversed then arc.data.angle2 else arc.data.angle1)
    (hda : da = if E.fmod ((if arc.data.reversed then arc.data.angle1 else arc.data.angle2)
          - amin + 2 * E.pi) (2 * E.pi) < E.RS_TOLERANCE then 2 * E.pi
        else E.fmod ((if arc.data.reversed then arc.data.angle1 else arc.data.angle2)
          - amin + 2 * E.pi) (2 * E.pi))
    (hcounts : counts = wrapInt32 (wrapInt32 mp + 1))
    (hi0 : i0 = truncInt (E.fmod (RS_Vector.angleTo E arc.data.center
          (RS_Arc.getNearestPointOnEntity E arc coord true).1 - amin + 2 * E.pi) (2 * E.pi)
        / da * (counts : K) + 1 / 2))
    (hi : i = if (if i0 = 0 then wrapInt32 (i0 + 1) else i0) = counts
        then wrapInt32 ((if i0 = 0 then wrapInt32 (i0 + 1) else i0) - 1)
        else (if i0 = 0 then wrapInt32 (i0 + 1) else i0)) :
    RS_Arc.getNearestMiddle E maxD arc coord mp
      = (RS_Vector.addAssign (RS_Vector.polar E arc.data.radius
            (amin + da * ((i : K) / (counts : K)))) arc.data.center,
        RS_Vector.distanceTo E
          (RS_Vector.addAssign (RS_Vector.polar E arc.data.radius
            (amin + da * ((i : K) / (counts : K)))) arc.data.center) coord) := by
  have hg : (!(isnormal arc.data.angle1 || isnormal arc.data.angle2)) = false := by
    rcases hnz with h | h
    · simp [isnormal, h]
    · simp [isnormal, h]
  subst hi hi0 hcounts hda hamin
  unfold RS_Arc.getNearestMiddle
  rw [hg]
  rfl

/-- The nearest point on an arc about the origin for the query point `(1, 0)`, when the
direction 0 passes the containment test: the circle point at angle 0, `(radius, 0)`. -/
theorem getNearestPointOnEntity_x_axis (t t2 ta : ℝ) (arc : RS_Arc ℝ)
    (hc : arc.data.center = pt 0 0)
    (hb : RS_Math.isAngleBetween (realEnv t t2 ta) 0 arc.data.angle1 arc.data.angle2
      arc.data.reversed = true) :
    (RS_Arc.getNearestPointOnEntity (realEnv t t2 ta) arc (pt 1 0) true).1
      = pt arc.data.radius 0 := by
  unfold RS_Arc.getNearestPointOnEntity
  simp only [hc, angle_real_x_axis, hb, Bool.not_true, Bool.false_or, if_true]
  simp [RS_Vector.addAssign, RS_Vector.polar, pt, RS_Vector.mk2]

/-- The direction of the negative x-axis is the angle `π`. -/
theorem angle_real_neg_x_axis (t t2 ta : ℝ) :
    RS_Vector.angle (realEnv t t2 ta) (RS_Vector.sub (pt (-1) 0) (pt 0 0)) = π := by
  have hp := Real.pi_pos
  obtain ⟨k, hk⟩ := angle_real_of_polar t t2 ta (RS_Vector.sub (pt (-1) 0) (pt 0 0)) 1 π
    one_pos (by simp [RS_Vector.sub, pt, RS_Vector.mk2])
    (by simp [RS_Vector.sub, pt, RS_Vector.mk2])
  obtain ⟨h0, h1, -⟩ := correctAngle_real_spec t t2 ta
    ((realEnv t t2 ta).atan2 (RS_Vector.sub (pt (-1 : ℝ) 0) (pt 0 0)).y
      (RS_Vector.sub (pt (-1 : ℝ) 0) (pt 0 0)).x)
  have e : RS_Vector.angle (realEnv t t2 ta) (RS_Vector.sub (pt (-1) 0) (pt 0 0))
      = RS_Math.correctAngle (realEnv t t2 ta)
          ((realEnv t t2 ta).atan2 (RS_Vector.sub (pt (-1 : ℝ) 0) (pt 0 0)).y
            (RS_Vector.sub (pt (-1 : ℝ) 0) (pt 0 0)).x) := rfl
  rw [← e] at h0 h1
  rw [hk] at h0 h1 ⊢
  have hk0 : k = 0 := by
    have hlt : (k : ℝ) < 1 := by nlinarith
    have hgt : (-1 : ℝ) < k := by nlinarith
    have h1' : k < 1 := by exact_mod_cast hlt
    have h2' : -1 < k := by exact_mod_cast hgt
    omega
  rw [hk0]
  simp

/-- The direction 0 passes the containment test of an arc from angle 0 to angle 1,
counter-clockwise. -/
theorem isAngleBetween_zero_one (t t2 ta : ℝ) (hta : 0 ≤ ta) :
    RS_Math.isAngleBetween (realEnv t t2 ta) 0 0 1 false = true := by
  have hp := Real.pi_gt_three
  have hc0 : RS_Math.correctAngle (realEnv t t2 ta) (0 - 0) = 0 :=
    correctAngle_real_eq _ _ _ _ 0 le_rfl (by positivity) ⟨0, by simp⟩
  apply isAngleBetween_real_of_le
  left
  rw [hc0]
  exact add_nonneg (correctAngle_real_spec t t2 ta (1 - 0)).1 (by positivity)

/-- The sweep that `getNearestMiddle` computes for an arc from angle 0 to angle 1,
counter-clockwise, with the shipped tolerance: 1. -/
theorem middle_sweep_zero_one (arc : RS_Arc ℝ)
    (h2 : arc.data.angle2 = 1) (hrev : arc.data.reversed = false) :
    (1 : ℝ) = if (realEnv (1 / 10 ^ 10) (1 / 10 ^ 20) (1 / 10 ^ 8)).fmod
          ((if arc.data.reversed then arc.data.angle1 else arc.data.angle2) - 0 + 2 * π)
          (2 * π) < 1 / 10 ^ 10 then 2 * π
        else (realEnv (1 / 10 ^ 10) (1 / 10 ^ 20) (1 / 10 ^ 8)).fmod
          ((if arc.data.reversed then arc.data.angle1 else arc.data.angle2) - 0 + 2 * π)
          (2 * π) := by
  have hp := Real.pi_gt_three
  rw [hrev, h2]
  simp only [Bool.false_eq_true, if_false]
  rw [fmod_real_eq _ _ _ _ 1 (by norm_num) (by push_cast; linarith) (by push_cast; linarith)]
  push_cast
  rw [if_neg (by norm_num)]
  ring

/-- For the sample arc and the query point `(1, 0)` the offset of the nearest point's angle
from the start angle, as `getNearestMiddle` computes it, is 0. -/
theorem sampleArc_middle_offset :
    (0 : ℝ) = (realEnv (1 / 10 ^ 10) (1 / 10 ^ 20) (1 / 10 ^ 8)).fmod
      (RS_Vector.angleTo (realEnv (1 / 10 ^ 10) (1 / 10 ^ 20) (1 / 10 ^ 8))
        sampleArc.data.center
        (RS_Arc.getNearestPointOnEntity (realEnv (1 / 10 ^ 10) (1 / 10 ^ 20) (1 / 10 ^ 8))
          sampleArc (pt 1 0) true).1 - 0 + 2 * π) (2 * π) := by
  have hp := Real.pi_gt_three
  have hvp := getNearestPointOnEntity_x_axis (1 / 10 ^ 10) (1 / 10 ^ 20) (1 / 10 ^ 8) sampleArc
    rfl (isAngleBetween_zero_one _ _ _ (by norm_num))
  rw [hvp, sampleArc_data]
  show (0 : ℝ) = (realEnv (1 / 10 ^ 10) (1 / 10 ^ 20) (1 / 10 ^ 8)).fmod
    (RS_Vector.angle (realEnv (1 / 10 ^ 10) (1 / 10 ^ 20) (1 / 10 ^ 8))
      (RS_Vector.sub (pt 1 0) (pt 0 0)) - 0 + 2 * π) (2 * π)
  rw [angle_real_x_axis,
    fmod_real_eq _ _ _ _ 1 (by norm_num) (by push_cast; linarith) (by push_cast; linarith)]
  push_cast
  ring

/-- For the arc `negArc` and the query point `(1, 0)` the nearest point on the entity is
`(-1, 0)`, so the offset of its angle from the start angle, as `getNearestMiddle` computes it,
is `π`. -/
theorem negArc_middle_offset :
    π = (realEnv (1 / 10 ^ 10) (1 / 10 ^ 20) (1 / 10 ^ 8)).fmod
      (RS_Vector.angleTo (realEnv (1 / 10 ^ 10) (1 / 10 ^ 20) (1 / 10 ^ 8))
        negArc.data.center
        (RS_Arc.getNearestPointOnEntity (realEnv (1 / 10 ^ 10) (1 / 10 ^ 20) (1 / 10 ^ 8))
          negArc (pt 1 0) true).1 - 0 + 2 * π) (2 * π) := by
  have hp := Real.pi_gt_three
  have hvp := getNearestPointOnEntity_x_axis (1 / 10 ^ 10) (1 / 10 ^ 20) (1 / 10 ^ 8) negArc
    rfl (isAngleBetween_zero_one _ _ _ (by norm_num))
  rw [hvp, negArc_data]
  show π = (realEnv (1 / 10 ^ 10) (1 / 10 ^ 20) (1 / 10 ^ 8)).fmod
    (RS_Vector.angle (realEnv (1 / 10 ^ 10) (1 / 10 ^ 20) (1 / 10 ^ 8))
      (RS_Vector.sub (pt (-1) 0) (pt 0 0)) - 0 + 2 * π) (2 * π)
  rw [angle_real_neg_x_axis,
    fmod_real_eq _ _ _ _ 1 (by norm_num) (by push_cast; linarith) (by push_cast; linarith)]
  push_cast
  ring

/-- The index conversion of `getNearestMiddle` at a number between two consecutive integers
within the range of an `int`. -/
theorem truncInt_real_eq (x : ℝ) (n : ℤ) (h0 : (n : ℝ) ≤ x) (h1 : x < n + 1) (hn : 0 ≤ n)
    (hb : n < 2 ^ 31) : truncInt x = n := by
  have hx0 : 0 ≤ x := le_trans (by exact_mod_cast hn) h0
  have hf : ⌊x⌋ = n := Int.floor_eq_iff.mpr ⟨h0, h1⟩
  unfold truncInt
  rw [if_pos hx0, hf]
  exact wrapInt32_of_range n (by omega) hb

/-- An angle that passes the containment test from the end of the span (its normalised distance
to the end angle is at most the normalised span) also passes it from the start. -/
theorem containment_from_end (t t2 ta s amin amax : ℝ)
    (h : RS_Math.correctAngle (realEnv t t2 ta) (amax - s)
      ≤ RS_Math.correctAngle (realEnv t t2 ta) (amax - amin)) :
    RS_Math.correctAngle (realEnv t t2 ta) (s - amin)
      ≤ RS_Math.correctAngle (realEnv t t2 ta) (amax - amin) := by
  have hp := Real.pi_pos
  obtain ⟨x0, x1, k, hk⟩ := correctAngle_real_spec t t2 ta (s - amin)
  obtain ⟨y0, y1, m, hm⟩ := correctAngle_real_spec t t2 ta (amax - s)
  obtain ⟨d0, d1, n, hn⟩ := correctAngle_real_spec t t2 ta (amax - amin)
  generalize RS_Math.correctAngle (realEnv t t2 ta) (s - amin) = x at *
  generalize RS_Math.correctAngle (realEnv t t2 ta) (amax - s) = y at *
  generalize RS_Math.correctAngle (realEnv t t2 ta) (amax - amin) = D at *
  have hsum : x + y = D + ((k + m - n : ℤ) : ℝ) * (2 * π) := by
    push_cast; rw [hk, hm, hn]; ring
  generalize k + m - n = j at hsum
  have hj1 : (j : ℝ) < 2 := by nlinarith
  have hj0 : (-1 : ℝ) < j := by nlinarith
  have hj1' : j < 2 := by exact_mod_cast hj1
  have hj0' : -1 < j := by exact_mod_cast hj0
  have hj : j = 0 ∨ j = 1 := by omega
  rcases hj with hj | hj
  · rw [hj] at hsum
    push_cast at hsum
    linarith
  · rw [hj] at hsum
    push_cast at hsum
    linarith

end RealLemmas

/-! ## Properties of the arc kernel -/

section Claims

open Real

/-- C2: for every arc (any angle1, angle2 and reversed flag) `getAngleLength` lies in
`(0, 2π]`, and a sweep within `RS_TOLERANCE_ANGLE` of a whole number of turns (zero or a full
turn in particular) is reported as exactly `2π`. -/
theorem getAngleLength_range (t t2 ta : ℝ) (hta : 0 < ta) (hpi : ta ≤ π) (arc : RS_Arc ℝ) :
    0 < RS_Arc.getAngleLength (realEnv t t2 ta) arc ∧
      RS_Arc.getAngleLength (realEnv t t2 ta) arc ≤ 2 * π ∧
      ∀ k : ℤ, |rawSweep arc - k * (2 * π)| < ta →
        RS_Arc.getAngleLength (realEnv t t2 ta) arc = 2 * π := by
  have hp := Real.pi_pos
  obtain ⟨c0, c1, m, hm⟩ := correctAngle_real_spec t t2 ta (rawSweep arc)
  have epi : (realEnv t t2 ta).pi = π := rfl
  have etol : (realEnv t t2 ta).RS_TOLERANCE_ANGLE = ta := rfl
  have hdef : RS_Arc.getAngleLength (realEnv t t2 ta) arc
      = if |(realEnv t t2 ta).remainder (RS_Math.correctAngle (realEnv t t2 ta) (rawSweep arc))
            (2 * π)| < ta then 2 * π
        else RS_Math.correctAngle (realEnv t t2 ta) (rawSweep arc) := rfl
  rw [hdef]
  set c := RS_Math.correctAngle (realEnv t t2 ta) (rawSweep arc)
  refine ⟨?_, ?_, ?_⟩
  · split_ifs with h
    · positivity
    · rcases eq_or_lt_of_le c0 with h0 | h0
      · exfalso
        apply h
        rw [← h0, remainder_real_eq t t2 ta 0 0 (by simpa using hp)]
        simpa using hta
      · exact h0
  · split_ifs with h
    · exact le_rfl
    · exact c1.le
  · intro k hk
    have e : (realEnv t t2 ta).remainder c (2 * π) = c - ((k + m : ℤ) : ℝ) * (2 * π) := by
      apply remainder_real_eq
      have : c - ((k + m : ℤ) : ℝ) * (2 * π) = rawSweep arc - k * (2 * π) := by
        rw [hm]; push_cast; ring
      rw [this]
      exact lt_of_lt_of_le hk hpi
    rw [if_pos]
    rw [e]
    have : c - ((k + m : ℤ) : ℝ) * (2 * π) = rawSweep arc - k * (2 * π) := by
      rw [hm]; push_cast; ring
    rw [this]
    exact hk


theorem getAngleLength_range_witness :
    (0 : ℝ) < 1 / 10 ^ 8 ∧ (1 / 10 ^ 8 : ℝ) ≤ π ∧
      (0 < RS_Arc.getAngleLength stdEnv sampleArc ∧
        RS_Arc.getAngleLength stdEnv sampleArc ≤ 2 * π ∧
        ∀ k : ℤ, |rawSweep sampleArc - k * (2 * π)| < 1 / 10 ^ 8 →
          RS_Arc.getAngleLength stdEnv sampleArc = 2 * π) :=
  ⟨by norm_num, by have := Real.pi_gt_three; norm_num; linarith,
    getAngleLength_range (1 / 10 ^ 10) (1 / 10 ^ 20) (1 / 10 ^ 8) (by norm_num)
      (by have := Real.pi_gt_three; norm_num; linarith) sampleArc⟩

/-- C4: for collinear `p1`, `p2`, `p3` (cross product zero, so also when two of them coincide)
`createFrom3P` returns false and the arc, every field and cache of it, is exactly what it was
before the call. -/
theorem createFrom3P_collinear_fails {K : Type} [LinearOrderedField K] (E : Env K)
    (htol : 0 < E.RS_TOLERANCE2) (arc : RS_Arc K) (p1 p2 p3 : RS_Vector K)
    (hc : cross3 p1 p2 p3 = 0) :
    RS_Arc.createFrom3P E arc p1 p2 p3 = (false, arc) := by
  unfold cross3 at hc
  simp only [RS_Arc.createFrom3P, RS_Vector.sub, hc, abs_zero, htol, if_true]

theorem createFrom3P_collinear_fails_witness :
    (0 : ℝ) < stdEnv.RS_TOLERANCE2 ∧ cross3 (pt (0 : ℝ) 0) (pt 1 1) (pt 2 2) = 0 ∧
      RS_Arc.createFrom3P stdEnv sampleArc (pt 0 0) (pt 1 1) (pt 2 2) = (false, sampleArc) :=
  ⟨by norm_num [stdEnv, realEnv], by norm_num [cross3, pt, RS_Vector.mk2],
    createFrom3P_collinear_fails stdEnv (by norm_num [stdEnv, realEnv]) sampleArc _ _ _
      (by norm_num [cross3, pt, RS_Vector.mk2])⟩


/-- C3: for non-collinear points (`|cross(p2-p1, p3-p1)| ≥ RS_TOLERANCE2`) `createFrom3P`
returns true and the installed circle passes through all three points: the distances from the
new center to `p1`, `p2` and `p3` all equal the new radius. -/
theorem createFrom3P_circumcircle (t t2 ta : ℝ) (ht2 : 0 < t2) (arc : RS_Arc ℝ)
    (p1 p2 p3 : RS_Vector ℝ) (h : t2 ≤ |cross3 p1 p2 p3|) :
    (RS_Arc.createFrom3P (realEnv t t2 ta) arc p1 p2 p3).1 = true ∧
      RS_Vector.distanceTo (realEnv t t2 ta)
        (RS_Arc.createFrom3P (realEnv t t2 ta) arc p1 p2 p3).2.data.center p1
        = (RS_Arc.createFrom3P (realEnv t t2 ta) arc p1 p2 p3).2.data.radius ∧
      RS_Vector.distanceTo (realEnv t t2 ta)
        (RS_Arc.createFrom3P (realEnv t t2 ta) arc p1 p2 p3).2.data.center p2
        = (RS_Arc.createFrom3P (realEnv t t2 ta) arc p1 p2 p3).2.data.radius ∧
      RS_Vector.distanceTo (realEnv t t2 ta)
        (RS_Arc.createFrom3P (realEnv t t2 ta) arc p1 p2 p3).2.data.center p3
        = (RS_Arc.createFrom3P (realEnv t t2 ta) arc p1 p2 p3).2.data.radius := by
  have hc : cross3 p1 p2 p3 ≠ 0 := by
    intro h0
    rw [h0, abs_zero] at h
    linarith
  have hng : ¬ |(p2.x - p1.x) * (p3.y - p1.y) - (p2.y - p1.y) * (p3.x - p1.x)| < t2 :=
    not_lt.mpr h
  unfold cross3 at hc
  have etol : (realEnv t t2 ta).RS_TOLERANCE2 = t2 := rfl
  have esq : (realEnv t t2 ta).sqrt = Real.sqrt := rfl
  simp only [RS_Arc.createFrom3P, RS_Vector.sub, etol, hng, if_false, RS_Vector.distanceTo,
    RS_Vector.magnitude, RS_Vector.addAssign, RS_Vector.mk2, RS_Vector.squared, esq, true_and]
  refine ⟨?_, ?_, ?_⟩
  · congr 1
    ring
  · congr 1
    field_simp
    ring
  · congr 1
    field_simp
    ring


theorem createFrom3P_circumcircle_witness :
    (0 : ℝ) < 1 / 10 ^ 20 ∧ (1 / 10 ^ 20 : ℝ) ≤ |cross3 (pt (0 : ℝ) 0) (pt 1 1) (pt 2 0)| ∧
      (RS_Arc.createFrom3P stdEnv sampleArc (pt 0 0) (pt 1 1) (pt 2 0)).2.data.center = pt 1 0 ∧
      (RS_Arc.createFrom3P stdEnv sampleArc (pt 0 0) (pt 1 1) (pt 2 0)).2.data.radius = 1 ∧
      ((RS_Arc.createFrom3P stdEnv sampleArc (pt 0 0) (pt 1 1) (pt 2 0)).1 = true ∧
        RS_Vector.distanceTo stdEnv
          (RS_Arc.createFrom3P stdEnv sampleArc (pt 0 0) (pt 1 1) (pt 2 0)).2.data.center (pt 0 0)
          = (RS_Arc.createFrom3P stdEnv sampleArc (pt 0 0) (pt 1 1) (pt 2 0)).2.data.radius ∧
        RS_Vector.distanceTo stdEnv
          (RS_Arc.createFrom3P stdEnv sampleArc (pt 0 0) (pt 1 1) (pt 2 0)).2.data.center (pt 1 1)
          = (RS_Arc.createFrom3P stdEnv sampleArc (pt 0 0) (pt 1 1) (pt 2 0)).2.data.radius ∧
        RS_Vector.distanceTo stdEnv
          (RS_Arc.createFrom3P stdEnv sampleArc (pt 0 0) (pt 1 1) (pt 2 0)).2.data.center (pt 2 0)
          = (RS_Arc.createFrom3P stdEnv sampleArc (pt 0 0) (pt 1 1) (pt 2 0)).2.data.radius) := by
  have hcr : (1 / 10 ^ 20 : ℝ) ≤ |cross3 (pt (0 : ℝ) 0) (pt 1 1) (pt 2 0)| := by
    norm_num [cross3, pt, RS_Vector.mk2]
  exact ⟨by norm_num, hcr, (createFrom3P_scenario sampleArc).2.1,
    (createFrom3P_scenario sampleArc).2.2,
    createFrom3P_circumcircle (1 / 10 ^ 10) (1 / 10 ^ 20) (1 / 10 ^ 8) (by norm_num) sampleArc
      _ _ _ hcr⟩

/-- C1 (violated by `createFrom3P`): starting from the consistent sample arc, the successful
call `createFrom3P((0,0),(1,1),(2,0))` installs center `(1,0)` and radius 1 but keeps the cached
start point `(1,0)` of the old arc, so the arc it returns with is not cache-consistent. -/
theorem createFrom3P_leaves_stale_caches :
    CacheConsistent stdEnv sampleArc ∧
      (RS_Arc.createFrom3P stdEnv sampleArc (pt 0 0) (pt 1 1) (pt 2 0)).1 = true ∧
      (RS_Arc.createFrom3P stdEnv sampleArc (pt 0 0) (pt 1 1) (pt 2 0)).2.m_startPoint
        = sampleArc.m_startPoint ∧
      ¬ CacheConsistent stdEnv
        (RS_Arc.createFrom3P stdEnv sampleArc (pt 0 0) (pt 1 1) (pt 2 0)).2 := by
  obtain ⟨hs, hc, hr⟩ := createFrom3P_scenario sampleArc
  obtain ⟨hsp, -, -⟩ := createFrom3P_caches stdEnv sampleArc (pt 0 0) (pt 1 1) (pt 2 0)
  refine ⟨calculateBorders_consistent stdEnv _, hs, hsp, ?_⟩
  rintro ⟨h, -, -⟩
  rw [hsp, hc, hr, sampleArc_startPoint] at h
  generalize (RS_Arc.createFrom3P stdEnv sampleArc (pt 0 0) (pt 1 1) (pt 2 0)).2.data.angle1
    = θ at h
  have hx := congrArg RS_Vector.x h
  have hy := congrArg RS_Vector.y h
  simp only [RS_Vector.relative, RS_Vector.add, RS_Vector.polar, pt, RS_Vector.mk2, stdEnv_eq,
    realEnv_cos, realEnv_sin, one_mul, zero_add] at hx hy
  have hcs := Real.sin_sq_add_cos_sq θ
  have hcos : Real.cos θ = 0 := by linarith
  rw [hcos, ← hy] at hcs
  norm_num at hcs

/-- C9 (as amended): `createFrom2PDirectionAngle` returns false and leaves the arc unchanged
whenever `angleLength ≤ RS_TOLERANCE_ANGLE` or `angleLength > 2π - RS_TOLERANCE_ANGLE`; the
upper bound is strict. -/
theorem createFrom2PDirectionAngle_guard {K : Type} [LinearOrderedField K] (E : Env K)
    (arc : RS_Arc K) (startPoint endPoint : RS_Vector K) (direction1 angleLength : K)
    (h : angleLength ≤ E.RS_TOLERANCE_ANGLE ∨ angleLength > 2 * E.pi - E.RS_TOLERANCE_ANGLE) :
    RS_Arc.createFrom2PDirectionAngle E arc startPoint endPoint direction1 angleLength
      = (false, arc) := by
  unfold RS_Arc.createFrom2PDirectionAngle
  rw [if_pos h]

theorem createFrom2PDirectionAngle_guard_witness :
    ((7 : ℝ) ≤ stdEnv.RS_TOLERANCE_ANGLE ∨ (7 : ℝ) > 2 * stdEnv.pi - stdEnv.RS_TOLERANCE_ANGLE) ∧
      RS_Arc.createFrom2PDirectionAngle stdEnv sampleArc (pt 0 0) (pt 1 0) 0 7
        = (false, sampleArc) := by
  have h : (7 : ℝ) ≤ stdEnv.RS_TOLERANCE_ANGLE
      ∨ (7 : ℝ) > 2 * stdEnv.pi - stdEnv.RS_TOLERANCE_ANGLE := by
    right
    have := Real.pi_lt_d2
    simp only [stdEnv, realEnv]
    norm_num
    linarith
  exact ⟨h, createFrom2PDirectionAngle_guard stdEnv sampleArc (pt 0 0) (pt 1 0) 0 7 h⟩

/-- C10 (violated by the code): `createFrom2PDirectionRadius` returns true with an end point
too far away (start `(0,0)`, end `(10,0)`, radius 1) and with radius 0, where its documentation
promises false. -/
theorem createFrom2PDirectionRadius_never_fails :
    (RS_Arc.createFrom2PDirectionRadius stdEnv sampleArc (pt 0 0) (pt 10 0) 0 1).1 = true ∧
      (RS_Arc.createFrom2PDirectionRadius stdEnv sampleArc (pt 0 0) (pt 10 0) 0 0).1 = true ∧
      (RS_Arc.createFrom2PDirectionRadius stdEnv sampleArc (pt 0 0) (pt 10 0) 0 1).2.data.radius
        = 1 :=
  ⟨rfl, rfl, by simp [RS_Arc.createFrom2PDirectionRadius, RS_Arc.calculateBorders,
    RS_Arc.updateLength, RS_Arc.updateMiddlePoint]; split_ifs <;> rfl⟩


/-- C7: for distinct defined points `p1`, `p2` and a bulge other than 0, `createFrom2PBulge`
returns true with `reversed = (bulge < 0)`, radius `|(|p2 - p1| / 2) / sin(2 atan bulge)|`, a
center on the perpendicular bisector of `p1 p2` at distance radius from both points, and the
cached start and end points are `p1` and `p2`. -/
theorem createFrom2PBulge_spec (t t2 ta : ℝ) (arc : RS_Arc ℝ) (p1 p2 : RS_Vector ℝ) (b : ℝ)
    (hv1 : p1.valid = true) (hv2 : p2.valid = true) (hne : p1.x ≠ p2.x ∨ p1.y ≠ p2.y)
    (hb : b ≠ 0) :
    (RS_Arc.createFrom2PBulge (realEnv t t2 ta) arc p1 p2 b).1 = true ∧
      (RS_Arc.createFrom2PBulge (realEnv t t2 ta) arc p1 p2 b).2.data.reversed
        = decide (b < 0) ∧
      (RS_Arc.createFrom2PBulge (realEnv t t2 ta) arc p1 p2 b).2.data.radius
        = |RS_Vector.distanceTo (realEnv t t2 ta) p1 p2 / 2 / Real.sin (2 * Real.arctan b)| ∧
      RS_Vector.distanceTo (realEnv t t2 ta)
        (RS_Arc.createFrom2PBulge (realEnv t t2 ta) arc p1 p2 b).2.data.center p1
        = (RS_Arc.createFrom2PBulge (realEnv t t2 ta) arc p1 p2 b).2.data.radius ∧
      RS_Vector.distanceTo (realEnv t t2 ta)
        (RS_Arc.createFrom2PBulge (realEnv t t2 ta) arc p1 p2 b).2.data.center p2
        = (RS_Arc.createFrom2PBulge (realEnv t t2 ta) arc p1 p2 b).2.data.radius ∧
      ((RS_Arc.createFrom2PBulge (realEnv t t2 ta) arc p1 p2 b).2.data.center.x
          - (p1.x + p2.x) / 2) * (p2.x - p1.x)
        + ((RS_Arc.createFrom2PBulge (realEnv t t2 ta) arc p1 p2 b).2.data.center.y
          - (p1.y + p2.y) / 2) * (p2.y - p1.y) = 0 ∧
      RS_Arc.getStartpoint (RS_Arc.createFrom2PBulge (realEnv t t2 ta) arc p1 p2 b).2 = p1 ∧
      RS_Arc.getEndpoint (RS_Arc.createFrom2PBulge (realEnv t t2 ta) arc p1 p2 b).2 = p2 := by
  obtain ⟨hr0, hp, hq, -, -⟩ := createFrom2PBulge_real_circle t t2 ta arc p1 p2 b hne hb
    _ _ rfl rfl
  obtain ⟨hcen, -⟩ := createFrom2PBulge_real_data t t2 ta arc p1 p2 b hne hb
  set A := (RS_Arc.createFrom2PBulge (realEnv t t2 ta) arc p1 p2 b).2 with hA
  have hdist : ∀ p : RS_Vector ℝ,
      (p.x - A.data.center.x) * (p.x - A.data.center.x)
        + (p.y - A.data.center.y) * (p.y - A.data.center.y) = A.data.radius * A.data.radius →
      RS_Vector.distanceTo (realEnv t t2 ta) A.data.center p = A.data.radius := by
    intro p h
    simp only [RS_Vector.distanceTo, RS_Vector.magnitude, RS_Vector.sub, realEnv_sqrt]
    have : (A.data.center.x - p.x) * (A.data.center.x - p.x)
        + (A.data.center.y - p.y) * (A.data.center.y - p.y) = A.data.radius * A.data.radius := by
      rw [← h]; ring
    rw [this]
    exact Real.sqrt_mul_self hr0.le
  refine ⟨rfl, rfl, ?_, hdist p1 hp, hdist p2 hq, ?_, ?_, ?_⟩
  · have e : 2 * Real.arctan b = Real.arctan b * 4 / 2 := by ring
    rw [e]
    rfl
  · rw [hcen]
    ring
  · have h := relative_angleTo_real t t2 ta A.data.center p1 A.data.radius hr0 hp
    have hsp : RS_Arc.getStartpoint A
        = RS_Vector.relative (realEnv t t2 ta) A.data.center A.data.radius
            (RS_Vector.angleTo (realEnv t t2 ta) A.data.center p1) := rfl
    rw [hsp, h]
    cases p1
    simp only at hv1
    rw [hv1]
  · have h := relative_angleTo_real t t2 ta A.data.center p2 A.data.radius hr0 hq
    have hep : RS_Arc.getEndpoint A
        = RS_Vector.relative (realEnv t t2 ta) A.data.center A.data.radius
            (RS_Vector.angleTo (realEnv t t2 ta) A.data.center p2) := rfl
    rw [hep, h]
    cases p2
    simp only at hv2
    rw [hv2]

/-- C6 (as amended): for distinct points and a bulge other than 0 whose sweep
`4 atan |bulge|` is not within `RS_TOLERANCE_ANGLE` of zero or of a full turn, `getBulge` after
`createFrom2PBulge` gives back the bulge, and `tan(getAngleLength / 4) = |bulge|`. -/
theorem createFrom2PBulge_getBulge_roundtrip (t t2 ta : ℝ) (hta : 0 < ta) (arc : RS_Arc ℝ)
    (p1 p2 : RS_Vector ℝ) (b : ℝ) (hne : p1.x ≠ p2.x ∨ p1.y ≠ p2.y) (hb : b ≠ 0)
    (h0 : ta ≤ 4 * Real.arctan |b|) (h1 : 4 * Real.arctan |b| ≤ 2 * π - ta) :
    RS_Arc.getBulge (realEnv t t2 ta)
        (RS_Arc.createFrom2PBulge (realEnv t t2 ta) arc p1 p2 b).2 = b ∧
      Real.tan (RS_Arc.getAngleLength (realEnv t t2 ta)
        (RS_Arc.createFrom2PBulge (realEnv t t2 ta) arc p1 p2 b).2 / 4) = |b| := by
  have hlen := createFrom2PBulge_real_angleLength t t2 ta arc p1 p2 b hne hb hta h0 h1
  have hrev : (RS_Arc.createFrom2PBulge (realEnv t t2 ta) arc p1 p2 b).2.data.reversed
      = decide (b < 0) := rfl
  have hpos : 0 < 4 * Real.arctan |b| := by linarith
  have e : 4 * Real.arctan |b| / 4 = Real.arctan |b| := by ring
  refine ⟨?_, ?_⟩
  · unfold RS_Arc.getBulge
    simp only [hlen, hrev, realEnv_tan, abs_of_pos hpos, e, Real.tan_arctan]
    rcases lt_or_gt_of_ne hb with h | h
    · simp only [h, decide_True, if_true, abs_of_neg h, neg_neg]
    · have hnb : ¬ b < 0 := not_lt.mpr h.le
      simp only [hnb, decide_False, Bool.false_eq_true, if_false, abs_of_pos h]
  · rw [hlen, e, Real.tan_arctan]

theorem createFrom2PBulge_getBulge_roundtrip_witness :
    (0 : ℝ) < 1 / 10 ^ 8 ∧ ((pt (0 : ℝ) 0).x ≠ (pt (10 : ℝ) 0).x ∨
        (pt (0 : ℝ) 0).y ≠ (pt (10 : ℝ) 0).y) ∧ (1 : ℝ) ≠ 0 ∧
      (1 / 10 ^ 8 : ℝ) ≤ 4 * Real.arctan |1| ∧ 4 * Real.arctan |1| ≤ 2 * π - 1 / 10 ^ 8 ∧
      RS_Arc.getBulge stdEnv (RS_Arc.createFrom2PBulge stdEnv sampleArc (pt 0 0) (pt 10 0) 1).2
        = 1 := by
  have hp := Real.pi_gt_three
  have hne : (pt (0 : ℝ) 0).x ≠ (pt (10 : ℝ) 0).x ∨ (pt (0 : ℝ) 0).y ≠ (pt (10 : ℝ) 0).y := by
    left; norm_num [pt, RS_Vector.mk2]
  have e : 4 * Real.arctan |1| = π := by
    rw [abs_one, Real.arctan_one]; ring
  have h0 : (1 / 10 ^ 8 : ℝ) ≤ 4 * Real.arctan |1| := by rw [e]; norm_num; linarith
  have h1 : 4 * Real.arctan |1| ≤ 2 * π - 1 / 10 ^ 8 := by rw [e]; norm_num; linarith
  exact ⟨by norm_num, hne, one_ne_zero, h0, h1,
    (createFrom2PBulge_getBulge_roundtrip (1 / 10 ^ 10) (1 / 10 ^ 20) (1 / 10 ^ 8) (by norm_num)
      sampleArc (pt 0 0) (pt 10 0) 1 hne one_ne_zero h0 h1).1⟩

/-- C6 (counterexample): between `(0,0)` and `(10,0)`, the tiny bulge `1e-9` has a sweep
`4 atan(1e-9)` below the angle tolerance `1e-8` and the huge bulge `1e9` a sweep closer than
`1e-8` to a full turn; in both cases `getAngleLength` reports the full circle `2π`, and
`getBulge` does not give back the bulge (for `1e9` it is off by more than 1). -/
theorem createFrom2PBulge_roundtrip_fails :
    (RS_Arc.getAngleLength stdEnv
        (RS_Arc.createFrom2PBulge stdEnv sampleArc (pt 0 0) (pt 10 0) (1 / 10 ^ 9)).2 = 2 * π ∧
      RS_Arc.getBulge stdEnv
        (RS_Arc.createFrom2PBulge stdEnv sampleArc (pt 0 0) (pt 10 0) (1 / 10 ^ 9)).2
        ≠ 1 / 10 ^ 9) ∧
      (RS_Arc.getAngleLength stdEnv
        (RS_Arc.createFrom2PBulge stdEnv sampleArc (pt 0 0) (pt 10 0) (10 ^ 9)).2 = 2 * π ∧
      1 < |RS_Arc.getBulge stdEnv
        (RS_Arc.createFrom2PBulge stdEnv sampleArc (pt 0 0) (pt 10 0) (10 ^ 9)).2 - 10 ^ 9|) := by
  have hp := Real.pi_gt_three
  have hne : (pt (0 : ℝ) 0).x ≠ (pt (10 : ℝ) 0).x ∨ (pt (0 : ℝ) 0).y ≠ (pt (10 : ℝ) 0).y := by
    left; norm_num [pt, RS_Vector.mk2]
  have hb : (1 / 10 ^ 9 : ℝ) ≠ 0 := by norm_num
  have hB : (10 ^ 9 : ℝ) ≠ 0 := by norm_num
  have hat := arctan_lt_self_of_pos (1 / 10 ^ 9) (by norm_num)
  have hsmall : 4 * Real.arctan |(1 / 10 ^ 9 : ℝ)| < 1 / 10 ^ 8 := by
    rw [abs_of_pos (by norm_num : (0 : ℝ) < 1 / 10 ^ 9)]
    norm_num at hat ⊢
    linarith
  have hlarge : 2 * π - 1 / 10 ^ 8 < 4 * Real.arctan |(10 ^ 9 : ℝ)| := by
    rw [abs_of_pos (by norm_num : (0 : ℝ) < 10 ^ 9)]
    have hinv := Real.arctan_inv_of_pos (by norm_num : (0 : ℝ) < 10 ^ 9)
    have e : ((10 : ℝ) ^ 9)⁻¹ = 1 / 10 ^ 9 := by norm_num
    rw [e] at hinv
    norm_num at hat hinv ⊢
    linarith
  have hlen := createFrom2PBulge_real_promoted (1 / 10 ^ 10) (1 / 10 ^ 20) (1 / 10 ^ 8)
    sampleArc (pt 0 0) (pt 10 0) (1 / 10 ^ 9) hne hb (by norm_num; linarith) hsmall
  have hLen := createFrom2PBulge_real_promoted_high (1 / 10 ^ 10) (1 / 10 ^ 20) (1 / 10 ^ 8)
    sampleArc (pt 0 0) (pt 10 0) (10 ^ 9) hne hB (by norm_num; linarith) hlarge
  have hlen' : RS_Arc.getAngleLength stdEnv
      (RS_Arc.createFrom2PBulge stdEnv sampleArc (pt 0 0) (pt 10 0) (1 / 10 ^ 9)).2 = 2 * π :=
    hlen
  have hLen' : RS_Arc.getAngleLength stdEnv
      (RS_Arc.createFrom2PBulge stdEnv sampleArc (pt 0 0) (pt 10 0) (10 ^ 9)).2 = 2 * π :=
    hLen
  have hrev : (RS_Arc.createFrom2PBulge stdEnv sampleArc (pt 0 0) (pt 10 0)
      (1 / 10 ^ 9)).2.data.reversed = decide ((1 / 10 ^ 9 : ℝ) < 0) := rfl
  have hRev : (RS_Arc.createFrom2PBulge stdEnv sampleArc (pt 0 0) (pt 10 0)
      (10 ^ 9)).2.data.reversed = decide ((10 ^ 9 : ℝ) < 0) := rfl
  have hnb : ¬ (1 / 10 ^ 9 : ℝ) < 0 := by norm_num
  have hnB : ¬ (10 ^ 9 : ℝ) < 0 := by norm_num
  have e : |2 * π| / 4 = π / 2 := by
    rw [abs_of_pos (by positivity)]; ring
  have htan : stdEnv.tan = Real.tan := rfl
  refine ⟨⟨hlen', ?_⟩, hLen', ?_⟩
  · unfold RS_Arc.getBulge
    simp only [hlen', hrev, hnb, decide_False, Bool.false_eq_true, if_false, e, htan,
      Real.tan_pi_div_two]
    norm_num
  · unfold RS_Arc.getBulge
    simp only [hLen', hRev, hnB, decide_False, Bool.false_eq_true, if_false, e, htan,
      Real.tan_pi_div_two]
    norm_num

theorem createFrom2PBulge_spec_witness :
    (pt (0 : ℝ) 0).valid = true ∧ (pt (10 : ℝ) 0).valid = true ∧
      ((pt (0 : ℝ) 0).x ≠ (pt (10 : ℝ) 0).x ∨ (pt (0 : ℝ) 0).y ≠ (pt (10 : ℝ) 0).y) ∧
      (1 : ℝ) ≠ 0 ∧
      (RS_Arc.createFrom2PBulge stdEnv sampleArc (pt 0 0) (pt 10 0) 1).2.data.radius = 5 ∧
      (RS_Arc.createFrom2PBulge stdEnv sampleArc (pt 0 0) (pt 10 0) 1).2.data.center = pt 5 0 ∧
      RS_Arc.getAngleLength stdEnv
        (RS_Arc.createFrom2PBulge stdEnv sampleArc (pt 0 0) (pt 10 0) 1).2 = π ∧
      RS_Arc.getStartpoint (RS_Arc.createFrom2PBulge stdEnv sampleArc (pt 0 0) (pt 10 0) 1).2
        = pt 0 0 ∧
      RS_Arc.getEndpoint (RS_Arc.createFrom2PBulge stdEnv sampleArc (pt 0 0) (pt 10 0) 1).2
        = pt 10 0 := by
  have hp := Real.pi_gt_three
  have hne : (pt (0 : ℝ) 0).x ≠ (pt (10 : ℝ) 0).x ∨ (pt (0 : ℝ) 0).y ≠ (pt (10 : ℝ) 0).y := by
    left; norm_num [pt, RS_Vector.mk2]
  have e : 4 * Real.arctan |1| = π := by
    rw [abs_one, Real.arctan_one]; ring
  have h0 : (1 / 10 ^ 8 : ℝ) ≤ 4 * Real.arctan |1| := by rw [e]; norm_num; linarith
  have h1 : 4 * Real.arctan |1| ≤ 2 * π - 1 / 10 ^ 8 := by rw [e]; norm_num; linarith
  have hγ : Real.arctan 1 * 4 / 2 = π / 2 := by rw [Real.arctan_one]; ring
  have hL : Real.sqrt (((pt (0 : ℝ) 0).x - (pt (10 : ℝ) 0).x) * ((pt (0 : ℝ) 0).x
      - (pt (10 : ℝ) 0).x) + ((pt (0 : ℝ) 0).y - (pt (10 : ℝ) 0).y) * ((pt (0 : ℝ) 0).y
      - (pt (10 : ℝ) 0).y)) = 10 := by
    have : ((pt (0 : ℝ) 0).x - (pt (10 : ℝ) 0).x) * ((pt (0 : ℝ) 0).x - (pt (10 : ℝ) 0).x)
        + ((pt (0 : ℝ) 0).y - (pt (10 : ℝ) 0).y) * ((pt (0 : ℝ) 0).y - (pt (10 : ℝ) 0).y)
        = 10 * 10 := by norm_num [pt, RS_Vector.mk2]
    rw [this]
    exact Real.sqrt_mul_self (by norm_num)
  obtain ⟨hcen, hrad⟩ := createFrom2PBulge_real_data (1 / 10 ^ 10) (1 / 10 ^ 20) (1 / 10 ^ 8)
    sampleArc (pt 0 0) (pt 10 0) 1 hne one_ne_zero
  rw [hγ, Real.cos_pi_div_two] at hcen
  rw [hγ, Real.sin_pi_div_two, hL] at hrad
  have hlen := createFrom2PBulge_real_angleLength (1 / 10 ^ 10) (1 / 10 ^ 20) (1 / 10 ^ 8)
    sampleArc (pt 0 0) (pt 10 0) 1 hne one_ne_zero (by norm_num) h0 h1
  rw [e] at hlen
  have hspec := createFrom2PBulge_spec (1 / 10 ^ 10) (1 / 10 ^ 20) (1 / 10 ^ 8) sampleArc
    (pt 0 0) (pt 10 0) 1 rfl rfl hne one_ne_zero
  refine ⟨rfl, rfl, hne, one_ne_zero, ?_, ?_, hlen, hspec.2.2.2.2.2.2.1, hspec.2.2.2.2.2.2.2⟩
  · rw [stdEnv_eq, hrad]; norm_num
  · rw [stdEnv_eq, hcen]; norm_num [pt, RS_Vector.mk2]


/-- C9 (counterexample): at `angleLength = 2π - RS_TOLERANCE_ANGLE` exactly, the upper bound
the claim calls inclusive, the call from `(0,0)` to `(1,0)` with start direction
`-angleLength / 2` is not rejected: it returns true. -/
theorem createFrom2PDirectionAngle_upper_bound_accepted :
    (2 * π - 1 / 10 ^ 8 : ℝ) ≥ 2 * stdEnv.pi - stdEnv.RS_TOLERANCE_ANGLE ∧
      (RS_Arc.createFrom2PDirectionAngle stdEnv sampleArc (pt 0 0) (pt 1 0)
        (-((1 / 2) * (2 * π - 1 / 10 ^ 8))) (2 * π - 1 / 10 ^ 8)).1 = true := by
  have hp := Real.pi_gt_three
  refine ⟨le_of_eq rfl, ?_⟩
  have hguard : ¬ ((2 * π - 1 / 10 ^ 8 : ℝ) ≤ stdEnv.RS_TOLERANCE_ANGLE
      ∨ (2 * π - 1 / 10 ^ 8 : ℝ) > 2 * stdEnv.pi - stdEnv.RS_TOLERANCE_ANGLE) := by
    rw [stdEnv_eq, realEnv_pi, realEnv_tolA]
    push_neg
    constructor
    · norm_num; linarith
    · exact le_rfl
  set a : ℝ := 2 * π - 1 / 10 ^ 8 with ha
  have hhalf0 : 0 < (1 / 2) * a := by rw [ha]; norm_num; linarith
  have hhalf1 : (1 / 2) * a < π := by rw [ha]; norm_num; linarith
  have hS : 0 < Real.sin ((1 / 2) * a) := Real.sin_pos_of_pos_of_lt_pi hhalf0 hhalf1
  have hcs := Real.cos_sq_add_sin_sq ((1 / 2) * a)
  have hL0 : RS_Line.rotate stdEnv
      ⟨pt 0 0, RS_Vector.sub (pt 0 0) (RS_Vector.ofAngle stdEnv (-((1 / 2) * a)))⟩ (pt 0 0)
        ((1 / 2) * a)
      = ⟨⟨0, 0, true⟩, ⟨-1, 0, true⟩⟩ := by
    simp only [RS_Line.rotate, RS_Vector.rotateAbout, RS_Vector.rotateBy, RS_Vector.sub,
      RS_Vector.add, RS_Vector.ofAngle, pt, RS_Vector.mk2, stdEnv_eq, realEnv_cos, realEnv_sin,
      Real.cos_neg, Real.sin_neg]
    congr 1
    · congr 1 <;> ring
    · congr 1
      · nlinarith
      · ring
  have hn0 : RS_Line.getNearestPointOnEntity stdEnv
      (⟨⟨0, 0, true⟩, ⟨-1, 0, true⟩⟩ : RS_Line ℝ) (pt 1 0) = (⟨1, 0, true⟩, 0) := by
    simp only [RS_Line.getNearestPointOnEntity, RS_Vector.sub, RS_Vector.add, RS_Vector.smul,
      RS_Vector.squared, RS_Vector.distanceTo, RS_Vector.magnitude, pt, RS_Vector.mk2,
      stdEnv_eq, realEnv_sqrt]
    norm_num
  have hn1 : ∀ l : RS_Line ℝ, ¬ (RS_Line.getNearestPointOnEntity stdEnv l (pt 1 0)).2 < 0 := by
    intro l
    simp only [RS_Line.getNearestPointOnEntity, RS_Vector.distanceTo, RS_Vector.magnitude,
      stdEnv_eq, realEnv_sqrt, not_lt]
    exact Real.sqrt_nonneg _
  have hmid : RS_Line.rotate stdEnv (⟨⟨0, 0, true⟩, ⟨-1, 0, true⟩⟩ : RS_Line ℝ)
      (RS_Vector.smul (RS_Vector.add (pt 0 0) ⟨1, 0, true⟩) (1 / 2)) (stdEnv.pi / 2)
      = ⟨⟨1 / 2, -1 / 2, true⟩, ⟨1 / 2, -3 / 2, true⟩⟩ := by
    simp only [RS_Line.rotate, RS_Vector.rotateAbout, RS_Vector.rotateBy, RS_Vector.sub,
      RS_Vector.add, RS_Vector.smul, RS_Vector.ofAngle, pt, RS_Vector.mk2, stdEnv_eq,
      realEnv_cos, realEnv_sin, realEnv_pi, Real.cos_pi_div_two, Real.sin_pi_div_two]
    norm_num
  unfold RS_Arc.createFrom2PDirectionAngle
  rw [if_neg hguard]
  simp only [hL0, hn0, hn1, if_false, hmid]
  split
  · rename_i heq
    exfalso
    simp only [RS_Line.getIntersection, RS_Vector.add, RS_Vector.ofAngle, pt, RS_Vector.mk2,
      stdEnv_eq, realEnv_cos, realEnv_sin, realEnv_pi, Real.cos_add_pi_div_two,
      Real.sin_add_pi_div_two, Real.cos_neg, Real.sin_neg] at heq
    split_ifs at heq with hdiv
    norm_num at hdiv
    linarith
  · rfl

/-- C11: with a reference point strictly inside the circle and a distance not below the radius,
`offset` returns false and the arc, data and caches, is exactly what it was. -/
theorem offset_inside_fails {K : Type} [LinearOrderedField K] (E : Env K)
    (htol : 0 < E.RS_TOLERANCE) (arc : RS_Arc K) (coord : RS_Vector K) (distance : K)
    (hin : RS_Vector.distanceTo E coord arc.data.center < arc.data.radius)
    (hd : arc.data.radius ≤ distance) :
    RS_Arc.offset E arc coord distance = (false, arc) := by
  have h1 : ¬ RS_Vector.distanceTo E coord arc.data.center > arc.data.radius := not_lt.mpr hin.le
  have h2 : arc.data.radius - |distance| < E.RS_TOLERANCE := by
    have := le_abs_self distance
    linarith
  simp only [RS_Arc.offset, h1, h2, if_false, if_true]

theorem offset_inside_fails_witness :
    (0 : ℝ) < stdEnv.RS_TOLERANCE ∧
      RS_Vector.distanceTo stdEnv (pt 0 0) sampleArc.data.center < sampleArc.data.radius ∧
      sampleArc.data.radius ≤ 1 ∧
      RS_Arc.offset stdEnv sampleArc (pt 0 0) 1 = (false, sampleArc) := by
  have h0 : (0 : ℝ) < stdEnv.RS_TOLERANCE := by norm_num [stdEnv_eq]
  have h1 : RS_Vector.distanceTo stdEnv (pt 0 0) sampleArc.data.center
      < sampleArc.data.radius := by
    simp [sampleArc, RS_Arc.new, RS_Arc.calculateBorders, RS_Arc.updateLength,
      RS_Arc.updateMiddlePoint, RS_Vector.distanceTo, RS_Vector.magnitude, RS_Vector.sub, pt,
      RS_Vector.mk2, stdEnv_eq]
  have h2 : sampleArc.data.radius ≤ 1 := le_of_eq rfl
  exact ⟨h0, h1, h2, offset_inside_fails stdEnv h0 sampleArc (pt 0 0) 1 h1 h2⟩

/-- C13 (violated by the code): `shear` aborts on its assertion only for a parameter that is not
a normal number; for the normal parameter 1 it returns normally, with the arc unchanged and not
sheared, while for the parameter 0 it aborts. -/
theorem shear_returns_for_normal_parameter :
    RS_Arc.shear sampleArc (1 : ℝ) = some sampleArc ∧ RS_Arc.shear sampleArc (0 : ℝ) = none := by
  constructor
  · simp [RS_Arc.shear, isnormal]
  · simp [RS_Arc.shear, isnormal]

/-- C19: in unbounded mode, for an arc of radius `r ≥ 0`, `getNearestPointOnEntity` returns the
radial projection `center + r (cos a, sin a)` with `a` the angle of `coord - center`, reports
the distance `| |coord - center| - r |`, and no point of the full circle is closer to `coord`. -/
theorem getNearestPointOnEntity_unbounded (t t2 ta : ℝ) (arc : RS_Arc ℝ) (coord : RS_Vector ℝ)
    (hr : 0 ≤ arc.data.radius) :
    (RS_Arc.getNearestPointOnEntity (realEnv t t2 ta) arc coord false).1.x
        = arc.data.center.x + arc.data.radius
          * Real.cos (RS_Vector.angle (realEnv t t2 ta) (RS_Vector.sub coord arc.data.center)) ∧
      (RS_Arc.getNearestPointOnEntity (realEnv t t2 ta) arc coord false).1.y
        = arc.data.center.y + arc.data.radius
          * Real.sin (RS_Vector.angle (realEnv t t2 ta) (RS_Vector.sub coord arc.data.center)) ∧
      (RS_Arc.getNearestPointOnEntity (realEnv t t2 ta) arc coord false).2
        = |RS_Vector.distanceTo (realEnv t t2 ta) coord arc.data.center - arc.data.radius| ∧
      ∀ θ : ℝ, (RS_Arc.getNearestPointOnEntity (realEnv t t2 ta) arc coord false).2
        ≤ RS_Vector.distanceTo (realEnv t t2 ta)
            (RS_Vector.relative (realEnv t t2 ta) arc.data.center arc.data.radius θ) coord := by
  obtain ⟨hux, huy⟩ := angle_real_unit t t2 ta (RS_Vector.sub coord arc.data.center)
  set a := RS_Vector.angle (realEnv t t2 ta) (RS_Vector.sub coord arc.data.center) with ha
  set r := arc.data.radius with hrdef
  set cx := arc.data.center.x with hcx
  set cy := arc.data.center.y with hcy
  have hvx : (RS_Vector.sub coord arc.data.center).x = coord.x - cx := rfl
  have hvy : (RS_Vector.sub coord arc.data.center).y = coord.y - cy := rfl
  rw [hvx, hvy] at hux huy
  set d := Real.sqrt ((coord.x - cx) * (coord.x - cx) + (coord.y - cy) * (coord.y - cy)) with hd
  have hd0 : 0 ≤ d := Real.sqrt_nonneg _
  have hdd : d * d = (coord.x - cx) * (coord.x - cx) + (coord.y - cy) * (coord.y - cy) :=
    Real.mul_self_sqrt (add_nonneg (mul_self_nonneg _) (mul_self_nonneg _))
  have hcs := Real.sin_sq_add_cos_sq a
  have hdist : (RS_Arc.getNearestPointOnEntity (realEnv t t2 ta) arc coord false).2
      = |d - r| := by
    simp only [RS_Arc.getNearestPointOnEntity, Bool.not_false, Bool.true_or, if_true,
      RS_Vector.distanceTo, RS_Vector.magnitude, RS_Vector.sub, RS_Vector.addAssign,
      RS_Vector.polar, realEnv_sqrt, realEnv_cos, realEnv_sin]
    rw [← Real.sqrt_sq_eq_abs]
    congr 1
    have e1 : r * Real.cos a + cx - coord.x = r * Real.cos a - d * Real.cos a := by
      rw [hux]; ring
    have e2 : r * Real.sin a + cy - coord.y = r * Real.sin a - d * Real.sin a := by
      rw [huy]; ring
    change (r * Real.cos a + cx - coord.x) * (r * Real.cos a + cx - coord.x)
      + (r * Real.sin a + cy - coord.y) * (r * Real.sin a + cy - coord.y) = (d - r) ^ 2
    rw [e1, e2]
    have : (r * Real.cos a - d * Real.cos a) * (r * Real.cos a - d * Real.cos a)
        + (r * Real.sin a - d * Real.sin a) * (r * Real.sin a - d * Real.sin a)
        = (d - r) ^ 2 * (Real.sin a ^ 2 + Real.cos a ^ 2) := by ring
    rw [this, hcs, mul_one]
  refine ⟨?_, ?_, ?_, ?_⟩
  · simp only [RS_Arc.getNearestPointOnEntity, Bool.not_false, Bool.true_or, if_true,
      RS_Vector.addAssign, RS_Vector.polar, realEnv_cos]
    ring
  · simp only [RS_Arc.getNearestPointOnEntity, Bool.not_false, Bool.true_or, if_true,
      RS_Vector.addAssign, RS_Vector.polar, realEnv_sin]
    ring
  · rw [hdist]
    simp only [RS_Vector.distanceTo, RS_Vector.magnitude, RS_Vector.sub, realEnv_sqrt]
  · intro θ
    rw [hdist]
    simp only [RS_Vector.distanceTo, RS_Vector.magnitude, RS_Vector.sub, RS_Vector.relative,
      RS_Vector.add, RS_Vector.polar, realEnv_sqrt, realEnv_cos, realEnv_sin]
    apply Real.abs_le_sqrt
    have hcsθ := Real.sin_sq_add_cos_sq θ
    have hdot : (coord.x - cx) * Real.cos θ + (coord.y - cy) * Real.sin θ ≤ d := by
      have h1 : ((coord.x - cx) * Real.cos θ + (coord.y - cy) * Real.sin θ) ^ 2 ≤ d * d := by
        rw [hdd]
        nlinarith [sq_nonneg ((coord.x - cx) * Real.sin θ - (coord.y - cy) * Real.cos θ)]
      have h2 := Real.abs_le_sqrt h1
      rw [Real.sqrt_mul_self hd0] at h2
      exact le_trans (le_abs_self _) h2
    have hprod := mul_le_mul_of_nonneg_left hdot hr
    change (d - r) ^ 2 ≤ (cx + r * Real.cos θ - coord.x) * (cx + r * Real.cos θ - coord.x)
      + (cy + r * Real.sin θ - coord.y) * (cy + r * Real.sin θ - coord.y)
    have hexp : (cx + r * Real.cos θ - coord.x) * (cx + r * Real.cos θ - coord.x)
        + (cy + r * Real.sin θ - coord.y) * (cy + r * Real.sin θ - coord.y)
        = r ^ 2 * (Real.sin θ ^ 2 + Real.cos θ ^ 2)
          - 2 * (r * ((coord.x - cx) * Real.cos θ + (coord.y - cy) * Real.sin θ))
          + ((coord.x - cx) * (coord.x - cx) + (coord.y - cy) * (coord.y - cy)) := by ring
    rw [hexp, hcsθ, ← hdd]
    nlinarith

theorem getNearestPointOnEntity_unbounded_witness :
    (0 : ℝ) ≤ sampleArc.data.radius ∧
      (RS_Arc.getNearestPointOnEntity stdEnv sampleArc (pt 3 0) false).2
        = |RS_Vector.distanceTo stdEnv (pt 3 0) sampleArc.data.center - sampleArc.data.radius| :=
  ⟨by simp [sampleArc, RS_Arc.new, RS_Arc.calculateBorders, RS_Arc.updateLength,
      RS_Arc.updateMiddlePoint],
    (getNearestPointOnEntity_unbounded (1 / 10 ^ 10) (1 / 10 ^ 20) (1 / 10 ^ 8) sampleArc
      (pt 3 0) (by simp [sampleArc, RS_Arc.new, RS_Arc.calculateBorders, RS_Arc.updateLength,
        RS_Arc.updateMiddlePoint])).2.2.1⟩

/-- C17 (as amended): for an arc with radius `r ≥ 0`, `r² ≥ RS_TOLERANCE2`, and a point `P` at
squared distance `c2` from the center, `getTangentPoint(P)` returns no solution when
`c2 < r² - 2 r RS_TOLERANCE`, exactly the point `P` inside the tolerance band, and for
`c2 > r² + 2 r RS_TOLERANCE` exactly two distinct solutions, mirror images of each other across
the line through center and `P`, when the squared tangent offset `r² (c2 - r²) / c2` exceeds
`RS_TOLERANCE2`, and exactly the point `P` otherwise. -/
theorem getTangentPoint_cases (t t2 ta : ℝ) (arc : RS_Arc ℝ) (P : RS_Vector ℝ) (r c2 : ℝ)
    (hrdef : r = arc.data.radius)
    (hc2def : c2 = RS_Vector.squared (RS_Vector.sub P arc.data.center))
    (hr : 0 ≤ r) (ht : 0 ≤ t) (ht2 : 0 ≤ t2) (hr2 : t2 ≤ r * r) :
    (c2 < r * r - r * 2 * t → RS_Arc.getTangentPoint (realEnv t t2 ta) arc P = []) ∧
    (r * r - r * 2 * t ≤ c2 → c2 ≤ r * r + r * 2 * t →
      RS_Arc.getTangentPoint (realEnv t t2 ta) arc P = [P]) ∧
    (r * r + r * 2 * t < c2 → r * r * (c2 - r * r) / c2 ≤ t2 →
      RS_Arc.getTangentPoint (realEnv t t2 ta) arc P = [P]) ∧
    (r * r + r * 2 * t < c2 → t2 < r * r * (c2 - r * r) / c2 →
      ∃ T1 T2 : RS_Vector ℝ, RS_Arc.getTangentPoint (realEnv t t2 ta) arc P = [T1, T2] ∧
        T1 ≠ T2 ∧ RS_Vector.mirror T1 arc.data.center P = T2) := by
  have hnear := getTangentPoint_near (realEnv t t2 ta) arc P
    (by rw [realEnv_tol2, ← hrdef]; exact hr2)
  rw [realEnv_tol, ← hrdef, ← hc2def] at hnear
  refine ⟨hnear.1, hnear.2, ?_, ?_⟩
  · intro hext hsmall
    exact (getTangentPoint_real_exterior t t2 ta arc P r c2 hrdef hc2def hr ht hr2 hext).2 hsmall
  · intro hext hbig
    have hrt : 0 ≤ r * 2 * t := by positivity
    have hc2pos : 0 < c2 := by nlinarith [mul_self_nonneg r]
    have hge : 0 ≤ c2 - r * r := by linarith
    have hc2' : c2 = (P.x - arc.data.center.x) * (P.x - arc.data.center.x)
        + (P.y - arc.data.center.y) * (P.y - arc.data.center.y) := hc2def
    have hoff := tangent_offset_sq (P.x - arc.data.center.x) (P.y - arc.data.center.y) r c2
      hc2' hc2pos hge
    refine ⟨_, _, (getTangentPoint_real_exterior t t2 ta arc P r c2 hrdef hc2def hr ht hr2
      hext).1 hbig, ?_, ?_⟩
    · intro heq
      have hx := congrArg RS_Vector.x heq
      have hy := congrArg RS_Vector.y heq
      simp only at hx hy
      have e1 : -(P.y - arc.data.center.y) * (r * Real.sqrt (c2 - r * r) / c2) = 0 := by
        linarith
      have e2 : (P.x - arc.data.center.x) * (r * Real.sqrt (c2 - r * r) / c2) = 0 := by
        linarith
      rw [e1, e2] at hoff
      simp only [mul_zero, add_zero] at hoff
      rw [← hoff] at hbig
      linarith
    · have hne : (P.x - arc.data.center.x) * (P.x - arc.data.center.x)
          + (P.y - arc.data.center.y) * (P.y - arc.data.center.y) ≠ 0 := by
        rw [← hc2']; exact hc2pos.ne'
      generalize r * Real.sqrt (c2 - r * r) / c2 = k
      simp only [RS_Vector.mirror, RS_Vector.sub, RS_Vector.add, RS_Vector.smul, RS_Vector.sdiv,
        RS_Vector.dotP, RS_Vector.squared]
      rw [hc2']
      congr 1
      · field_simp
        ring
      · field_simp
        ring

/-- C18 (as amended): when `getTangentPoint(P)` takes its tangent construction (radius `r ≥ 0`,
`r² ≥ RS_TOLERANCE2`, `P` beyond the tolerance band, `c2 = |P - center|² > r² + 2 r RS_TOLERANCE`,
and squared tangent offset `r² (c2 - r²) / c2` above `RS_TOLERANCE2`), every point `T` it returns
is a tangent point: `|T - center| = r`, `(T - center) . (T - P) = 0` and
`|T - P| = sqrt(|P - center|² - r²)`. -/
theorem getTangentPoint_tangent (t t2 ta : ℝ) (arc : RS_Arc ℝ) (P : RS_Vector ℝ) (r c2 : ℝ)
    (hrdef : r = arc.data.radius)
    (hc2def : c2 = RS_Vector.squared (RS_Vector.sub P arc.data.center))
    (hr : 0 ≤ r) (ht : 0 ≤ t) (hr2 : t2 ≤ r * r) (hext : r * r + r * 2 * t < c2)
    (hbig : t2 < r * r * (c2 - r * r) / c2) :
    ∀ T ∈ RS_Arc.getTangentPoint (realEnv t t2 ta) arc P,
      RS_Vector.distanceTo (realEnv t t2 ta) T arc.data.center = r ∧
        RS_Vector.dotP (RS_Vector.sub T arc.data.center) (RS_Vector.sub T P) = 0 ∧
        RS_Vector.distanceTo (realEnv t t2 ta) T P
          = Real.sqrt (RS_Vector.distanceTo (realEnv t t2 ta) P arc.data.center ^ 2 - r ^ 2) := by
  have hrt : 0 ≤ r * 2 * t := by positivity
  have hc2pos : 0 < c2 := by nlinarith [mul_self_nonneg r]
  have hge : 0 ≤ c2 - r * r := by linarith
  have hc2' : c2 = (P.x - arc.data.center.x) * (P.x - arc.data.center.x)
      + (P.y - arc.data.center.y) * (P.y - arc.data.center.y) := hc2def
  obtain ⟨hl, hk⟩ := tangent_constants r c2 hc2pos hge
  have hk' : (-(r * Real.sqrt (c2 - r * r) / c2)) * (-(r * Real.sqrt (c2 - r * r) / c2))
      * (c2 * c2) = r * r * (c2 - r * r) := by rw [neg_mul_neg]; exact hk
  have hd2 : RS_Vector.distanceTo (realEnv t t2 ta) P arc.data.center ^ 2 - r ^ 2
      = c2 - r * r := by
    simp only [RS_Vector.distanceTo, RS_Vector.magnitude, RS_Vector.sub, realEnv_sqrt]
    rw [Real.sq_sqrt (add_nonneg (mul_self_nonneg _) (mul_self_nonneg _)), ← hc2']
    ring
  rw [(getTangentPoint_real_exterior t t2 ta arc P r c2 hrdef hc2def hr ht hr2 hext).1 hbig,
    hd2]
  intro T hT
  simp only [List.mem_cons, List.mem_singleton, List.not_mem_nil, or_false] at hT
  rcases hT with hT | hT
  · obtain ⟨a1, a2, a3⟩ := tangent_point_algebra (P.x - arc.data.center.x)
      (P.y - arc.data.center.y) r c2 (r * r / c2) (r * Real.sqrt (c2 - r * r) / c2) hc2' hc2pos
      hl hk
    generalize r * Real.sqrt (c2 - r * r) / c2 = k at a1 a2 a3 hT
    generalize r * r / c2 = l at a1 a2 a3 hT
    rw [hT]
    simp only [RS_Vector.distanceTo, RS_Vector.magnitude, RS_Vector.sub, RS_Vector.dotP,
      realEnv_sqrt]
    refine ⟨?_, ?_, ?_⟩
    · rw [← Real.sqrt_mul_self hr]
      congr 1
      rw [← a1]; ring
    · rw [← a2]; ring
    · congr 1
      rw [← a3]; ring
  · obtain ⟨a1, a2, a3⟩ := tangent_point_algebra (P.x - arc.data.center.x)
      (P.y - arc.data.center.y) r c2 (r * r / c2) (-(r * Real.sqrt (c2 - r * r) / c2)) hc2'
      hc2pos hl hk'
    generalize r * Real.sqrt (c2 - r * r) / c2 = k at a1 a2 a3 hT
    generalize r * r / c2 = l at a1 a2 a3 hT
    rw [hT]
    simp only [RS_Vector.distanceTo, RS_Vector.magnitude, RS_Vector.sub, RS_Vector.dotP,
      realEnv_sqrt]
    refine ⟨?_, ?_, ?_⟩
    · rw [← Real.sqrt_mul_self hr]
      congr 1
      rw [← a1]; ring
    · rw [← a2]; ring
    · congr 1
      rw [← a3]; ring

theorem getTangentPoint_cases_witness :
    (1 : ℝ) = sampleArc.data.radius ∧
      (0 : ℝ) = RS_Vector.squared (RS_Vector.sub (pt 0 0) sampleArc.data.center) ∧
      (9 : ℝ) = RS_Vector.squared (RS_Vector.sub (pt 3 0) sampleArc.data.center) ∧
      (1 / 10 ^ 20 : ℝ) ≤ 1 * 1 ∧
      RS_Arc.getTangentPoint stdEnv sampleArc (pt 0 0) = [] ∧
      ∃ T1 T2 : RS_Vector ℝ, RS_Arc.getTangentPoint stdEnv sampleArc (pt 3 0) = [T1, T2] ∧
        T1 ≠ T2 ∧ RS_Vector.mirror T1 sampleArc.data.center (pt 3 0) = T2 := by
  have h0 : (0 : ℝ) = RS_Vector.squared (RS_Vector.sub (pt 0 0) sampleArc.data.center) := by
    rw [sampleArc_data]; norm_num [RS_Vector.squared, RS_Vector.sub, pt, RS_Vector.mk2]
  have h9 : (9 : ℝ) = RS_Vector.squared (RS_Vector.sub (pt 3 0) sampleArc.data.center) := by
    rw [sampleArc_data]; norm_num [RS_Vector.squared, RS_Vector.sub, pt, RS_Vector.mk2]
  refine ⟨rfl, h0, h9, by norm_num, ?_, ?_⟩
  · exact (getTangentPoint_cases (1 / 10 ^ 10) (1 / 10 ^ 20) (1 / 10 ^ 8) sampleArc (pt 0 0) 1 0
      rfl h0 (by norm_num) (by norm_num) (by norm_num) (by norm_num)).1 (by norm_num)
  · exact (getTangentPoint_cases (1 / 10 ^ 10) (1 / 10 ^ 20) (1 / 10 ^ 8) sampleArc (pt 3 0) 1 9
      rfl h9 (by norm_num) (by norm_num) (by norm_num) (by norm_num)).2.2.2 (by norm_num)
      (by norm_num)

/-- C17 (counterexample): for the arc of radius `1.2e-10` about the origin, whose squared radius
`1.44e-20` is not below `RS_TOLERANCE2`, the point `P = (2e-10, 0)` is exterior
(`|P|² = 4e-20 > r² + 2 r RS_TOLERANCE = 3.84e-20`), yet `getTangentPoint(P)` returns the single
point `P`, not two solutions. -/
theorem getTangentPoint_exterior_single :
    stdEnv.RS_TOLERANCE2 ≤ tinyArc.data.radius * tinyArc.data.radius ∧
      RS_Vector.squared (RS_Vector.sub (pt (2 / 10 ^ 10) 0) tinyArc.data.center)
        > tinyArc.data.radius * tinyArc.data.radius
          + 2 * tinyArc.data.radius * stdEnv.RS_TOLERANCE ∧
      RS_Arc.getTangentPoint stdEnv tinyArc (pt (2 / 10 ^ 10) 0) = [pt (2 / 10 ^ 10) 0] := by
  have hc2 : (4 / 10 ^ 20 : ℝ)
      = RS_Vector.squared (RS_Vector.sub (pt (2 / 10 ^ 10) 0) tinyArc.data.center) := by
    rw [tinyArc_data]; norm_num [RS_Vector.squared, RS_Vector.sub, pt, RS_Vector.mk2]
  refine ⟨?_, ?_, ?_⟩
  · rw [tinyArc_data, stdEnv_eq, realEnv_tol2]; norm_num
  · rw [← hc2, tinyArc_data, stdEnv_eq, realEnv_tol]; norm_num
  · exact (getTangentPoint_real_exterior (1 / 10 ^ 10) (1 / 10 ^ 20) (1 / 10 ^ 8) tinyArc
      (pt (2 / 10 ^ 10) 0) (12 / 10 ^ 11) (4 / 10 ^ 20) rfl hc2 (by norm_num) (by norm_num)
      (by norm_num) (by norm_num)).2 (by norm_num)

theorem getTangentPoint_tangent_witness :
    (1 : ℝ) = sampleArc.data.radius ∧
      (9 : ℝ) = RS_Vector.squared (RS_Vector.sub (pt 3 0) sampleArc.data.center) ∧
      ∀ T ∈ RS_Arc.getTangentPoint stdEnv sampleArc (pt 3 0),
        RS_Vector.distanceTo stdEnv T sampleArc.data.center = 1 ∧
          RS_Vector.dotP (RS_Vector.sub T sampleArc.data.center) (RS_Vector.sub T (pt 3 0)) = 0 ∧
          RS_Vector.distanceTo stdEnv T (pt 3 0)
            = Real.sqrt (RS_Vector.distanceTo stdEnv (pt 3 0) sampleArc.data.center ^ 2
                - 1 ^ 2) := by
  have h9 : (9 : ℝ) = RS_Vector.squared (RS_Vector.sub (pt 3 0) sampleArc.data.center) := by
    rw [sampleArc_data]; norm_num [RS_Vector.squared, RS_Vector.sub, pt, RS_Vector.mk2]
  exact ⟨rfl, h9, getTangentPoint_tangent (1 / 10 ^ 10) (1 / 10 ^ 20) (1 / 10 ^ 8) sampleArc
    (pt 3 0) 1 9 rfl h9 (by norm_num) (by norm_num) (by norm_num) (by norm_num) (by norm_num)⟩

/-- C18 (counterexample): for the unit sample arc the point `P = (1 + 1e-11, 0)` is exterior
(`|P - center| > 1`), lies inside the tolerance band, and `getTangentPoint(P)` returns `P`
itself, which is not on the circle. -/
theorem getTangentPoint_band_point_off_circle :
    sampleArc.data.radius
        < RS_Vector.distanceTo stdEnv (pt (1 + 1 / 10 ^ 11) 0) sampleArc.data.center ∧
      pt (1 + 1 / 10 ^ 11) 0 ∈ RS_Arc.getTangentPoint stdEnv sampleArc (pt (1 + 1 / 10 ^ 11) 0) ∧
      RS_Vector.distanceTo stdEnv (pt (1 + 1 / 10 ^ 11) 0) sampleArc.data.center
        ≠ sampleArc.data.radius := by
  have hd : RS_Vector.distanceTo stdEnv (pt (1 + 1 / 10 ^ 11) 0) sampleArc.data.center
      = 1 + 1 / 10 ^ 11 := by
    rw [sampleArc_data]
    simp only [RS_Vector.distanceTo, RS_Vector.magnitude, RS_Vector.sub, pt, RS_Vector.mk2,
      stdEnv_eq, realEnv_sqrt, sub_zero, mul_zero, add_zero]
    exact Real.sqrt_mul_self (by norm_num)
  have hr : sampleArc.data.radius = 1 := rfl
  have hlist : RS_Arc.getTangentPoint stdEnv sampleArc (pt (1 + 1 / 10 ^ 11) 0)
      = [pt (1 + 1 / 10 ^ 11) 0] := by
    apply (getTangentPoint_near stdEnv sampleArc (pt (1 + 1 / 10 ^ 11) 0) ?_).2
    · rw [sampleArc_data, stdEnv_eq, realEnv_tol]
      norm_num [RS_Vector.squared, RS_Vector.sub, pt, RS_Vector.mk2]
    · rw [sampleArc_data, stdEnv_eq, realEnv_tol]
      norm_num [RS_Vector.squared, RS_Vector.sub, pt, RS_Vector.mk2]
    · rw [sampleArc_data, stdEnv_eq, realEnv_tol2]; norm_num
  refine ⟨?_, ?_, ?_⟩
  · rw [hd, hr]; norm_num
  · rw [hlist]; exact List.mem_singleton_self _
  · rw [hd, hr]; norm_num

/-- C15: `move`, `rotate` (by an angle or by a direction vector) and `mirror` leave the radius
and `getAngleLength` unchanged; `move` keeps angle1, angle2 and reversed and translates the
center by exactly the offset; `rotate` keeps reversed and replaces each angle by the corrected
sum of the angle and the rotation angle. -/
theorem rigid_transforms_preserve_shape (t t2 ta : ℝ) (arc : RS_Arc ℝ)
    (offset center angleVector a1 a2 : RS_Vector ℝ) (ang : ℝ) :
    ((RS_Arc.move (realEnv t t2 ta) arc offset).data.radius = arc.data.radius ∧
      RS_Arc.getAngleLength (realEnv t t2 ta) (RS_Arc.move (realEnv t t2 ta) arc offset)
        = RS_Arc.getAngleLength (realEnv t t2 ta) arc ∧
      (RS_Arc.move (realEnv t t2 ta) arc offset).data.angle1 = arc.data.angle1 ∧
      (RS_Arc.move (realEnv t t2 ta) arc offset).data.angle2 = arc.data.angle2 ∧
      (RS_Arc.move (realEnv t t2 ta) arc offset).data.reversed = arc.data.reversed ∧
      (RS_Arc.move (realEnv t t2 ta) arc offset).data.center.x
        = arc.data.center.x + offset.x ∧
      (RS_Arc.move (realEnv t t2 ta) arc offset).data.center.y
        = arc.data.center.y + offset.y) ∧
    ((RS_Arc.rotate (realEnv t t2 ta) arc center ang).data.radius = arc.data.radius ∧
      RS_Arc.getAngleLength (realEnv t t2 ta) (RS_Arc.rotate (realEnv t t2 ta) arc center ang)
        = RS_Arc.getAngleLength (realEnv t t2 ta) arc ∧
      (RS_Arc.rotate (realEnv t t2 ta) arc center ang).data.reversed = arc.data.reversed ∧
      (RS_Arc.rotate (realEnv t t2 ta) arc center ang).data.angle1
        = RS_Math.correctAngle (realEnv t t2 ta) (arc.data.angle1 + ang) ∧
      (RS_Arc.rotate (realEnv t t2 ta) arc center ang).data.angle2
        = RS_Math.correctAngle (realEnv t t2 ta) (arc.data.angle2 + ang)) ∧
    ((RS_Arc.rotateV (realEnv t t2 ta) arc center angleVector).data.radius = arc.data.radius ∧
      RS_Arc.getAngleLength (realEnv t t2 ta)
          (RS_Arc.rotateV (realEnv t t2 ta) arc center angleVector)
        = RS_Arc.getAngleLength (realEnv t t2 ta) arc ∧
      (RS_Arc.rotateV (realEnv t t2 ta) arc center angleVector).data.reversed
        = arc.data.reversed ∧
      (RS_Arc.rotateV (realEnv t t2 ta) arc center angleVector).data.angle1
        = RS_Math.correctAngle (realEnv t t2 ta)
            (arc.data.angle1 + RS_Vector.angle (realEnv t t2 ta) angleVector) ∧
      (RS_Arc.rotateV (realEnv t t2 ta) arc center angleVector).data.angle2
        = RS_Math.correctAngle (realEnv t t2 ta)
            (arc.data.angle2 + RS_Vector.angle (realEnv t t2 ta) angleVector)) ∧
    ((RS_Arc.mirror (realEnv t t2 ta) arc a1 a2).data.radius = arc.data.radius ∧
      RS_Arc.getAngleLength (realEnv t t2 ta) (RS_Arc.mirror (realEnv t t2 ta) arc a1 a2)
        = RS_Arc.getAngleLength (realEnv t t2 ta) arc) := by
  have hrot : ∀ β : ℝ, ∀ A : RS_Arc ℝ,
      A.data.angle1 = RS_Math.correctAngle (realEnv t t2 ta) (arc.data.angle1 + β) →
      A.data.angle2 = RS_Math.correctAngle (realEnv t t2 ta) (arc.data.angle2 + β) →
      A.data.reversed = arc.data.reversed →
      RS_Arc.getAngleLength (realEnv t t2 ta) A = RS_Arc.getAngleLength (realEnv t t2 ta) arc := by
    intro β A h1 h2 h3
    obtain ⟨-, -, k1, hk1⟩ := correctAngle_real_spec t t2 ta (arc.data.angle1 + β)
    obtain ⟨-, -, k2, hk2⟩ := correctAngle_real_spec t t2 ta (arc.data.angle2 + β)
    cases hrev : arc.data.reversed
    · apply getAngleLength_real_congr t t2 ta _ _ (k2 - k1)
      simp only [rawSweep, h1, h2, h3, hrev, hk1, hk2, Bool.false_eq_true, if_false]
      push_cast; ring
    · apply getAngleLength_real_congr t t2 ta _ _ (k1 - k2)
      simp only [rawSweep, h1, h2, h3, hrev, hk1, hk2, if_true]
      push_cast; ring
  refine ⟨⟨rfl, ?_, rfl, rfl, rfl, rfl, rfl⟩, ⟨rfl, ?_, rfl, rfl, rfl⟩, ⟨rfl, ?_, rfl, rfl, rfl⟩,
    ?_, ?_⟩
  · exact getAngleLength_of_rawSweep _ _ _ rfl
  · exact hrot ang _ rfl rfl rfl
  · exact hrot (RS_Vector.angle (realEnv t t2 ta) angleVector) _ rfl rfl rfl
  · have h := (correctAngles_real_keeps t t2 ta
      { arc with data := ⟨RS_Vector.mirror arc.data.center a1 a2, arc.data.radius,
          RS_Math.correctAngle (realEnv t t2 ta)
            (RS_Vector.angle (realEnv t t2 ta) (RS_Vector.sub a2 a1) * 2 - arc.data.angle1),
          RS_Math.correctAngle (realEnv t t2 ta)
            (RS_Vector.angle (realEnv t t2 ta) (RS_Vector.sub a2 a1) * 2 - arc.data.angle2),
          !arc.data.reversed⟩ }).2.1
    exact h
  · set φ2 := RS_Vector.angle (realEnv t t2 ta) (RS_Vector.sub a2 a1) * 2 with hφ
    set M : RS_Arc ℝ := { arc with data := ⟨RS_Vector.mirror arc.data.center a1 a2,
      arc.data.radius, RS_Math.correctAngle (realEnv t t2 ta) (φ2 - arc.data.angle1),
      RS_Math.correctAngle (realEnv t t2 ta) (φ2 - arc.data.angle2), !arc.data.reversed⟩ }
      with hM
    have hstep : RS_Arc.getAngleLength (realEnv t t2 ta)
        (RS_Arc.mirror (realEnv t t2 ta) arc a1 a2)
        = RS_Arc.getAngleLength (realEnv t t2 ta) (RS_Arc.correctAngles (realEnv t t2 ta) M) :=
      getAngleLength_of_rawSweep _ _ _ rfl
    rw [hstep, (correctAngles_real_keeps t t2 ta M).2.2.2.2.2]
    obtain ⟨-, -, k1, hk1⟩ := correctAngle_real_spec t t2 ta (φ2 - arc.data.angle1)
    obtain ⟨-, -, k2, hk2⟩ := correctAngle_real_spec t t2 ta (φ2 - arc.data.angle2)
    cases hrev : arc.data.reversed
    · apply getAngleLength_real_congr t t2 ta _ _ (k1 - k2)
      simp only [rawSweep, hM, hrev, hk1, hk2, Bool.not_false, Bool.false_eq_true, if_false,
        if_true]
      push_cast; ring
    · apply getAngleLength_real_congr t t2 ta _ _ (k2 - k1)
      simp only [rawSweep, hM, hrev, hk1, hk2, Bool.not_true, Bool.false_eq_true, if_false,
        if_true]
      push_cast; ring

/-- C20: for an arc with consistent caches that is not a full circle and a defined point `pos`:
outside the no-op guard and for `pos` different from the end point, after `moveStartpoint(pos)`
the start point is `pos`, the end point is unchanged and `getBulge` is unchanged; for `pos`
different from the start point, after `moveEndpoint(pos)` the end point is `pos`, the start
point is unchanged and `getBulge` is unchanged. -/
theorem moveEndpoints_keep_shape (t t2 ta : ℝ) (hta : 0 < ta) (hpi : ta ≤ π) (arc : RS_Arc ℝ)
    (pos : RS_Vector ℝ) (hcons : CacheConsistent (realEnv t t2 ta) arc)
    (hfull : RS_Arc.getAngleLength (realEnv t t2 ta) arc ≠ 2 * π) (hv : pos.valid = true) :
    (¬ |RS_Arc.getBulge (realEnv t t2 ta) arc - π / 2| < ta →
      (pos.x ≠ (RS_Arc.getEndpoint arc).x ∨ pos.y ≠ (RS_Arc.getEndpoint arc).y) →
      RS_Arc.getStartpoint (RS_Arc.moveStartpoint (realEnv t t2 ta) arc pos) = pos ∧
        RS_Arc.getEndpoint (RS_Arc.moveStartpoint (realEnv t t2 ta) arc pos)
          = RS_Arc.getEndpoint arc ∧
        RS_Arc.getBulge (realEnv t t2 ta) (RS_Arc.moveStartpoint (realEnv t t2 ta) arc pos)
          = RS_Arc.getBulge (realEnv t t2 ta) arc) ∧
    ((pos.x ≠ (RS_Arc.getStartpoint arc).x ∨ pos.y ≠ (RS_Arc.getStartpoint arc).y) →
      RS_Arc.getEndpoint (RS_Arc.moveEndpoint (realEnv t t2 ta) arc pos) = pos ∧
        RS_Arc.getStartpoint (RS_Arc.moveEndpoint (realEnv t t2 ta) arc pos)
          = RS_Arc.getStartpoint arc ∧
        RS_Arc.getBulge (realEnv t t2 ta) (RS_Arc.moveEndpoint (realEnv t t2 ta) arc pos)
          = RS_Arc.getBulge (realEnv t t2 ta) arc) := by
  obtain ⟨hs, he, -⟩ := hcons
  have hvs : (RS_Arc.getStartpoint arc).valid = true := by
    rw [RS_Arc.getStartpoint, hs]; rfl
  have hve : (RS_Arc.getEndpoint arc).valid = true := by
    rw [RS_Arc.getEndpoint, he]; rfl
  constructor
  · intro hguard hne
    have hmove : RS_Arc.moveStartpoint (realEnv t t2 ta) arc pos
        = RS_Arc.correctAngles (realEnv t t2 ta) (RS_Arc.createFrom2PBulge (realEnv t t2 ta) arc
            pos (RS_Arc.getEndpoint arc) (RS_Arc.getBulge (realEnv t t2 ta) arc)).2 := by
      unfold RS_Arc.moveStartpoint
      simp only [realEnv_pi, realEnv_tolA]
      rw [if_neg hguard]
    rw [hmove]
    obtain ⟨r1, r2, r3⟩ := rebuild_with_own_bulge t t2 ta hta hpi arc hfull pos
      (RS_Arc.getEndpoint arc) hv hve hne
    exact ⟨r1, r2, r3⟩
  · intro hne
    obtain ⟨r1, r2, r3⟩ := rebuild_with_own_bulge t t2 ta hta hpi arc hfull
      (RS_Arc.getStartpoint arc) pos hvs hv (by
        rcases hne with h | h
        · left; exact Ne.symm h
        · right; exact Ne.symm h)
    exact ⟨r2, r1, r3⟩

theorem moveEndpoints_keep_shape_witness :
    (0 : ℝ) < 1 / 10 ^ 8 ∧ (1 / 10 ^ 8 : ℝ) ≤ π ∧ CacheConsistent stdEnv sampleArc ∧
      RS_Arc.getAngleLength stdEnv sampleArc ≠ 2 * π ∧ (pt (2 : ℝ) 0).valid = true ∧
      ¬ |RS_Arc.getBulge stdEnv sampleArc - π / 2| < 1 / 10 ^ 8 ∧
      ((pt (2 : ℝ) 0).x ≠ (RS_Arc.getEndpoint sampleArc).x ∨
        (pt (2 : ℝ) 0).y ≠ (RS_Arc.getEndpoint sampleArc).y) ∧
      (RS_Arc.getStartpoint (RS_Arc.moveStartpoint stdEnv sampleArc (pt 2 0)) = pt 2 0 ∧
        RS_Arc.getEndpoint (RS_Arc.moveStartpoint stdEnv sampleArc (pt 2 0))
          = RS_Arc.getEndpoint sampleArc ∧
        RS_Arc.getBulge stdEnv (RS_Arc.moveStartpoint stdEnv sampleArc (pt 2 0))
          = RS_Arc.getBulge stdEnv sampleArc) := by
  have hp := Real.pi_gt_three
  have hpi : (1 / 10 ^ 8 : ℝ) ≤ π := by norm_num; linarith
  have hfull : RS_Arc.getAngleLength stdEnv sampleArc ≠ 2 * π := by
    rw [sampleArc_angleLength]; linarith
  have hguard : ¬ |RS_Arc.getBulge stdEnv sampleArc - π / 2| < 1 / 10 ^ 8 := by
    rw [sampleArc_bulge.1, not_lt, abs_sub_comm, abs_of_nonneg (by linarith [sampleArc_bulge.2])]
    have := sampleArc_bulge.2
    norm_num
    linarith
  have hne : (pt (2 : ℝ) 0).x ≠ (RS_Arc.getEndpoint sampleArc).x ∨
      (pt (2 : ℝ) 0).y ≠ (RS_Arc.getEndpoint sampleArc).y := by
    left
    rw [RS_Arc.getEndpoint, sampleArc_endPoint]
    have := Real.cos_le_one 1
    show (2 : ℝ) ≠ Real.cos 1
    linarith
  exact ⟨by norm_num, hpi, calculateBorders_consistent stdEnv _, hfull, rfl, hguard, hne,
    (moveEndpoints_keep_shape (1 / 10 ^ 10) (1 / 10 ^ 20) (1 / 10 ^ 8) (by norm_num) hpi
      sampleArc (pt 2 0) (calculateBorders_consistent stdEnv _) hfull rfl).1 hguard hne⟩

/-- C27: `RS_ArcData::isValid` is true exactly when the center is defined, the radius exceeds
`RS_TOLERANCE` and `|remainder(angle1 - angle2, 2π)|` exceeds `RS_TOLERANCE_ANGLE`; with
non-negative tolerances a record of radius zero, a record with `angle1 = angle2` and the record
produced by `reset` are invalid. -/
theorem isValid_spec (t t2 ta : ℝ) (ht : 0 ≤ t) (hta : 0 ≤ ta) (d : RS_ArcData ℝ) :
    (RS_ArcData.isValid (realEnv t t2 ta) d = true ↔
      d.center.valid = true ∧ t < d.radius ∧
        ta < |(realEnv t t2 ta).remainder (d.angle1 - d.angle2) (2 * π)|) ∧
    (d.radius = 0 → RS_ArcData.isValid (realEnv t t2 ta) d = false) ∧
    (d.angle1 = d.angle2 → RS_ArcData.isValid (realEnv t t2 ta) d = false) ∧
    RS_ArcData.isValid (realEnv t t2 ta) (RS_ArcData.reset d) = false := by
  have hiff : RS_ArcData.isValid (realEnv t t2 ta) d = true ↔
      d.center.valid = true ∧ t < d.radius ∧
        ta < |(realEnv t t2 ta).remainder (d.angle1 - d.angle2) (2 * π)| := by
    unfold RS_ArcData.isValid
    rw [realEnv_pi, realEnv_tol, realEnv_tolA, Bool.and_eq_true, Bool.and_eq_true,
      decide_eq_true_iff, decide_eq_true_iff, and_assoc]
  refine ⟨hiff, ?_, ?_, ?_⟩
  · intro h0
    rw [Bool.eq_false_iff]
    intro hv
    have := (hiff.mp hv).2.1
    rw [h0] at this
    linarith
  · intro h12
    rw [Bool.eq_false_iff]
    intro hv
    have := (hiff.mp hv).2.2
    rw [h12, sub_self, remainder_real_zero, abs_zero] at this
    linarith
  · rfl

theorem isValid_spec_witness :
    (0 : ℝ) ≤ 1 / 10 ^ 10 ∧ (0 : ℝ) ≤ 1 / 10 ^ 8 ∧
      RS_ArcData.isValid stdEnv (RS_ArcData.reset sampleArc.data) = false ∧
      (RS_ArcData.isValid stdEnv sampleArc.data = true ↔
        sampleArc.data.center.valid = true ∧ (1 / 10 ^ 10 : ℝ) < sampleArc.data.radius ∧
          (1 / 10 ^ 8 : ℝ)
            < |stdEnv.remainder (sampleArc.data.angle1 - sampleArc.data.angle2) (2 * π)|) :=
  ⟨by norm_num, by norm_num,
    (isValid_spec (1 / 10 ^ 10) (1 / 10 ^ 20) (1 / 10 ^ 8) (by norm_num) (by norm_num)
      sampleArc.data).2.2.2,
    (isValid_spec (1 / 10 ^ 10) (1 / 10 ^ 20) (1 / 10 ^ 8) (by norm_num) (by norm_num)
      sampleArc.data).1⟩

/-- C21 (as amended): `moveStartpoint(pos)` leaves the arc unchanged for every `pos` when the
bulge is within `RS_TOLERANCE_ANGLE` of `π/2`; for an exact quarter turn
(`getAngleLength = π/2`, with `RS_TOLERANCE_ANGLE ≤ 1/2`) that guard does not apply and, for an
arc with consistent caches and a defined `pos` different from the other end point,
`moveStartpoint(pos)` makes `pos` the start point and `moveEndpoint(pos)`, which has no guard,
makes `pos` the end point. -/
theorem moveStartpoint_guard (t t2 ta : ℝ) (hta : 0 < ta) (hta2 : ta ≤ 1 / 2) (arc : RS_Arc ℝ)
    (pos : RS_Vector ℝ) :
    (|RS_Arc.getBulge (realEnv t t2 ta) arc - π / 2| < ta →
      RS_Arc.moveStartpoint (realEnv t t2 ta) arc pos = arc) ∧
    (RS_Arc.getAngleLength (realEnv t t2 ta) arc = π / 2 →
      CacheConsistent (realEnv t t2 ta) arc → pos.valid = true →
      ((pos.x ≠ (RS_Arc.getEndpoint arc).x ∨ pos.y ≠ (RS_Arc.getEndpoint arc).y) →
        RS_Arc.getStartpoint (RS_Arc.moveStartpoint (realEnv t t2 ta) arc pos) = pos) ∧
      ((pos.x ≠ (RS_Arc.getStartpoint arc).x ∨ pos.y ≠ (RS_Arc.getStartpoint arc).y) →
        RS_Arc.getEndpoint (RS_Arc.moveEndpoint (realEnv t t2 ta) arc pos) = pos)) := by
  have hp := Real.pi_gt_three
  constructor
  · intro hg
    unfold RS_Arc.moveStartpoint
    simp only [realEnv_pi, realEnv_tolA]
    rw [if_pos hg]
  · intro hq hcons hv
    obtain ⟨hs, he, -⟩ := hcons
    have hvs : (RS_Arc.getStartpoint arc).valid = true := by
      rw [RS_Arc.getStartpoint, hs]; rfl
    have hve : (RS_Arc.getEndpoint arc).valid = true := by
      rw [RS_Arc.getEndpoint, he]; rfl
    have hfull : RS_Arc.getAngleLength (realEnv t t2 ta) arc ≠ 2 * π := by
      rw [hq]; linarith
    have hguard := quarter_turn_outside_guard t t2 ta hta2 arc hq
    constructor
    · intro hne
      have hmove : RS_Arc.moveStartpoint (realEnv t t2 ta) arc pos
          = RS_Arc.correctAngles (realEnv t t2 ta)
              (RS_Arc.createFrom2PBulge (realEnv t t2 ta) arc pos (RS_Arc.getEndpoint arc)
                (RS_Arc.getBulge (realEnv t t2 ta) arc)).2 := by
        unfold RS_Arc.moveStartpoint
        simp only [realEnv_pi, realEnv_tolA]
        rw [if_neg hguard]
      rw [hmove]
      exact (rebuild_with_own_bulge t t2 ta hta (by linarith) arc hfull pos
        (RS_Arc.getEndpoint arc) hv hve hne).1
    · intro hne
      exact (rebuild_with_own_bulge t t2 ta hta (by linarith) arc hfull
        (RS_Arc.getStartpoint arc) pos hvs hv (by
          rcases hne with h | h
          · left; exact Ne.symm h
          · right; exact Ne.symm h)).2.1

theorem moveStartpoint_guard_witness :
    (0 : ℝ) < 1 / 10 ^ 8 ∧ (1 / 10 ^ 8 : ℝ) ≤ 1 / 2 ∧
      |RS_Arc.getBulge stdEnv guardArc - π / 2| < 1 / 10 ^ 8 ∧
      RS_Arc.moveStartpoint stdEnv guardArc (pt 2 0) = guardArc ∧
      RS_Arc.getAngleLength stdEnv quarterArc = π / 2 ∧
      RS_Arc.getEndpoint (RS_Arc.moveEndpoint stdEnv quarterArc (pt 2 0)) = pt 2 0 := by
  have hg : |RS_Arc.getBulge stdEnv guardArc - π / 2| < 1 / 10 ^ 8 := by
    rw [guardArc_bulge, sub_self, abs_zero]; norm_num
  have hne : (pt (2 : ℝ) 0).x ≠ (RS_Arc.getStartpoint quarterArc).x ∨
      (pt (2 : ℝ) 0).y ≠ (RS_Arc.getStartpoint quarterArc).y := by
    left
    rw [RS_Arc.getStartpoint, quarterArc_ends.1]
    norm_num [pt, RS_Vector.mk2]
  exact ⟨by norm_num, by norm_num, hg,
    (moveStartpoint_guard (1 / 10 ^ 10) (1 / 10 ^ 20) (1 / 10 ^ 8) (by norm_num) (by norm_num)
      guardArc (pt 2 0)).1 hg,
    quarterArc_angleLength,
    ((moveStartpoint_guard (1 / 10 ^ 10) (1 / 10 ^ 20) (1 / 10 ^ 8) (by norm_num) (by norm_num)
      quarterArc (pt 2 0)).2 quarterArc_angleLength (calculateBorders_consistent stdEnv _)
      rfl).2 hne⟩

/-- C21 (counterexample): the quarter arc has sweep exactly `π/2`, yet `moveStartpoint((2,0))`
is carried out: the start point moves from `(1,0)` to `(2,0)`, so the arc is not left
unchanged. -/
theorem moveStartpoint_quarter_turn_moves :
    RS_Arc.getAngleLength stdEnv quarterArc = π / 2 ∧
      RS_Arc.getStartpoint quarterArc = pt 1 0 ∧
      RS_Arc.getStartpoint (RS_Arc.moveStartpoint stdEnv quarterArc (pt 2 0)) = pt 2 0 ∧
      RS_Arc.moveStartpoint stdEnv quarterArc (pt 2 0) ≠ quarterArc := by
  have hp := Real.pi_gt_three
  have hq := quarterArc_angleLength
  have hguard := quarter_turn_outside_guard (1 / 10 ^ 10) (1 / 10 ^ 20) (1 / 10 ^ 8)
    (by norm_num) quarterArc hq
  have hfull : RS_Arc.getAngleLength stdEnv quarterArc ≠ 2 * π := by
    rw [hq]; linarith
  have hne : (pt (2 : ℝ) 0).x ≠ (RS_Arc.getEndpoint quarterArc).x ∨
      (pt (2 : ℝ) 0).y ≠ (RS_Arc.getEndpoint quarterArc).y := by
    left
    rw [RS_Arc.getEndpoint, quarterArc_ends.2]
    norm_num [pt, RS_Vector.mk2]
  have hmove : RS_Arc.moveStartpoint stdEnv quarterArc (pt 2 0)
      = RS_Arc.correctAngles stdEnv (RS_Arc.createFrom2PBulge stdEnv quarterArc (pt 2 0)
          (RS_Arc.getEndpoint quarterArc) (RS_Arc.getBulge stdEnv quarterArc)).2 := by
    unfold RS_Arc.moveStartpoint
    simp only [stdEnv_eq, realEnv_pi, realEnv_tolA]
    rw [if_neg hguard]
  have hstart : RS_Arc.getStartpoint (RS_Arc.moveStartpoint stdEnv quarterArc (pt 2 0))
      = pt 2 0 := by
    rw [hmove]
    exact (rebuild_with_own_bulge (1 / 10 ^ 10) (1 / 10 ^ 20) (1 / 10 ^ 8) (by norm_num)
      (by norm_num; linarith) quarterArc hfull (pt 2 0) (RS_Arc.getEndpoint quarterArc) rfl
      (by rw [RS_Arc.getEndpoint, quarterArc_ends.2]; rfl) hne).1
  refine ⟨hq, quarterArc_ends.1, hstart, ?_⟩
  intro heq
  rw [heq, RS_Arc.getStartpoint, quarterArc_ends.1] at hstart
  have hx := congrArg RS_Vector.x hstart
  norm_num [pt, RS_Vector.mk2] at hx

/-- C23 (as amended): in exact arithmetic with `0 < RS_TOLERANCE_ANGLE ≤ π`, after
`correctAngles()` the stored directed sweep (`angle2 - angle1`, or `angle1 - angle2` when
reversed) is less than a full turn in absolute value and keeps its sign (`0 ≤ sweep < 2π` for
a sweep that was `≥ 0`, `-2π < sweep ≤ 0` for one that was `≤ 0`); the angles change only by
whole multiples of `2π`, so the cached start and end points, the consistency of the caches and
`getAngleLength()` are unchanged. -/
theorem correctAngles_normalises (t t2 ta : ℝ) (hta : 0 < ta) (hpi : ta ≤ π) (arc : RS_Arc ℝ) :
    |rawSweep (RS_Arc.correctAngles (realEnv t t2 ta) arc)| < 2 * π ∧
      (0 ≤ rawSweep arc → 0 ≤ rawSweep (RS_Arc.correctAngles (realEnv t t2 ta) arc)) ∧
      (rawSweep arc ≤ 0 → rawSweep (RS_Arc.correctAngles (realEnv t t2 ta) arc) ≤ 0) ∧
      (∃ k : ℤ, (RS_Arc.correctAngles (realEnv t t2 ta) arc).data.angle1
        = arc.data.angle1 + k * (2 * π)) ∧
      (∃ k : ℤ, (RS_Arc.correctAngles (realEnv t t2 ta) arc).data.angle2
        = arc.data.angle2 + k * (2 * π)) ∧
      RS_Arc.getStartpoint (RS_Arc.correctAngles (realEnv t t2 ta) arc)
        = RS_Arc.getStartpoint arc ∧
      RS_Arc.getEndpoint (RS_Arc.correctAngles (realEnv t t2 ta) arc) = RS_Arc.getEndpoint arc ∧
      RS_Arc.getAngleLength (realEnv t t2 ta) (RS_Arc.correctAngles (realEnv t t2 ta) arc)
        = RS_Arc.getAngleLength (realEnv t t2 ta) arc ∧
      (CacheConsistent (realEnv t t2 ta) arc →
        CacheConsistent (realEnv t t2 ta) (RS_Arc.correctAngles (realEnv t t2 ta) arc)) := by
  obtain ⟨f1, f2, f3⟩ := fmod_real_spec t t2 ta (rawSweep arc)
  obtain ⟨-, -, -, ks, ke, kl⟩ := correctAngles_real_keeps t t2 ta arc
  rw [correctAngles_real_sweep t t2 ta hta hpi arc]
  refine ⟨f1, f2, f3, ?_, ?_, ks, ke, kl, ?_⟩
  · obtain ⟨k, hk⟩ := correctAngles_real_spec t t2 ta arc
    rw [hk]
    cases arc.data.reversed
    · exact ⟨0, by simp⟩
    · exact ⟨k, by simp⟩
  · obtain ⟨k, hk⟩ := correctAngles_real_spec t t2 ta arc
    rw [hk]
    cases arc.data.reversed
    · exact ⟨k, by simp⟩
    · exact ⟨0, by simp⟩
  · rintro ⟨hs, he, hl⟩
    obtain ⟨k, hk⟩ := correctAngles_real_spec t t2 ta arc
    refine ⟨?_, ?_, ?_⟩
    · rw [ks, hs, hk]
      cases arc.data.reversed
      · rfl
      · exact (relative_real_add_int t t2 ta _ _ _ k).symm
    · rw [ke, he, hk]
      cases arc.data.reversed
      · exact (relative_real_add_int t t2 ta _ _ _ k).symm
      · rfl
    · rw [kl]
      rw [hk]
      exact hl

theorem correctAngles_normalises_witness :
    (0 : ℝ) < 1 / 10 ^ 8 ∧ (1 / 10 ^ 8 : ℝ) ≤ π ∧
      |rawSweep (RS_Arc.correctAngles stdEnv sampleArc)| < 2 * π ∧
      RS_Arc.getAngleLength stdEnv (RS_Arc.correctAngles stdEnv sampleArc)
        = RS_Arc.getAngleLength stdEnv sampleArc := by
  have hp := Real.pi_gt_three
  have hpi : (1 / 10 ^ 8 : ℝ) ≤ π := by norm_num; linarith
  exact ⟨by norm_num, hpi,
    (correctAngles_normalises (1 / 10 ^ 10) (1 / 10 ^ 20) (1 / 10 ^ 8) (by norm_num) hpi
      sampleArc).1,
    (correctAngles_normalises (1 / 10 ^ 10) (1 / 10 ^ 20) (1 / 10 ^ 8) (by norm_num) hpi
      sampleArc).2.2.2.2.2.2.2.1⟩

/-- C23 (counterexample): for the counter-clockwise arc stored with `angle1 = 1`, `angle2 = 0`
the directed sweep `angle2 - angle1` is still `-1` after `correctAngles()`, not in
`(0, 2π]`. -/
theorem correctAngles_negative_sweep :
    (RS_Arc.correctAngles stdEnv wrapArc).data.reversed = false ∧
      (RS_Arc.correctAngles stdEnv wrapArc).data.angle2
        - (RS_Arc.correctAngles stdEnv wrapArc).data.angle1 = -1 ∧
      ¬ (0 < (RS_Arc.correctAngles stdEnv wrapArc).data.angle2
        - (RS_Arc.correctAngles stdEnv wrapArc).data.angle1) := by
  have hp := Real.pi_gt_three
  have hid : RS_Arc.correctAngles stdEnv wrapArc = wrapArc :=
    correctAngles_real_id (1 / 10 ^ 10) (1 / 10 ^ 20) (1 / 10 ^ 8) (by norm_num)
      (by norm_num; linarith) wrapArc
      (by rw [wrapArc_data]; constructor <;> norm_num; linarith)
      (by rw [wrapArc_data]; constructor <;> norm_num; linarith)
  rw [hid, wrapArc_data]
  norm_num

/-- C25 (as amended): in exact arithmetic, for an arc that is not reported as a full circle
(`getAngleLength ≠ 2π`), after `calculateBorders()` the middle point is
`center + radius (cos m, sin m)` with `m = angle1 + getAngleLength/2` when `reversed` is false
and `m = angle1 - getAngleLength/2` when it is true. -/
theorem middlePoint_bisects (t t2 ta : ℝ) (arc : RS_Arc ℝ)
    (hfull : RS_Arc.getAngleLength (realEnv t t2 ta) arc ≠ 2 * π) :
    (RS_Arc.getMiddlePoint (RS_Arc.calculateBorders (realEnv t t2 ta) arc)).x
        = arc.data.center.x + arc.data.radius * Real.cos
            (if arc.data.reversed
              then arc.data.angle1
                - RS_Arc.getAngleLength (realEnv t t2 ta)
                    (RS_Arc.calculateBorders (realEnv t t2 ta) arc) / 2
              else arc.data.angle1
                + RS_Arc.getAngleLength (realEnv t t2 ta)
                    (RS_Arc.calculateBorders (realEnv t t2 ta) arc) / 2) ∧
      (RS_Arc.getMiddlePoint (RS_Arc.calculateBorders (realEnv t t2 ta) arc)).y
        = arc.data.center.y + arc.data.radius * Real.sin
            (if arc.data.reversed
              then arc.data.angle1
                - RS_Arc.getAngleLength (realEnv t t2 ta)
                    (RS_Arc.calculateBorders (realEnv t t2 ta) arc) / 2
              else arc.data.angle1
                + RS_Arc.getAngleLength (realEnv t t2 ta)
                    (RS_Arc.calculateBorders (realEnv t t2 ta) arc) / 2) := by
  have hl := getAngleLength_real_not_full t t2 ta arc hfull
  rw [calculateBorders_angleLength, hl, RS_Arc.getMiddlePoint, calculateBorders_middlePoint]
  obtain ⟨-, -, k, hk⟩ := correctAngle_real_spec t t2 ta (rawSweep arc)
  simp only [realEnv_cos, realEnv_sin]
  unfold rawSweep at hk ⊢
  rcases arc with ⟨⟨c, r, a1, a2, rev⟩, sp, ep, mp, mn, mx, len⟩
  cases rev
  · simp only [Bool.false_eq_true, if_false]
    constructor
    · rw [mul_comm (Real.cos _)]; congr 3; ring
    · rw [mul_comm (Real.sin _)]; congr 3; ring
  · simp only [if_true] at hk ⊢
    have e : a2 + RS_Math.correctAngle (realEnv t t2 ta) (a1 - a2) * (1 / 2)
        = a1 - RS_Math.correctAngle (realEnv t t2 ta) (a1 - a2) / 2 + k * (2 * π) := by
      linarith
    rw [e, Real.cos_add_int_mul_two_pi, Real.sin_add_int_mul_two_pi]
    constructor <;> ring

theorem middlePoint_bisects_witness :
    RS_Arc.getAngleLength stdEnv sampleArc ≠ 2 * π ∧
      (RS_Arc.getMiddlePoint (RS_Arc.calculateBorders stdEnv sampleArc)).x
        = sampleArc.data.center.x + sampleArc.data.radius * Real.cos
            (if sampleArc.data.reversed
              then sampleArc.data.angle1
                - RS_Arc.getAngleLength stdEnv (RS_Arc.calculateBorders stdEnv sampleArc) / 2
              else sampleArc.data.angle1
                + RS_Arc.getAngleLength stdEnv (RS_Arc.calculateBorders stdEnv sampleArc) / 2) := by
  have hp := Real.pi_gt_three
  have hfull : RS_Arc.getAngleLength stdEnv sampleArc ≠ 2 * π := by
    rw [sampleArc_angleLength]; linarith
  exact ⟨hfull,
    (middlePoint_bisects (1 / 10 ^ 10) (1 / 10 ^ 20) (1 / 10 ^ 8) sampleArc hfull).1⟩

/-- C25 (counterexample): for the full circle `angle1 = angle2 = 0` of radius 1 about the
origin `getAngleLength` is `2π`, so the bisection angle is `π` and the bisection point is
`(-1, 0)`, but the cached middle point is `(1, 0)`, the start point. -/
theorem middlePoint_full_circle :
    circleArc.data.reversed = false ∧
      RS_Arc.getAngleLength stdEnv circleArc = 2 * π ∧
      (RS_Arc.getMiddlePoint circleArc).x = 1 ∧
      circleArc.data.center.x + circleArc.data.radius * Real.cos
          (circleArc.data.angle1 + RS_Arc.getAngleLength stdEnv circleArc / 2) = -1 := by
  have hl : RS_Arc.getAngleLength stdEnv circleArc = 2 * π :=
    getAngleLength_real_promoted _ _ _ (by norm_num; linarith [Real.pi_gt_three]) circleArc
      (by simp [rawSweep, circleArc_data]) (by simp [rawSweep, circleArc_data])
  have hc : RS_Math.correctAngle (realEnv (1 / 10 ^ 10) (1 / 10 ^ 20) (1 / 10 ^ 8)) (0 - 0) = 0 :=
    correctAngle_real_eq _ _ _ _ 0 le_rfl (by positivity) ⟨0, by simp⟩
  refine ⟨rfl, hl, ?_, ?_⟩
  · show (RS_Arc.calculateBorders stdEnv _).middlePoint.x = 1
    rw [calculateBorders_middlePoint]
    simp only [stdEnv_eq, Bool.false_eq_true, if_false, hc, realEnv_cos]
    simp [pt, RS_Vector.mk2]
  · rw [hl, circleArc_data]
    simp [pt, RS_Vector.mk2]

/-- C24 (as amended): in exact arithmetic, with `F(t) = c_x r sin t + (r²/4) sin 2t + (r²/2) t`
and `L = getAngleLength()`: whenever `L` is congruent modulo `2π` to the stored directed sweep,
`areaLineIntegral()` is `F(angle1 + L) - F(angle1)` when `reversed` is false and
`F(angle1 - L) - F(angle1)` when it is true; reversing the arc negates the value for every arc;
and a counter-clockwise arc whose stored angles differ by a whole number of turns gives
`π r²`. -/
theorem areaLineIntegral_spec (t t2 ta : ℝ) (arc : RS_Arc ℝ) :
    ((∃ k : ℤ, RS_Arc.getAngleLength (realEnv t t2 ta) arc = rawSweep arc + k * (2 * π)) →
      RS_Arc.areaLineIntegral (realEnv t t2 ta) arc
        = if arc.data.reversed
          then areaPrimitive arc.data.center.x arc.data.radius
              (arc.data.angle1 - RS_Arc.getAngleLength (realEnv t t2 ta) arc)
            - areaPrimitive arc.data.center.x arc.data.radius arc.data.angle1
          else areaPrimitive arc.data.center.x arc.data.radius
              (arc.data.angle1 + RS_Arc.getAngleLength (realEnv t t2 ta) arc)
            - areaPrimitive arc.data.center.x arc.data.radius arc.data.angle1) ∧
    RS_Arc.areaLineIntegral (realEnv t t2 ta) (RS_Arc.reverse (realEnv t t2 ta) arc)
      = -RS_Arc.areaLineIntegral (realEnv t t2 ta) arc ∧
    (arc.data.reversed = false → (∃ k : ℤ, arc.data.angle2 = arc.data.angle1 + k * (2 * π)) →
      0 < ta → RS_Arc.areaLineIntegral (realEnv t t2 ta) arc = π * arc.data.radius ^ 2) := by
  refine ⟨?_, ?_, ?_⟩
  · rintro ⟨k, hk⟩
    rw [areaLineIntegral_real]
    unfold areaPrimitive
    rcases arc with ⟨⟨c, r, a1, a2, rev⟩, sp, ep, mp, mn, mx, len⟩
    generalize RS_Arc.getAngleLength (realEnv t t2 ta) _ = L at hk ⊢
    unfold rawSweep at hk
    cases rev
    · simp only [Bool.false_eq_true, if_false] at hk ⊢
      have e : a1 + L = a2 + k * (2 * π) := by linarith
      rw [e, (sin_shift_turns a2 k).1, (sin_shift_turns a2 k).2, hk]
      ring
    · simp only [if_true] at hk ⊢
      have e : a1 - L = a2 + ((-k : ℤ) : ℝ) * (2 * π) := by push_cast; linarith
      rw [e, (sin_shift_turns a2 (-k)).1, (sin_shift_turns a2 (-k)).2, hk]
      push_cast
      ring
  · have hl : RS_Arc.getAngleLength (realEnv t t2 ta) (RS_Arc.reverse (realEnv t t2 ta) arc)
        = RS_Arc.getAngleLength (realEnv t t2 ta) arc :=
      getAngleLength_of_rawSweep _ _ _ (reverse_rawSweep _ arc)
    rw [areaLineIntegral_real, areaLineIntegral_real, hl]
    show arc.data.center.x * arc.data.radius * (Real.sin arc.data.angle1 - Real.sin arc.data.angle2)
        + arc.data.radius ^ 2 / 4
          * (Real.sin (2 * arc.data.angle1) - Real.sin (2 * arc.data.angle2))
        + (if (!arc.data.reversed) = true then -1 else 1) * (arc.data.radius ^ 2 / 2)
          * RS_Arc.getAngleLength (realEnv t t2 ta) arc = _
    cases arc.data.reversed
    · simp only [Bool.not_false, if_true, Bool.false_eq_true, if_false]; ring
    · simp only [Bool.not_true, Bool.false_eq_true, if_false, if_true]; ring
  · rintro hrev ⟨k, hk⟩ hta
    have hl : RS_Arc.getAngleLength (realEnv t t2 ta) arc = 2 * π := by
      have hp := Real.pi_pos
      have hc : RS_Math.correctAngle (realEnv t t2 ta) (rawSweep arc) = 0 :=
        correctAngle_real_eq t t2 ta _ 0 le_rfl (by positivity)
          ⟨k, by unfold rawSweep; rw [hrev, hk]; simp⟩
      have hr : (realEnv t t2 ta).remainder 0 (2 * π) = 0 := by
        have := remainder_real_eq t t2 ta 0 0 (by simpa using hp)
        simpa using this
      rw [getAngleLength_eq, hc, realEnv_pi, realEnv_tolA, hr, abs_zero, if_pos hta]
    rw [areaLineIntegral_real, hl, hrev, hk, (sin_shift_turns _ k).1, (sin_shift_turns _ k).2]
    simp only [Bool.false_eq_true, if_false]
    ring

theorem areaLineIntegral_spec_witness :
    (∃ k : ℤ, RS_Arc.getAngleLength stdEnv sampleArc = rawSweep sampleArc + k * (2 * π)) ∧
      RS_Arc.areaLineIntegral stdEnv sampleArc
        = areaPrimitive 0 1 (0 + 1) - areaPrimitive 0 1 0 := by
  have hk : ∃ k : ℤ, RS_Arc.getAngleLength stdEnv sampleArc
      = rawSweep sampleArc + k * (2 * π) :=
    ⟨0, by rw [sampleArc_angleLength]; simp [rawSweep, sampleArc_data]⟩
  refine ⟨hk, ?_⟩
  have h := (areaLineIntegral_spec (1 / 10 ^ 10) (1 / 10 ^ 20) (1 / 10 ^ 8) sampleArc).1 hk
  rw [← stdEnv_eq, sampleArc_angleLength] at h
  rw [h, sampleArc_data]
  simp [pt, RS_Vector.mk2]

/-- C24 (counterexample): for the counter-clockwise sliver `angle1 = 0`, `angle2 = 1e-9` of the
unit circle about the origin `getAngleLength` is `2π`, and `areaLineIntegral` is
`sin(2e-9)/4 + π`, which is not `F(angle1 + L) - F(angle1) = π`. -/
theorem areaLineIntegral_sliver :
    sliverArc.data.reversed = false ∧
      RS_Arc.getAngleLength stdEnv sliverArc = 2 * π ∧
      RS_Arc.areaLineIntegral stdEnv sliverArc
        ≠ areaPrimitive sliverArc.data.center.x sliverArc.data.radius
            (sliverArc.data.angle1 + RS_Arc.getAngleLength stdEnv sliverArc)
          - areaPrimitive sliverArc.data.center.x sliverArc.data.radius
            sliverArc.data.angle1 := by
  have hp := Real.pi_gt_three
  have hl : RS_Arc.getAngleLength stdEnv sliverArc = 2 * π :=
    getAngleLength_real_promoted _ _ _ (by norm_num; linarith) sliverArc
      (by simp [rawSweep, sliverArc_data]) (by simp [rawSweep, sliverArc_data]; norm_num)
  refine ⟨rfl, hl, ?_⟩
  have hs : 0 < Real.sin (2 * (1 / 10 ^ 9)) :=
    Real.sin_pos_of_pos_of_lt_pi (by norm_num) (by norm_num; linarith)
  rw [stdEnv_eq, areaLineIntegral_real, ← stdEnv_eq, hl, sliverArc_data]
  unfold areaPrimitive
  simp only [pt, RS_Vector.mk2, Bool.false_eq_true, if_false, zero_add, mul_zero, Real.sin_zero,
    zero_mul, sub_zero, Real.sin_two_pi]
  have e : (2 : ℝ) * (2 * π) = 0 + ((2 : ℤ) : ℝ) * (2 * π) := by push_cast; ring
  rw [e, Real.sin_add_int_mul_two_pi, Real.sin_zero]
  intro h
  nlinarith

/-- C28: in exact arithmetic, for `radius > 0`, `createFrom2PDirectionRadius(startPoint,
endPoint, direction1, radius)` installs the radius unchanged, takes as center the candidate
`c1 = startPoint + radius n` if it is strictly nearer to `endPoint` than
`c2 = startPoint - radius n` and `c2` otherwise (`n` the unit vector at angle
`direction1 + π/2`), starts exactly at `startPoint`, sets `reversed` exactly when `c2` is
chosen, and `getDirection1()` is `direction1` modulo `2π`. -/
theorem createFrom2PDirectionRadius_spec (t t2 ta : ℝ) (arc : RS_Arc ℝ) (S P : RS_Vector ℝ)
    (d r : ℝ) (hr : 0 < r) (c1 c2 : RS_Vector ℝ)
    (hc1 : c1 = ⟨S.x + r * Real.cos (d + π / 2), S.y + r * Real.sin (d + π / 2), true⟩)
    (hc2 : c2 = ⟨S.x - r * Real.cos (d + π / 2), S.y - r * Real.sin (d + π / 2), true⟩) :
    (RS_Arc.createFrom2PDirectionRadius (realEnv t t2 ta) arc S P d r).2.data.radius = r ∧
      (RS_Arc.createFrom2PDirectionRadius (realEnv t t2 ta) arc S P d r).2.data.center
        = (if RS_Vector.distanceTo (realEnv t t2 ta) c1 P
            < RS_Vector.distanceTo (realEnv t t2 ta) c2 P then c1 else c2) ∧
      (RS_Arc.getStartpoint
        (RS_Arc.createFrom2PDirectionRadius (realEnv t t2 ta) arc S P d r).2).x = S.x ∧
      (RS_Arc.getStartpoint
        (RS_Arc.createFrom2PDirectionRadius (realEnv t t2 ta) arc S P d r).2).y = S.y ∧
      ((RS_Arc.createFrom2PDirectionRadius (realEnv t t2 ta) arc S P d r).2.data.reversed = true
        ↔ ¬ RS_Vector.distanceTo (realEnv t t2 ta) c1 P
            < RS_Vector.distanceTo (realEnv t t2 ta) c2 P) ∧
      ∃ k : ℤ, RS_Arc.getDirection1 (realEnv t t2 ta)
          (RS_Arc.createFrom2PDirectionRadius (realEnv t t2 ta) arc S P d r).2
        = d + k * (2 * π) := by
  have hp := Real.pi_gt_three
  have e1 : RS_Vector.add S (RS_Vector.polar (realEnv t t2 ta) r (d + π / 2)) = c1 := by
    rw [hc1]; rfl
  have e2 : RS_Vector.sub S (RS_Vector.polar (realEnv t t2 ta) r (d + π / 2)) = c2 := by
    rw [hc2]; rfl
  have hcirc : ∀ x y : ℝ, x = r * Real.cos (d + π / 2) → y = r * Real.sin (d + π / 2) →
      x * x + y * y = r * r := by
    intro x y hx hy
    rw [hx, hy]
    have := Real.sin_sq_add_cos_sq (d + π / 2)
    nlinarith
  rw [createFrom2PDirectionRadius_eq]
  simp only [realEnv_pi, e1, e2]
  by_cases hlt : RS_Vector.distanceTo (realEnv t t2 ta) c1 P
      < RS_Vector.distanceTo (realEnv t t2 ta) c2 P
  · simp only [hlt, if_true, not_true_eq_false, iff_false]
    have hx : S.x - c1.x = -(r * Real.cos (d + π / 2)) := by rw [hc1]; ring
    have hy : S.y - c1.y = -(r * Real.sin (d + π / 2)) := by rw [hc1]; ring
    obtain ⟨hdiff, k, hk⟩ := direction_test_left t t2 ta c1 S r d hr hx hy
    have hrel := relative_angleTo_real t t2 ta c1 S r hr
      (by rw [hx, hy]; linarith [hcirc _ _ rfl rfl])
    have hdec : decide (|RS_Math.correctAngle (realEnv t t2 ta)
        (RS_Math.correctAngle (realEnv t t2 ta)
          (RS_Vector.angleTo (realEnv t t2 ta) c1 S + π / 2) - d) - π| < 1 / 10) = false := by
      rw [hdiff, decide_eq_false_iff_not, zero_sub, abs_neg, abs_of_pos Real.pi_pos]
      norm_num
      linarith
    rw [hdec]
    refine ⟨rfl, rfl, ?_, ?_, Bool.false_ne_true, ?_⟩
    · show (RS_Vector.relative (realEnv t t2 ta) c1 r
        (RS_Vector.angleTo (realEnv t t2 ta) c1 S)).x = S.x
      rw [hrel]
    · show (RS_Vector.relative (realEnv t t2 ta) c1 r
        (RS_Vector.angleTo (realEnv t t2 ta) c1 S)).y = S.y
      rw [hrel]
    · exact ⟨k, hk⟩
  · simp only [hlt, if_false, not_false_eq_true, iff_true]
    have hx : S.x - c2.x = r * Real.cos (d + π / 2) := by rw [hc2]; ring
    have hy : S.y - c2.y = r * Real.sin (d + π / 2) := by rw [hc2]; ring
    obtain ⟨hdiff, k, hk⟩ := direction_test_right t t2 ta c2 S r d hr hx hy
    have hrel := relative_angleTo_real t t2 ta c2 S r hr
      (by rw [hx, hy]; exact hcirc _ _ rfl rfl)
    have hdec : decide (|RS_Math.correctAngle (realEnv t t2 ta)
        (RS_Math.correctAngle (realEnv t t2 ta)
          (RS_Vector.angleTo (realEnv t t2 ta) c2 S + π / 2) - d) - π| < 1 / 10) = true := by
      rw [hdiff, decide_eq_true_iff, sub_self, abs_zero]
      norm_num
    rw [hdec]
    refine ⟨rfl, rfl, ?_, ?_, rfl, ?_⟩
    · show (RS_Vector.relative (realEnv t t2 ta) c2 r
        (RS_Vector.angleTo (realEnv t t2 ta) c2 S)).x = S.x
      rw [hrel]
    · show (RS_Vector.relative (realEnv t t2 ta) c2 r
        (RS_Vector.angleTo (realEnv t t2 ta) c2 S)).y = S.y
      rw [hrel]
    · exact ⟨k, hk⟩

theorem createFrom2PDirectionRadius_spec_witness :
    (0 : ℝ) < 1 ∧
      (RS_Arc.createFrom2PDirectionRadius stdEnv sampleArc (pt 0 0) (pt 1 1) 0 1).2.data.radius
        = 1 ∧
      (RS_Arc.getStartpoint
        (RS_Arc.createFrom2PDirectionRadius stdEnv sampleArc (pt 0 0) (pt 1 1) 0 1).2).x = 0 ∧
      ∃ k : ℤ, RS_Arc.getDirection1 stdEnv
          (RS_Arc.createFrom2PDirectionRadius stdEnv sampleArc (pt 0 0) (pt 1 1) 0 1).2
        = 0 + k * (2 * π) :=
  ⟨by norm_num,
    (createFrom2PDirectionRadius_spec (1 / 10 ^ 10) (1 / 10 ^ 20) (1 / 10 ^ 8) sampleArc
      (pt 0 0) (pt 1 1) 0 1 (by norm_num) _ _ rfl rfl).1,
    (createFrom2PDirectionRadius_spec (1 / 10 ^ 10) (1 / 10 ^ 20) (1 / 10 ^ 8) sampleArc
      (pt 0 0) (pt 1 1) 0 1 (by norm_num) _ _ rfl rfl).2.2.1,
    (createFrom2PDirectionRadius_spec (1 / 10 ^ 10) (1 / 10 ^ 20) (1 / 10 ^ 8) sampleArc
      (pt 0 0) (pt 1 1) 0 1 (by norm_num) _ _ rfl rfl).2.2.2.2.2⟩

/-- C29: the early exits of `prepareTrim(trimCoord, trimSol)`: when `trimSol` holds no valid
point the result is the invalid vector, and when `trimSol` holds exactly one point and it is
valid the result is that point; in both cases the arc (`angle1`, `angle2` and every other
field) is unchanged, whatever `trimCoord` is. -/
theorem prepareTrim_early_exits {K : Type} [LinearOrderedField K] (E : Env K) (arc : RS_Arc K)
    (trimCoord : RS_Vector K) :
    (∀ trimSol : List (RS_Vector K), (∀ v ∈ trimSol, v.valid = false) →
      RS_Arc.prepareTrim E arc trimCoord trimSol = (RS_Vector.invalid, arc)) ∧
    (∀ v : RS_Vector K, v.valid = true →
      RS_Arc.prepareTrim E arc trimCoord [v] = (v, arc)) := by
  constructor
  · intro trimSol h
    have hany : (trimSol.any fun v => v.valid) = false := by
      rw [List.any_eq_false]
      intro v hv
      rw [h v hv]
      exact Bool.false_ne_true
    unfold RS_Arc.prepareTrim
    rw [hany]
    rfl
  · intro v hv
    unfold RS_Arc.prepareTrim
    have hany : ([v].any fun v => v.valid) = true := by
      simp [hv]
    rw [hany]
    rfl

theorem prepareTrim_early_exits_witness :
    RS_Arc.prepareTrim stdEnv sampleArc (pt 0 0) [RS_Vector.invalid]
        = (RS_Vector.invalid, sampleArc) ∧
      RS_Arc.prepareTrim stdEnv sampleArc (pt 0 0) [pt 2 0] = (pt 2 0, sampleArc) :=
  ⟨(prepareTrim_early_exits stdEnv sampleArc (pt 0 0)).1 [RS_Vector.invalid]
      (by intro v hv; rw [List.mem_singleton.mp hv]; rfl),
    (prepareTrim_early_exits stdEnv sampleArc (pt 0 0)).2 (pt 2 0) rfl⟩

/-- C8 (violated by `createFrom2PBulge`): for the coinciding end points `(0,0)`, `(0,0)` with
bulge 1 the call returns true and installs an arc of radius 0, and for the end points `(0,0)`,
`(10,0)` with bulge 0 it returns true although the divisor `sin(alpha/2)` of the radius is 0:
degenerate input is accepted, not rejected. -/
theorem createFrom2PBulge_degenerate_accepted :
    (RS_Arc.createFrom2PBulge stdEnv sampleArc (pt 0 0) (pt 0 0) 1).1 = true ∧
      (RS_Arc.createFrom2PBulge stdEnv sampleArc (pt 0 0) (pt 0 0) 1).2.data.radius = 0 ∧
      (RS_Arc.createFrom2PBulge stdEnv sampleArc (pt 0 0) (pt 10 0) 0).1 = true ∧
      stdEnv.sin (stdEnv.atan 0 * 4 / 2) = 0 := by
  refine ⟨rfl, ?_, rfl, ?_⟩
  · show |RS_Vector.distanceTo stdEnv (pt 0 0) (pt 0 0) / 2
        / stdEnv.sin (stdEnv.atan 1 * 4 / 2)| = 0
    have h : RS_Vector.distanceTo stdEnv (pt 0 0) (pt 0 0) = 0 := by
      simp [RS_Vector.distanceTo, RS_Vector.magnitude, RS_Vector.sub, pt, RS_Vector.mk2,
        stdEnv, realEnv]
    rw [h]
    simp
  · simp [stdEnv, realEnv]

/-- C12 (as amended): for every arc, `reverse` twice restores the data (angle1, angle2,
reversed, center, radius) exactly; a single `reverse` exchanges `angle1` and `angle2` and flips
`reversed`, leaving center, radius and `getAngleLength` unchanged.  When the cached start and
end points of the arc are the circle points at `angle1` and `angle2`, a single `reverse` swaps
start point and end point and `reverse` twice yields the original start and end points. -/
theorem reverse_involution {K : Type} [LinearOrderedField K] (E : Env K) (arc : RS_Arc K) :
    (RS_Arc.reverse E (RS_Arc.reverse E arc)).data = arc.data ∧
      (RS_Arc.reverse E arc).data.reversed = !arc.data.reversed ∧
      (RS_Arc.reverse E arc).data.angle1 = arc.data.angle2 ∧
      (RS_Arc.reverse E arc).data.angle2 = arc.data.angle1 ∧
      (RS_Arc.reverse E arc).data.center = arc.data.center ∧
      (RS_Arc.reverse E arc).data.radius = arc.data.radius ∧
      RS_Arc.getAngleLength E (RS_Arc.reverse E arc) = RS_Arc.getAngleLength E arc ∧
      (RS_Arc.getStartpoint arc
            = RS_Vector.relative E arc.data.center arc.data.radius arc.data.angle1 →
        RS_Arc.getEndpoint arc
            = RS_Vector.relative E arc.data.center arc.data.radius arc.data.angle2 →
        RS_Arc.getStartpoint (RS_Arc.reverse E (RS_Arc.reverse E arc))
            = RS_Arc.getStartpoint arc ∧
          RS_Arc.getEndpoint (RS_Arc.reverse E (RS_Arc.reverse E arc))
            = RS_Arc.getEndpoint arc ∧
          RS_Arc.getStartpoint (RS_Arc.reverse E arc) = RS_Arc.getEndpoint arc ∧
          RS_Arc.getEndpoint (RS_Arc.reverse E arc) = RS_Arc.getStartpoint arc) := by
  have hdata : (RS_Arc.reverse E (RS_Arc.reverse E arc)).data = arc.data := by
    simp only [RS_Arc.reverse, RS_Arc.calculateBorders, RS_Arc.updateLength,
      RS_Arc.updateMiddlePoint, Bool.not_not]
  refine ⟨hdata, rfl, rfl, rfl, rfl, rfl, ?_, ?_⟩
  · simp only [RS_Arc.getAngleLength, RS_Arc.reverse, RS_Arc.calculateBorders,
      RS_Arc.updateLength, RS_Arc.updateMiddlePoint]
    cases arc.data.reversed <;> simp
  · intro hs he
    rw [hs, he]
    refine ⟨?_, ?_, ?_, ?_⟩ <;>
      simp only [RS_Arc.getStartpoint, RS_Arc.getEndpoint, RS_Arc.reverse,
        RS_Arc.calculateBorders, RS_Arc.updateLength, RS_Arc.updateMiddlePoint]

theorem reverse_involution_witness :
    RS_Arc.getStartpoint sampleArc
        = RS_Vector.relative stdEnv sampleArc.data.center sampleArc.data.radius
            sampleArc.data.angle1 ∧
      RS_Arc.getEndpoint sampleArc
        = RS_Vector.relative stdEnv sampleArc.data.center sampleArc.data.radius
            sampleArc.data.angle2 ∧
      (RS_Arc.reverse stdEnv (RS_Arc.reverse stdEnv sampleArc)).data = sampleArc.data ∧
      RS_Arc.getStartpoint (RS_Arc.reverse stdEnv (RS_Arc.reverse stdEnv sampleArc))
        = RS_Arc.getStartpoint sampleArc ∧
      RS_Arc.getStartpoint (RS_Arc.reverse stdEnv sampleArc) = RS_Arc.getEndpoint sampleArc :=
  ⟨(calculateBorders_consistent stdEnv _).1, (calculateBorders_consistent stdEnv _).2.1,
    (reverse_involution stdEnv sampleArc).1,
    ((reverse_involution stdEnv sampleArc).2.2.2.2.2.2.2
      (calculateBorders_consistent stdEnv _).1 (calculateBorders_consistent stdEnv _).2.1).1,
    ((reverse_involution stdEnv sampleArc).2.2.2.2.2.2.2
      (calculateBorders_consistent stdEnv _).1 (calculateBorders_consistent stdEnv _).2.1).2.2.1⟩

/-- C12 (counterexample): on the arc that the successful `createFrom3P((0,0), (1,1), (2,0))`
leaves behind, a single `reverse` makes `(2, 0)` the start point, while the end point before
the call was `(cos 1, sin 1)`: start point and end point are not swapped. -/
theorem reverse_stale_endpoints :
    (RS_Arc.createFrom3P stdEnv sampleArc (pt 0 0) (pt 1 1) (pt 2 0)).1 = true ∧
      RS_Arc.getStartpoint (RS_Arc.reverse stdEnv staleArc) = pt 2 0 ∧
      RS_Arc.getEndpoint staleArc = pt (Real.cos 1) (Real.sin 1) ∧
      ¬ (RS_Arc.getStartpoint (RS_Arc.reverse stdEnv staleArc) = RS_Arc.getEndpoint staleArc) := by
  obtain ⟨-, -, -, -, -, he⟩ := staleArc_facts
  have h1 : RS_Arc.getStartpoint (RS_Arc.reverse stdEnv staleArc) = pt 2 0 :=
    staleArc_circle_points.2
  have h2 : RS_Arc.getEndpoint staleArc = pt (Real.cos 1) (Real.sin 1) := he
  refine ⟨(createFrom3P_scenario sampleArc).1, h1, h2, ?_⟩
  rw [h1, h2]
  intro h
  have hx : (2 : ℝ) = Real.cos 1 := congrArg RS_Vector.x h
  linarith [Real.cos_le_one 1]

/-- C14 (as amended): `mirror(a1, a2)` with `a1 ≠ a2` and axis angle `φ` reflects the arc across
the line through `a1` and `a2`: the center becomes the mirror image of the original center,
`reversed` is negated, and each stored angle becomes `correctAngle(2 φ - angle)`, which is
`2 φ - angle` up to a whole number of turns.  When the cached start point (end point) of the arc
is the circle point at `angle1` (`angle2`), the start point (end point) after the call is the
mirror image of the one before. -/
theorem mirror_spec (t t2 ta : ℝ) (hta : 0 < ta) (hpi : ta ≤ π) (arc : RS_Arc ℝ)
    (a1 a2 : RS_Vector ℝ) (hne : a1.x ≠ a2.x ∨ a1.y ≠ a2.y) :
    (RS_Arc.mirror (realEnv t t2 ta) arc a1 a2).data.center
        = RS_Vector.mirror arc.data.center a1 a2 ∧
      (RS_Arc.mirror (realEnv t t2 ta) arc a1 a2).data.reversed = !arc.data.reversed ∧
      (RS_Arc.mirror (realEnv t t2 ta) arc a1 a2).data.angle1
        = RS_Math.correctAngle (realEnv t t2 ta)
            (RS_Vector.angle (realEnv t t2 ta) (RS_Vector.sub a2 a1) * 2 - arc.data.angle1) ∧
      (RS_Arc.mirror (realEnv t t2 ta) arc a1 a2).data.angle2
        = RS_Math.correctAngle (realEnv t t2 ta)
            (RS_Vector.angle (realEnv t t2 ta) (RS_Vector.sub a2 a1) * 2 - arc.data.angle2) ∧
      (∃ k : ℤ, (RS_Arc.mirror (realEnv t t2 ta) arc a1 a2).data.angle1
        = RS_Vector.angle (realEnv t t2 ta) (RS_Vector.sub a2 a1) * 2 - arc.data.angle1
          + k * (2 * π)) ∧
      (∃ k : ℤ, (RS_Arc.mirror (realEnv t t2 ta) arc a1 a2).data.angle2
        = RS_Vector.angle (realEnv t t2 ta) (RS_Vector.sub a2 a1) * 2 - arc.data.angle2
          + k * (2 * π)) ∧
      (RS_Arc.getStartpoint arc
            = RS_Vector.relative (realEnv t t2 ta) arc.data.center arc.data.radius
                arc.data.angle1 →
        RS_Arc.getStartpoint (RS_Arc.mirror (realEnv t t2 ta) arc a1 a2)
          = RS_Vector.mirror (RS_Arc.getStartpoint arc) a1 a2) ∧
      (RS_Arc.getEndpoint arc
            = RS_Vector.relative (realEnv t t2 ta) arc.data.center arc.data.radius
                arc.data.angle2 →
        RS_Arc.getEndpoint (RS_Arc.mirror (realEnv t t2 ta) arc a1 a2)
          = RS_Vector.mirror (RS_Arc.getEndpoint arc) a1 a2) := by
  obtain ⟨-, -, x2⟩ := correctAngle_real_spec t t2 ta
    (RS_Vector.angle (realEnv t t2 ta) (RS_Vector.sub a2 a1) * 2 - arc.data.angle1)
  obtain ⟨-, -, y2⟩ := correctAngle_real_spec t t2 ta
    (RS_Vector.angle (realEnv t t2 ta) (RS_Vector.sub a2 a1) * 2 - arc.data.angle2)
  rw [mirror_real_eq t t2 ta hta hpi arc a1 a2]
  refine ⟨rfl, rfl, rfl, rfl, x2, y2, ?_, ?_⟩
  · intro hs
    rw [hs,
      ← mirror_relative_real t t2 ta arc.data.center a1 a2 arc.data.radius arc.data.angle1 hne]
    rfl
  · intro he
    rw [he,
      ← mirror_relative_real t t2 ta arc.data.center a1 a2 arc.data.radius arc.data.angle2 hne]
    rfl

theorem mirror_spec_witness :
    (0 : ℝ) < 1 / 10 ^ 8 ∧ (1 / 10 ^ 8 : ℝ) ≤ π ∧
      ((pt (0 : ℝ) 0).x ≠ (pt (1 : ℝ) 0).x ∨ (pt (0 : ℝ) 0).y ≠ (pt (1 : ℝ) 0).y) ∧
      RS_Arc.getStartpoint quarterArc
        = RS_Vector.relative stdEnv quarterArc.data.center quarterArc.data.radius
            quarterArc.data.angle1 ∧
      RS_Arc.getStartpoint (RS_Arc.mirror stdEnv quarterArc (pt 0 0) (pt 1 0))
        = RS_Vector.mirror (RS_Arc.getStartpoint quarterArc) (pt 0 0) (pt 1 0) ∧
      (∃ k : ℤ, (RS_Arc.mirror stdEnv quarterArc (pt 0 0) (pt 1 0)).data.angle1
        = 0 + k * (2 * π)) ∧
      (∃ k : ℤ, (RS_Arc.mirror stdEnv quarterArc (pt 0 0) (pt 1 0)).data.angle2
        = -(π / 2) + k * (2 * π)) ∧
      (RS_Arc.mirror stdEnv quarterArc (pt 0 0) (pt 1 0)).data.reversed = true := by
  have hp := Real.pi_gt_three
  have hne : (pt (0 : ℝ) 0).x ≠ (pt (1 : ℝ) 0).x ∨ (pt (0 : ℝ) 0).y ≠ (pt (1 : ℝ) 0).y := by
    left; norm_num [pt, RS_Vector.mk2]
  have hpi : (1 / 10 ^ 8 : ℝ) ≤ π := by norm_num; linarith
  have hax := angle_real_x_axis (1 / 10 ^ 10) (1 / 10 ^ 20) (1 / 10 ^ 8)
  have hs : RS_Arc.getStartpoint quarterArc
      = RS_Vector.relative stdEnv quarterArc.data.center quarterArc.data.radius
          quarterArc.data.angle1 := (calculateBorders_consistent stdEnv _).1
  obtain ⟨-, hrev, -, -, ⟨k1, hk1⟩, ⟨k2, hk2⟩, hst, -⟩ :=
    mirror_spec (1 / 10 ^ 10) (1 / 10 ^ 20) (1 / 10 ^ 8) (by norm_num) hpi quarterArc
      (pt 0 0) (pt 1 0) hne
  rw [hax, quarterArc_data] at hk1 hk2
  refine ⟨by norm_num, hpi, hne, hs, hst hs, ⟨k1, ?_⟩, ⟨k2, ?_⟩, ?_⟩
  · rw [stdEnv_eq, hk1]; ring
  · rw [stdEnv_eq, hk2]; ring
  · rw [stdEnv_eq, hrev, quarterArc_data]; rfl

/-- C14 (counterexample): on the arc that the successful `createFrom3P((0,0), (1,1), (2,0))`
leaves behind, mirrored about the x-axis, the start point after the call is `(0, 0)`, while the
mirror image of the start point before the call, `(1, 0)`, is `(1, 0)`. -/
theorem mirror_stale_startpoint :
    (RS_Arc.createFrom3P stdEnv sampleArc (pt 0 0) (pt 1 1) (pt 2 0)).1 = true ∧
      RS_Arc.getStartpoint (RS_Arc.mirror stdEnv staleArc (pt 0 0) (pt 1 0)) = pt 0 0 ∧
      RS_Vector.mirror (RS_Arc.getStartpoint staleArc) (pt 0 0) (pt 1 0) = pt 1 0 ∧
      ¬ (RS_Arc.getStartpoint (RS_Arc.mirror stdEnv staleArc (pt 0 0) (pt 1 0))
          = RS_Vector.mirror (RS_Arc.getStartpoint staleArc) (pt 0 0) (pt 1 0)) := by
  have hp := Real.pi_gt_three
  have hne : (pt (0 : ℝ) 0).x ≠ (pt (1 : ℝ) 0).x ∨ (pt (0 : ℝ) 0).y ≠ (pt (1 : ℝ) 0).y := by
    left; norm_num [pt, RS_Vector.mk2]
  have hpi : (1 / 10 ^ 8 : ℝ) ≤ π := by norm_num; linarith
  obtain ⟨-, -, -, -, hs, -⟩ := staleArc_facts
  have hrel := staleArc_circle_points.1
  rw [stdEnv_eq] at hrel
  have h1 : RS_Arc.getStartpoint (RS_Arc.mirror stdEnv staleArc (pt 0 0) (pt 1 0)) = pt 0 0 := by
    rw [stdEnv_eq, mirror_real_eq _ _ _ (by norm_num) hpi]
    have e := mirror_relative_real (1 / 10 ^ 10) (1 / 10 ^ 20) (1 / 10 ^ 8)
      staleArc.data.center (pt 0 0) (pt 1 0) staleArc.data.radius staleArc.data.angle1 hne
    rw [hrel] at e
    refine Eq.trans e ?_
    rw [mirror_coords]
    norm_num [pt, RS_Vector.mk2]
  have h2 : RS_Vector.mirror (RS_Arc.getStartpoint staleArc) (pt 0 0) (pt 1 0) = pt 1 0 := by
    rw [RS_Arc.getStartpoint, hs, mirror_coords]
    norm_num [pt, RS_Vector.mk2]
  refine ⟨(createFrom3P_scenario sampleArc).1, h1, h2, ?_⟩
  rw [h1, h2]
  intro h
  have hx : (0 : ℝ) = 1 := congrArg RS_Vector.x h
  linarith

/-- C16 (as amended): in exact arithmetic, for every arc, pivot `c` and factor vector `f`, after
`scale(c, f)` the radius is `|f.x| * |oldRadius|`, which is `|f.x| * oldRadius` for an arc with
radius `≥ 0` (`f.y` does not enter); the center is `c + ((oldCenter.x - c.x) f.x,
(oldCenter.y - c.y) f.y)`; a mirror about the axis through the old center is applied first for
each negative component: each stored angle `a` becomes `correctAngle(π - a)` when `f.x < 0` and
then `correctAngle(-a)` when `f.y < 0`, and `reversed` is flipped exactly when exactly one of
`f.x`, `f.y` is negative. -/
theorem scale_spec (t t2 ta : ℝ) (hta : 0 < ta) (hpi : ta ≤ π) (arc : RS_Arc ℝ)
    (c f : RS_Vector ℝ) :
    (RS_Arc.scale (realEnv t t2 ta) arc c f).data.radius = |f.x| * |arc.data.radius| ∧
      (0 ≤ arc.data.radius →
        (RS_Arc.scale (realEnv t t2 ta) arc c f).data.radius = |f.x| * arc.data.radius) ∧
      (RS_Arc.scale (realEnv t t2 ta) arc c f).data.center.x
        = c.x + (arc.data.center.x - c.x) * f.x ∧
      (RS_Arc.scale (realEnv t t2 ta) arc c f).data.center.y
        = c.y + (arc.data.center.y - c.y) * f.y ∧
      (RS_Arc.scale (realEnv t t2 ta) arc c f).data.reversed
        = xor arc.data.reversed (xor (decide (f.x < 0)) (decide (f.y < 0))) ∧
      (RS_Arc.scale (realEnv t t2 ta) arc c f).data.angle1
        = (if f.y < 0 then RS_Math.correctAngle (realEnv t t2 ta)
              (-(if f.x < 0 then RS_Math.correctAngle (realEnv t t2 ta) (π - arc.data.angle1)
                  else arc.data.angle1))
            else (if f.x < 0 then RS_Math.correctAngle (realEnv t t2 ta) (π - arc.data.angle1)
              else arc.data.angle1)) ∧
      (RS_Arc.scale (realEnv t t2 ta) arc c f).data.angle2
        = (if f.y < 0 then RS_Math.correctAngle (realEnv t t2 ta)
              (-(if f.x < 0 then RS_Math.correctAngle (realEnv t t2 ta) (π - arc.data.angle2)
                  else arc.data.angle2))
            else (if f.x < 0 then RS_Math.correctAngle (realEnv t t2 ta) (π - arc.data.angle2)
              else arc.data.angle2)) := by
  obtain ⟨hr, hx, hy, hv⟩ := scale_keeps (realEnv t t2 ta) arc c f
  obtain ⟨ha1, ha2⟩ := scale_real_angles t t2 ta hta hpi arc c f
  have hrad : |arc.data.radius * f.x| = |f.x| * |arc.data.radius| := by
    rw [abs_mul, mul_comm]
  refine ⟨hr.trans hrad, ?_, hx, hy, hv, ha1, ha2⟩
  intro h0
  rw [hr, hrad, abs_of_nonneg h0]

theorem scale_spec_witness :
    (0 : ℝ) < 1 / 10 ^ 8 ∧ (1 / 10 ^ 8 : ℝ) ≤ π ∧ (0 : ℝ) ≤ sampleArc.data.radius ∧
      (RS_Arc.scale stdEnv sampleArc (pt 1 1) (pt (-2) 3)).data.radius = 2 ∧
      (RS_Arc.scale stdEnv sampleArc (pt 1 1) (pt (-2) 3)).data.center.x = 3 ∧
      (RS_Arc.scale stdEnv sampleArc (pt 1 1) (pt (-2) 3)).data.center.y = -2 ∧
      (RS_Arc.scale stdEnv sampleArc (pt 1 1) (pt (-2) 3)).data.reversed = true ∧
      (RS_Arc.scale stdEnv sampleArc (pt 1 1) (pt (-2) 3)).data.angle1 = π ∧
      (RS_Arc.scale stdEnv sampleArc (pt 1 1) (pt (-2) 3)).data.angle2 = π - 1 := by
  have hp := Real.pi_gt_three
  have hpi : (1 / 10 ^ 8 : ℝ) ≤ π := by norm_num; linarith
  have hr : (0 : ℝ) ≤ sampleArc.data.radius := by rw [sampleArc_data]; norm_num
  obtain ⟨-, h1, h2, h3, h4, h5, h6⟩ :=
    scale_spec (1 / 10 ^ 10) (1 / 10 ^ 20) (1 / 10 ^ 8) (by norm_num) hpi sampleArc
      (pt 1 1) (pt (-2) 3)
  have hfx : (pt (-2 : ℝ) 3).x < 0 := by norm_num [pt, RS_Vector.mk2]
  have hfy : ¬ (pt (-2 : ℝ) 3).y < 0 := by norm_num [pt, RS_Vector.mk2]
  rw [if_neg hfy, if_pos hfx] at h5 h6
  refine ⟨by norm_num, hpi, hr, ?_, ?_, ?_, ?_, ?_, ?_⟩
  · rw [stdEnv_eq, h1 hr, sampleArc_data]; norm_num [pt, RS_Vector.mk2]
  · rw [stdEnv_eq, h2, sampleArc_data]; norm_num [pt, RS_Vector.mk2]
  · rw [stdEnv_eq, h3, sampleArc_data]; norm_num [pt, RS_Vector.mk2]
  · rw [stdEnv_eq, h4, sampleArc_data]; simp [pt, RS_Vector.mk2]
  · rw [stdEnv_eq, h5, sampleArc_data]
    exact correctAngle_real_eq _ _ _ _ π (by positivity) (by linarith) ⟨0, by simp⟩
  · rw [stdEnv_eq, h6, sampleArc_data]
    exact correctAngle_real_eq _ _ _ _ (π - 1) (by linarith) (by linarith) ⟨0, by simp⟩

/-- C16 (counterexample): the arc built with radius `-1`, scaled about the origin by the factor
`(1, 1)`, has radius `1` afterwards, not `|f.x| * oldRadius = -1`. -/
theorem scale_negative_radius :
    (RS_Arc.scale stdEnv negArc (pt 0 0) (pt 1 1)).data.radius = 1 ∧
      ¬ ((RS_Arc.scale stdEnv negArc (pt 0 0) (pt 1 1)).data.radius
          = |(pt (1 : ℝ) 1).x| * negArc.data.radius) := by
  have h := (scale_keeps stdEnv negArc (pt 0 0) (pt 1 1)).1
  rw [negArc_data] at h
  have h1 : (RS_Arc.scale stdEnv negArc (pt 0 0) (pt 1 1)).data.radius = 1 := by
    rw [h]; norm_num [pt, RS_Vector.mk2]
  refine ⟨h1, ?_⟩
  rw [h1, negArc_data]
  norm_num [pt, RS_Vector.mk2]

/-- C26 (as amended): in exact arithmetic with `RS_TOLERANCE > 0`, for an arc with normalised
angles (both in `[0, 2π)`) that is not the undefined-start full circle, every `coord` and
every `middlePoints` with `1 ≤ middlePoints < 2^31 - 1` (so that `middlePoints + 1` fits an
`int`): if the angle of the nearest point on the entity lies on the span, that is
`q = fmod(angle - amin + 2π, 2π)` is at most the sweep `da`, then `getNearestMiddle` returns
`center + radius (cos s, sin s)` with `s = amin + da i / (middlePoints + 1)` for an integer
`1 ≤ i ≤ middlePoints`, and reports the distance from `coord` to that point; `amin` is the
counter-clockwise start angle and `da` the sweep the code computes. -/
theorem getNearestMiddle_interior (t t2 ta maxD : ℝ) (ht : 0 < t) (arc : RS_Arc ℝ)
    (coord : RS_Vector ℝ) (mp : ℤ) (hmp : 1 ≤ mp) (hmp2 : mp < 2 ^ 31 - 1)
    (h1 : 0 ≤ arc.data.angle1 ∧ arc.data.angle1 < 2 * π)
    (h2 : 0 ≤ arc.data.angle2 ∧ arc.data.angle2 < 2 * π)
    (hnz : arc.data.angle1 ≠ 0 ∨ arc.data.angle2 ≠ 0) (amin da q : ℝ)
    (hamin : amin = if arc.data.reversed then arc.data.angle2 else arc.data.angle1)
    (hda : da = if (realEnv t t2 ta).fmod
          ((if arc.data.reversed then arc.data.angle1 else arc.data.angle2) - amin + 2 * π)
          (2 * π) < t then 2 * π
        else (realEnv t t2 ta).fmod
          ((if arc.data.reversed then arc.data.angle1 else arc.data.angle2) - amin + 2 * π)
          (2 * π))
    (hq : q = (realEnv t t2 ta).fmod (RS_Vector.angleTo (realEnv t t2 ta) arc.data.center
        (RS_Arc.getNearestPointOnEntity (realEnv t t2 ta) arc coord true).1 - amin + 2 * π)
        (2 * π))
    (hspan : q ≤ da) :
    ∃ i : ℤ, 1 ≤ i ∧ i ≤ mp ∧
      (RS_Arc.getNearestMiddle (realEnv t t2 ta) maxD arc coord mp).1.x
        = arc.data.center.x
          + arc.data.radius * Real.cos (amin + da * ((i : ℝ) / ((mp + 1 : ℤ) : ℝ))) ∧
      (RS_Arc.getNearestMiddle (realEnv t t2 ta) maxD arc coord mp).1.y
        = arc.data.center.y
          + arc.data.radius * Real.sin (amin + da * ((i : ℝ) / ((mp + 1 : ℤ) : ℝ))) ∧
      (RS_Arc.getNearestMiddle (realEnv t t2 ta) maxD arc coord mp).2
        = RS_Vector.distanceTo (realEnv t t2 ta)
            (RS_Arc.getNearestMiddle (realEnv t t2 ta) maxD arc coord mp).1 coord := by
  have hp := Real.pi_pos
  have hamin0 : 0 ≤ amin ∧ amin < 2 * π := by
    rw [hamin]; split_ifs
    · exact h2
    · exact h1
  have hamax0 : 0 ≤ (if arc.data.reversed then arc.data.angle1 else arc.data.angle2) := by
    split_ifs
    · exact h1.1
    · exact h2.1
  obtain ⟨hA0, -, -⟩ := correctAngle_real_spec t t2 ta
    ((realEnv t t2 ta).atan2
      (RS_Vector.sub (RS_Arc.getNearestPointOnEntity (realEnv t t2 ta) arc coord true).1
        arc.data.center).y
      (RS_Vector.sub (RS_Arc.getNearestPointOnEntity (realEnv t t2 ta) arc coord true).1
        arc.data.center).x)
  have hA : 0 ≤ RS_Vector.angleTo (realEnv t t2 ta) arc.data.center
      (RS_Arc.getNearestPointOnEntity (realEnv t t2 ta) arc coord true).1 := hA0
  have hq0 : 0 ≤ q := by
    rw [hq]
    exact (fmod_real_spec t t2 ta _).2.1 (by linarith [hamin0.2])
  have hda0 : 0 ≤ (realEnv t t2 ta).fmod
      ((if arc.data.reversed then arc.data.angle1 else arc.data.angle2) - amin + 2 * π)
      (2 * π) :=
    (fmod_real_spec t t2 ta _).2.1 (by linarith [hamin0.2])
  have hdapos : 0 < da := by
    rw [hda]
    generalize (realEnv t t2 ta).fmod
      ((if arc.data.reversed then arc.data.angle1 else arc.data.angle2) - amin + 2 * π)
      (2 * π) = f at hda0
    by_cases h : f < t
    · rw [if_pos h]; positivity
    · rw [if_neg h]; linarith [not_lt.mp h]
  have hρ0 : 0 ≤ q / da := div_nonneg hq0 hdapos.le
  have hρ1 : q / da ≤ 1 := (div_le_one hdapos).mpr hspan
  have hc : wrapInt32 (wrapInt32 mp + 1) = mp + 1 := by
    rw [wrapInt32_of_range mp (by omega) (by omega),
      wrapInt32_of_range (mp + 1) (by omega) (by omega)]
  obtain ⟨hi0, hi1⟩ := truncInt_ratio (q / da) (mp + 1) (by omega) (by omega) hρ0 hρ1
  obtain ⟨hj0, hj1⟩ := middle_index_clamp _ (mp + 1) (by omega) (by omega) hi0 hi1
  have heq := getNearestMiddle_eq (realEnv t t2 ta) maxD arc coord mp hnz amin da (mp + 1)
    (truncInt (q / da * ((mp + 1 : ℤ) : ℝ) + 1 / 2)) _ hamin hda hc.symm
    (by rw [hq]; rfl) rfl
  refine ⟨_, hj0, by omega, ?_, ?_, ?_⟩
  · rw [heq]
    simp only [RS_Vector.addAssign, RS_Vector.polar, realEnv_cos]
    ring
  · rw [heq]
    simp only [RS_Vector.addAssign, RS_Vector.polar, realEnv_sin]
    ring
  · rw [heq]

theorem getNearestMiddle_interior_witness :
    ∃ i : ℤ, 1 ≤ i ∧ i ≤ 1 ∧
      (RS_Arc.getNearestMiddle stdEnv (10 ^ 10) sampleArc (pt 1 0) 1).1.x
        = sampleArc.data.center.x
          + sampleArc.data.radius * Real.cos (0 + 1 * ((i : ℝ) / ((1 + 1 : ℤ) : ℝ))) := by
  have hp := Real.pi_gt_three
  obtain ⟨i, hi1, hi2, hx, -, -⟩ := getNearestMiddle_interior (1 / 10 ^ 10) (1 / 10 ^ 20)
    (1 / 10 ^ 8) (10 ^ 10) (by norm_num) sampleArc (pt 1 0) 1 le_rfl (by norm_num)
    (by rw [sampleArc_data]; constructor <;> norm_num; linarith)
    (by rw [sampleArc_data]; constructor <;> norm_num; linarith)
    (Or.inr (by rw [sampleArc_data]; norm_num)) 0 1 0 rfl
    (middle_sweep_zero_one sampleArc rfl rfl) sampleArc_middle_offset (by norm_num)
  exact ⟨i, hi1, hi2, hx⟩

/-- C26 (counterexample): both arcs have the normalised angles `angle1 = 0`, `angle2 = 1` and
the query point is `(1, 0)`.  For the sample arc and `middlePoints = 2^31 - 1` the counter
`middlePoints + 1` overflows the `int` and the returned point has the ordinate
`sin(-1/2^31) < 0`, which no point `center + radius (cos s, sin s)` with
`s = amin + da i / (middlePoints + 1)`, `1 ≤ i ≤ middlePoints`, has.  For the arc built with
radius `-1` and `middlePoints = 1` the nearest point on the entity is `(-1, 0)`, off the span,
and the returned point has the abscissa `-cos 3 > 0`, not `-cos(1/2)`, that of the only
candidate `i = 1`. -/
theorem getNearestMiddle_outside :
    ((0 ≤ sampleArc.data.angle1 ∧ sampleArc.data.angle1 < 2 * π) ∧
      (0 ≤ sampleArc.data.angle2 ∧ sampleArc.data.angle2 < 2 * π) ∧
      sampleArc.data.angle2 ≠ 0 ∧
      (RS_Arc.getNearestMiddle stdEnv (10 ^ 10) sampleArc (pt 1 0) (2 ^ 31 - 1)).1.y
        = Real.sin (-(1 / 2 ^ 31)) ∧
      ¬ ∃ i : ℤ, 1 ≤ i ∧ i ≤ 2 ^ 31 - 1 ∧
        (RS_Arc.getNearestMiddle stdEnv (10 ^ 10) sampleArc (pt 1 0) (2 ^ 31 - 1)).1.y
          = sampleArc.data.center.y + sampleArc.data.radius
            * Real.sin (sampleArc.data.angle1
              + (sampleArc.data.angle2 - sampleArc.data.angle1)
                * ((i : ℝ) / ((2 ^ 31 - 1 + 1 : ℤ) : ℝ)))) ∧
    ((0 ≤ negArc.data.angle1 ∧ negArc.data.angle1 < 2 * π) ∧
      (0 ≤ negArc.data.angle2 ∧ negArc.data.angle2 < 2 * π) ∧
      negArc.data.angle2 ≠ 0 ∧
      (RS_Arc.getNearestMiddle stdEnv (10 ^ 10) negArc (pt 1 0) 1).1.x = -Real.cos 3 ∧
      ¬ ∃ i : ℤ, 1 ≤ i ∧ i ≤ 1 ∧
        (RS_Arc.getNearestMiddle stdEnv (10 ^ 10) negArc (pt 1 0) 1).1.x
          = negArc.data.center.x + negArc.data.radius
            * Real.cos (negArc.data.angle1
              + (negArc.data.angle2 - negArc.data.angle1)
                * ((i : ℝ) / ((1 + 1 : ℤ) : ℝ)))) := by
  have hp := Real.pi_gt_d2
  have hp2 := Real.pi_lt_d2
  have hy : (RS_Arc.getNearestMiddle stdEnv (10 ^ 10) sampleArc (pt 1 0) (2 ^ 31 - 1)).1.y
      = Real.sin (-(1 / 2 ^ 31)) := by
    have heq := getNearestMiddle_eq (realEnv (1 / 10 ^ 10) (1 / 10 ^ 20) (1 / 10 ^ 8)) (10 ^ 10)
      sampleArc (pt 1 0) (2 ^ 31 - 1) (Or.inr (by rw [sampleArc_data]; norm_num)) 0 1
      (-2 ^ 31) 0 1 rfl (middle_sweep_zero_one sampleArc rfl rfl)
      (by norm_num [wrapInt32])
      (by
        simp only [realEnv_pi]
        rw [← sampleArc_middle_offset]
        exact (truncInt_real_eq _ 0 (by norm_num) (by norm_num) le_rfl (by norm_num)).symm)
      (by norm_num [wrapInt32])
    rw [stdEnv_eq, heq]
    have e : (0 : ℝ) + 1 * (((1 : ℤ) : ℝ) / ((-2 ^ 31 : ℤ) : ℝ)) = -(1 / 2 ^ 31) := by
      push_cast; norm_num
    simp only [RS_Vector.addAssign, RS_Vector.polar, realEnv_sin, e, sampleArc_data, pt,
      RS_Vector.mk2]
    ring
  have hx : (RS_Arc.getNearestMiddle stdEnv (10 ^ 10) negArc (pt 1 0) 1).1.x = -Real.cos 3 := by
    have heq := getNearestMiddle_eq (realEnv (1 / 10 ^ 10) (1 / 10 ^ 20) (1 / 10 ^ 8)) (10 ^ 10)
      negArc (pt 1 0) 1 (Or.inr (by rw [negArc_data]; norm_num)) 0 1
      2 6 6 rfl (middle_sweep_zero_one negArc rfl rfl)
      (by norm_num [wrapInt32])
      (by
        simp only [realEnv_pi]
        rw [← negArc_middle_offset]
        exact (truncInt_real_eq _ 6 (by push_cast; linarith) (by push_cast; linarith)
          (by norm_num) (by norm_num)).symm)
      (by norm_num [wrapInt32])
    rw [stdEnv_eq, heq]
    have e : (0 : ℝ) + 1 * (((6 : ℤ) : ℝ) / ((2 : ℤ) : ℝ)) = 3 := by
      push_cast; norm_num
    simp only [RS_Vector.addAssign, RS_Vector.polar, realEnv_cos, e, negArc_data, pt,
      RS_Vector.mk2]
    ring
  refine ⟨⟨?_, ?_, ?_, hy, ?_⟩, ⟨?_, ?_, ?_, hx, ?_⟩⟩
  · rw [sampleArc_data]; constructor <;> norm_num; linarith
  · rw [sampleArc_data]; constructor <;> norm_num; linarith
  · rw [sampleArc_data]; norm_num
  · rintro ⟨i, hi1, hi2, h⟩
    rw [hy, sampleArc_data] at h
    have hi1r : (1 : ℝ) ≤ i := by exact_mod_cast hi1
    have hi2r : (i : ℝ) ≤ 2 ^ 31 - 1 := by exact_mod_cast hi2
    have hu0 : 0 < (i : ℝ) / 2 ^ 31 := by positivity
    have hu1 : (i : ℝ) / 2 ^ 31 < 1 := by
      rw [div_lt_one (by positivity)]; linarith
    have hneg : Real.sin (-(1 / 2 ^ 31)) < 0 :=
      Real.sin_neg_of_neg_of_neg_pi_lt (by norm_num) (by norm_num; linarith)
    have hpos : 0 < Real.sin ((i : ℝ) / 2 ^ 31) :=
      Real.sin_pos_of_pos_of_lt_pi hu0 (by linarith)
    have e : (pt (0 : ℝ) 0).y + 1 * Real.sin (0 + (1 - 0)
        * ((i : ℝ) / ((2 ^ 31 - 1 + 1 : ℤ) : ℝ))) = Real.sin ((i : ℝ) / 2 ^ 31) := by
      have e2 : (0 : ℝ) + (1 - 0) * ((i : ℝ) / ((2 ^ 31 - 1 + 1 : ℤ) : ℝ))
          = (i : ℝ) / 2 ^ 31 := by
        push_cast; norm_num
      rw [e2]
      simp [pt, RS_Vector.mk2]
    rw [e] at h
    linarith
  · rw [negArc_data]; constructor <;> norm_num; linarith
  · rw [negArc_data]; constructor <;> norm_num; linarith
  · rw [negArc_data]; norm_num
  · rintro ⟨i, hi1, hi2, h⟩
    have hi : i = 1 := le_antisymm hi2 hi1
    subst hi
    rw [hx, negArc_data] at h
    have hc3 : Real.cos 3 < 0 :=
      Real.cos_neg_of_pi_div_two_lt_of_lt (by linarith) (by linarith)
    have hc12 : 0 < Real.cos (1 / 2) :=
      Real.cos_pos_of_mem_Ioo ⟨by linarith, by linarith⟩
    have e : (pt (0 : ℝ) 0).x + -1 * Real.cos (0 + (1 - 0)
        * (((1 : ℤ) : ℝ) / ((1 + 1 : ℤ) : ℝ))) = -Real.cos (1 / 2) := by
      have e2 : (0 : ℝ) + (1 - 0) * (((1 : ℤ) : ℝ) / ((1 + 1 : ℤ) : ℝ)) = 1 / 2 := by
        push_cast; norm_num
      rw [e2]
      simp [pt, RS_Vector.mk2]
    rw [e] at h
    linarith

/-- C30: in exact arithmetic, the bounding box computed by `calculateBorders()` encloses the
arc: for every arc with radius `≥ 0`, with `amin`, `amax` the counter-clockwise start and end
angle, and every angle `s` between them in the traversal direction (the normalised distance of
`s` from `amin`, or that of `amax` from `s`, is at most the normalised span
`correctAngle(amax - amin)`), the point `center + radius (cos s, sin s)` satisfies
`minV.x ≤ x ≤ maxV.x` and `minV.y ≤ y ≤ maxV.y`; when the arc counts as a full circle
(`|remainder(amax - amin, 2π)| < RS_TOLERANCE_ANGLE`) every point of the circle does; the box
contains the start point and the end point, and it is contained in the square
`[center - radius, center + radius]²`. -/
theorem calculateBorders_encloses (t t2 ta : ℝ) (hta : 0 ≤ ta) (arc : RS_Arc ℝ)
    (hr : 0 ≤ arc.data.radius) (amin amax : ℝ)
    (hamin : amin = if arc.data.reversed then arc.data.angle2 else arc.data.angle1)
    (hamax : amax = if arc.data.reversed then arc.data.angle1 else arc.data.angle2) :
    (∀ s : ℝ,
      (RS_Math.correctAngle (realEnv t t2 ta) (s - amin)
          ≤ RS_Math.correctAngle (realEnv t t2 ta) (amax - amin) ∨
        RS_Math.correctAngle (realEnv t t2 ta) (amax - s)
          ≤ RS_Math.correctAngle (realEnv t t2 ta) (amax - amin)) →
      InBox (RS_Arc.calculateBorders (realEnv t t2 ta) arc)
        (arc.data.center.x + arc.data.radius * Real.cos s)
        (arc.data.center.y + arc.data.radius * Real.sin s)) ∧
    (RS_Math.getAngleDifferenceU (realEnv t t2 ta) amax amin < ta →
      ∀ s : ℝ, InBox (RS_Arc.calculateBorders (realEnv t t2 ta) arc)
        (arc.data.center.x + arc.data.radius * Real.cos s)
        (arc.data.center.y + arc.data.radius * Real.sin s)) ∧
    InBox (RS_Arc.calculateBorders (realEnv t t2 ta) arc)
      (RS_Arc.getStartpoint (RS_Arc.calculateBorders (realEnv t t2 ta) arc)).x
      (RS_Arc.getStartpoint (RS_Arc.calculateBorders (realEnv t t2 ta) arc)).y ∧
    InBox (RS_Arc.calculateBorders (realEnv t t2 ta) arc)
      (RS_Arc.getEndpoint (RS_Arc.calculateBorders (realEnv t t2 ta) arc)).x
      (RS_Arc.getEndpoint (RS_Arc.calculateBorders (realEnv t t2 ta) arc)).y ∧
    (arc.data.center.x - arc.data.radius
        ≤ (RS_Arc.calculateBorders (realEnv t t2 ta) arc).minV.x ∧
      (RS_Arc.calculateBorders (realEnv t t2 ta) arc).maxV.x
        ≤ arc.data.center.x + arc.data.radius ∧
      arc.data.center.y - arc.data.radius
        ≤ (RS_Arc.calculateBorders (realEnv t t2 ta) arc).minV.y ∧
      (RS_Arc.calculateBorders (realEnv t t2 ta) arc).maxV.y
        ≤ arc.data.center.y + arc.data.radius) := by
  refine ⟨?_, ?_, ?_, ?_, box_within_square t t2 ta arc hr⟩
  · intro s hs
    have hle : RS_Math.correctAngle (realEnv t t2 ta) (s - amin)
        ≤ RS_Math.correctAngle (realEnv t t2 ta) (amax - amin) := by
      rcases hs with h | h
      · exact h
      · exact containment_from_end t t2 ta s amin amax h
    obtain ⟨u0, -, k, hk⟩ := correctAngle_real_spec t t2 ta (s - amin)
    have hgen : ∀ s1 u : ℝ, 0 ≤ u →
        u ≤ RS_Math.correctAngle (realEnv t t2 ta) (amax - amin) → s1 = amin + u →
        InBox (RS_Arc.calculateBorders (realEnv t t2 ta) arc)
          (arc.data.center.x + arc.data.radius * Real.cos s1)
          (arc.data.center.y + arc.data.radius * Real.sin s1) := by
      intro s1 u hu0 hu1 hs1
      apply inBox_of_axis_bounds t t2 ta arc hr s1
      intro φ hφ
      rw [← hamin, ← hamax] at hφ
      have hb := span_cos_le t t2 ta hta φ amin amax s1 u hu0 hu1 hs1 hφ
      rw [hamin, hamax] at hb
      revert hb
      cases arc.data.reversed
      · intro hb; simpa using hb
      · intro hb; rw [max_comm]; simpa using hb
    have hbox := hgen (s + k * (2 * π)) _ u0 hle (by rw [hk]; ring)
    rw [Real.cos_add_int_mul_two_pi, Real.sin_add_int_mul_two_pi] at hbox
    exact hbox
  · intro hfull s
    apply inBox_of_axis_bounds t t2 ta arc hr s
    intro φ hφ
    exfalso
    rw [← hamin, ← hamax] at hφ
    unfold RS_Math.isAngleBetween at hφ
    simp only [Bool.false_eq_true, if_false, realEnv_tolA] at hφ
    rw [if_pos hfull] at hφ
    exact Bool.noConfusion hφ
  · exact inBox_of_axis_bounds t t2 ta arc hr arc.data.angle1 (fun φ _ => le_max_left _ _)
  · exact inBox_of_axis_bounds t t2 ta arc hr arc.data.angle2 (fun φ _ => le_max_right _ _)

theorem calculateBorders_encloses_witness :
    (0 : ℝ) ≤ 1 / 10 ^ 8 ∧ 0 ≤ sampleArc.data.radius ∧
      RS_Math.correctAngle stdEnv (1 / 2 - 0) ≤ RS_Math.correctAngle stdEnv (1 - 0) ∧
      InBox (RS_Arc.calculateBorders stdEnv sampleArc)
        (sampleArc.data.center.x + sampleArc.data.radius * Real.cos (1 / 2))
        (sampleArc.data.center.y + sampleArc.data.radius * Real.sin (1 / 2)) := by
  have hp := Real.pi_gt_three
  have hr : 0 ≤ sampleArc.data.radius := by rw [sampleArc_data]; norm_num
  have hc : RS_Math.correctAngle (realEnv (1 / 10 ^ 10) (1 / 10 ^ 20) (1 / 10 ^ 8)) (1 - 0) = 1 :=
    correctAngle_real_eq _ _ _ _ 1 (by norm_num) (by linarith) ⟨0, by simp⟩
  have hc2 : RS_Math.correctAngle (realEnv (1 / 10 ^ 10) (1 / 10 ^ 20) (1 / 10 ^ 8)) (1 / 2 - 0)
      = 1 / 2 :=
    correctAngle_real_eq _ _ _ _ (1 / 2) (by norm_num) (by linarith) ⟨0, by simp⟩
  have hle : RS_Math.correctAngle (realEnv (1 / 10 ^ 10) (1 / 10 ^ 20) (1 / 10 ^ 8)) (1 / 2 - 0)
      ≤ RS_Math.correctAngle (realEnv (1 / 10 ^ 10) (1 / 10 ^ 20) (1 / 10 ^ 8)) (1 - 0) := by
    rw [hc, hc2]; norm_num
  exact ⟨by norm_num, hr, hle,
    (calculateBorders_encloses (1 / 10 ^ 10) (1 / 10 ^ 20) (1 / 10 ^ 8) (by norm_num) sampleArc
      hr 0 1 rfl rfl).1 (1 / 2) (Or.inl hle)⟩

end Claims

end LibreCAD
